import Mathlib

/-!
# wppsvr: retrieval coordinator and transactional store

A shallow embedding of `retrieve/retrieve.go` and `db/tx.go` and the properties
proved about them.

Instants (`time.Time`) are values of `Int` counting nanoseconds since the zero time, so
`t.After(u)` is `u < t`, `t.Add(d)` is `t + d`, and `t.Truncate(d)` rounds `t`
down to a multiple of `d`.
-/

namespace Wppsvr

/-! ## Instants -/

/-- The duration `time.Minute`, in nanoseconds. -/
def minute : Int := 60000000000

/-- The method `t.Truncate(time.Minute)`: `t` rounded down to a multiple of a
minute since the zero time. -/
def truncate (t : Int) : Int := t - t % minute

/-- An instant that lies exactly on a minute boundary. -/
def wholeMinute (t : Int) : Prop := t % minute = 0

instance (t : Int) : Decidable (wholeMinute t) := by
  unfold wholeMinute; infer_instance

/-! ## Retrieval coordinator: the due-point computation
(`ForRunningSessions` lines 24-35, `ForSession` lines 46-57) -/

/-- The initial `point` of `ForRunningSessions` and `ForSession`:
`point := now; if point.Equal(point.Truncate(time.Minute)) then
point.Add(-time.Minute) else point.Truncate(time.Minute)`. -/
def initialPoint (now : Int) : Int :=
  if now = truncate now then now + -minute else truncate now

/-- The walk-back loop run for at most `fuel` iterations:
`for point.After(lastRun) && !Match(point) then point = point.Add(-time.Minute)`. -/
def walkBackFuel (Match : Int → Bool) (lastRun : Int) : Nat → Int → Int
  | 0, point => point
  | fuel + 1, point =>
    if lastRun < point ∧ Match point = false then
      walkBackFuel Match lastRun fuel (point + -minute)
    else point

/-- The walk-back loop.  The iteration budget is the number of minute steps that
fit between `lastRun` and `point`, which the loop cannot exceed
(`walkBack_eq` shows the budget is never exhausted). -/
def walkBack (Match : Int → Bool) (lastRun point : Int) : Int :=
  walkBackFuel Match lastRun ((point - lastRun) / minute + 1).toNat point

/-- The guard `point.After(ret.LastRun)` evaluated after the walk-back loop: the
retrieval is due and `checkBBS` is called exactly when it holds. -/
def retrievalDue (Match : Int → Bool) (now lastRun : Int) : Bool :=
  decide (lastRun < walkBack Match lastRun (initialPoint now))

/-- A cadence of "every 20 minutes", as an `interval.Interval` would match it:
minute-of-hour 0, 20 or 40, whatever the seconds. -/
def every20 (t : Int) : Bool := decide ((t / minute) % 60 % 20 = 0)

/-- The instant `h:m:s` of the first day. -/
def clockTime (h m s : Int) : Int := ((h * 60 + m) * 60 + s) * 1000000000

/-! ## Sessions, retrievals, responses (`store/session.go`, `store/response.go`) -/

/-- A `store.Retrieval`: a single scheduled retrieval for a session. -/
structure Retrieval where
  BBS : String
  LastRun : Int
  deriving DecidableEq, Repr

/-- The flag `store.Running` (`1 << 0`). -/
def Running : Nat := 1
/-- The flag `store.ExcludeFromWeek` (`1 << 1`). -/
def ExcludeFromWeek : Nat := 2
/-- The flag `store.DontKillMessages` (`1 << 2`). -/
def DontKillMessages : Nat := 4
/-- The flag `store.DontSendResponses` (`1 << 3`). -/
def DontSendResponses : Nat := 8
/-- The flag `store.Imported` (`1 << 4`). -/
def Imported : Nat := 16
/-- The flag `store.Modified` (`1 << 5`). -/
def Modified : Nat := 32
/-- The flag `store.ReportToSenders` (`1 << 6`). -/
def ReportToSenders : Nat := 64

/-- A `store.Session`, with the fields that are stored.  `Flags` is the
`SessionFlags` bit set; `RetrieveInterval` is not a field here: it is always
`interval.Parse(RetrieveAt)` and is consulted through `Env.Match`. -/
structure Session where
  ID : Int
  CallSign : String
  Name : String
  Prefix : String
  Start : Int
  End : Int
  ReportToText : List String
  ReportToHTML : List String
  ToBBSes : List String
  DownBBSes : List String
  Retrieve : List Retrieval
  MessageTypes : List String
  ModelMessage : String
  Instructions : String
  RetrieveAt : String
  Report : String
  Flags : Nat
  deriving DecidableEq, Repr

/-- A `store.Response`: an outgoing message that responds to a received one. -/
structure Response where
  LocalID : String
  ResponseTo : String
  To : String
  Subject : String
  Body : String
  SendTime : Int
  SenderCall : String
  SenderBBS : String
  deriving DecidableEq, Repr

/-! ## The collaborators of the retrieval coordinator

The coordinator talks to the clock, to mailboxes, to the message analysis and to
the store.  Every such call is recorded as an `Event`; a history is the list of
events so far, newest first.  What a collaborator answers may depend on the whole
history, so the answers are functions of it. -/

/-- One call made on a collaborator. -/
inductive Event where
  /-- A call of `time.Now()`. -/
  | now
  /-- A call of `st.GetRunningSessions()`. -/
  | getRunningSessions
  /-- A call of `kpc3plus.Connect` or `telnet.Connect` for a mailbox on a BBS. -/
  | connect (transport bbsname mailbox : String)
  /-- A call of `conn.Read(msgnum)`. -/
  | read (msgnum : Nat)
  /-- A call of `conn.Send(subject, body, to)`. -/
  | send (subject body dest : String)
  /-- A call of `conn.Kill(msgnum)`. -/
  | kill (msgnum : Nat)
  /-- A call of `conn.Close()`. -/
  | close
  /-- A call of `analyze.Analyze(st, session, bbs, message)`. -/
  | analyze (bbs message : String)
  /-- A call of `analysis.Commit(st)` for the analysis of a message. -/
  | commit (bbs message : String)
  /-- A call of `st.SaveResponse(response)`. -/
  | saveResponse (r : Response)
  /-- A call of `st.UpdateSession(session)`. -/
  | updateSession (s : Session)
  /-- A call of `log.Printf` with the formatted text. -/
  | log (text : String)
  /-- A call of `report.Send(st, conn, session)` for the session with the given
  ID; `connected` tells whether `conn` is a connection (not nil). -/
  | sendReport (session : Int) (connected : Bool)
  deriving DecidableEq, Repr

/-- A `jnos.Conn`: an open connection to a mailbox, described by what it answers.
`mail` lists the results of `conn.Read(1)`, `conn.Read(2)`, ... (an error, or the
message text, the empty text meaning there are no more messages); reads past the
end of the list return the empty text.  `send`, `kill` and `close` give the error
returned by the call, if any. -/
structure Conn where
  mail : List (Except String String)
  send : List Event → String → String → String → Option String
  kill : List Event → Nat → Option String
  close : List Event → Option String

/-- A `config.BBSConfig`, with the fields `ConnectToBBS` uses. -/
structure BBSConfig where
  Transport : String
  AX25 : String
  TCP : String
  Passwords : String → String

/-- The answers of the collaborators. -/
structure Env where
  /-- The value returned by `time.Now()`. -/
  clock : List Event → Int
  /-- The sessions returned by `st.GetRunningSessions()`. -/
  running : List Event → List Session
  /-- The row ID `s.conn.LastInsertRowID()` given to a session created by
  `st.UpdateSession` (through `CreateSession`) when its `ID` is 0. -/
  lastInsertRowID : List Event → Int
  /-- The entry `config.Get().BBSes[bbsname]`; every BBS named by a session is
  taken to be configured. -/
  config : String → BBSConfig
  /-- The result of `kpc3plus.Connect(port, ax25, mailbox, mycall, nil)`. -/
  kpc3plusConnect : List Event → String → String → Except String Conn
  /-- The result of `telnet.Connect(tcp, mailbox, password, nil)`. -/
  telnetConnect : List Event → String → String → String → Except String Conn
  /-- The method `session.RetrieveInterval.Match(point)`, the interval being
  `interval.Parse(session.RetrieveAt)`. -/
  Match : String → Int → Bool
  /-- The responses `analyze.Analyze(st, session, bbs, message).Responses(st)`. -/
  responses : List Event → Session → String → String → List Response

/-! ## `retrieve/retrieve.go` -/

/-- The function `ConnectToBBS`: connects to the mailbox on the BBS in the manner
dictated by the BBS configuration; `none` is the nil connection. -/
def ConnectToBBS (env : Env) (bbsname mailbox : String) (w : List Event) :
    Option Conn × List Event :=
  let bbs := env.config bbsname
  if bbs.Transport = "disable" then
    (none, Event.log ("ERROR: can't connect to " ++ mailbox ++ "@" ++ bbsname
      ++ ": connections to " ++ bbsname ++ " are disabled") :: w)
  else if bbs.Transport = "kpc3plus" then
    match env.kpc3plusConnect w bbs.AX25 mailbox with
    | .ok conn => (some conn, Event.connect "kpc3plus" bbsname mailbox :: w)
    | .error err =>
      (none, Event.log ("ERROR: can't connect to " ++ mailbox ++ "@" ++ bbsname
        ++ " via " ++ bbs.Transport ++ ": " ++ err)
        :: Event.connect "kpc3plus" bbsname mailbox :: w)
  else if bbs.Transport = "telnet" then
    match env.telnetConnect w bbs.TCP mailbox (bbs.Passwords mailbox) with
    | .ok conn => (some conn, Event.connect "telnet" bbsname mailbox :: w)
    | .error err =>
      (none, Event.log ("ERROR: can't connect to " ++ mailbox ++ "@" ++ bbsname
        ++ " via " ++ bbs.Transport ++ ": " ++ err)
        :: Event.connect "telnet" bbsname mailbox :: w)
  else
    (none, w)

/-- The first loop of `handleMessage`: sends each response unless the session
has `DontSendResponses`, and stamps it with the send time.  Returns `none` when a
send failed (the function then returns), else the stamped responses. -/
def sendResponses (env : Env) (conn : Conn) (session : Session) (retrieval : Retrieval) :
    List Response → List Event → Option (List Response) × List Event
  | [], w => (some [], w)
  | response :: rest, w =>
    if session.Flags &&& DontSendResponses = 0 then
      match conn.send w response.Subject response.Body response.To with
      | some err =>
        (none, Event.log ("ERROR: sending message from " ++ session.CallSign ++ "@"
          ++ retrieval.BBS ++ ": " ++ err)
          :: Event.send response.Subject response.Body response.To :: w)
      | none =>
        ((sendResponses env conn session retrieval rest
            (Event.now :: Event.send response.Subject response.Body response.To :: w)).1.map
          (fun stamped =>
            { response with
              SendTime := env.clock (Event.send response.Subject response.Body response.To :: w) }
              :: stamped),
         (sendResponses env conn session retrieval rest
            (Event.now :: Event.send response.Subject response.Body response.To :: w)).2)
    else
      ((sendResponses env conn session retrieval rest (Event.now :: w)).1.map
        (fun stamped => { response with SendTime := env.clock w } :: stamped),
       (sendResponses env conn session retrieval rest (Event.now :: w)).2)

/-- The last loop of `handleMessage`: `st.SaveResponse` for each response. -/
def saveResponses : List Response → List Event → List Event
  | [], w => w
  | response :: rest, w => saveResponses rest (Event.saveResponse response :: w)

/-- The function `handleMessage`: handles a single incoming message. -/
def handleMessage (env : Env) (conn : Conn) (session : Session) (retrieval : Retrieval)
    (message : String) (msgnum : Nat) (w : List Event) : List Event :=
  let w1 := Event.analyze retrieval.BBS message :: w
  let responses := env.responses w1 session retrieval.BBS message
  match sendResponses env conn session retrieval responses w1 with
  | (none, w2) => w2
  | (some stamped, w2) =>
    if session.Flags &&& DontKillMessages = 0 then
      match conn.kill w2 msgnum with
      | some err =>
        Event.log ("ERROR: killing message " ++ toString msgnum ++ " at "
          ++ session.CallSign ++ "@" ++ retrieval.BBS ++ ": " ++ err)
          :: Event.kill msgnum :: w2
      | none =>
        saveResponses stamped
          (Event.commit retrieval.BBS message :: Event.kill msgnum :: w2)
    else
      saveResponses stamped (Event.commit retrieval.BBS message :: w2)

/-- The `for` loop of `checkBBS`, from message number `msgnum` on, `mail` being
what the connection answers to the reads still to come.  Returns `false` when a
read failed (the function then returns), `true` when the loop was left by
`break`. -/
def readLoop (env : Env) (conn : Conn) (session : Session) (retrieval : Retrieval) :
    List (Except String String) → Nat → List Event → Bool × List Event
  | [], msgnum, w => (true, Event.read msgnum :: w)
  | .error err :: _, msgnum, w =>
    (false, Event.log ("ERROR: reading messages to " ++ session.CallSign ++ "@"
      ++ retrieval.BBS ++ ": " ++ err) :: Event.read msgnum :: w)
  | .ok message :: rest, msgnum, w =>
    if message = "" then (true, Event.read msgnum :: w)
    else
      readLoop env conn session retrieval rest (msgnum + 1)
        (handleMessage env conn session retrieval message msgnum (Event.read msgnum :: w))

/-- The deferred function of `checkBBS`: closes the connection and logs a
failure to do so. -/
def closeConn (conn : Conn) (session : Session) (retrieval : Retrieval)
    (w : List Event) : List Event :=
  match conn.close w with
  | some err =>
    Event.log ("ERROR: closing connection to " ++ session.CallSign ++ "@"
      ++ retrieval.BBS ++ ": " ++ err) :: Event.close :: w
  | none => Event.close :: w

/-- The in-memory effect of `st.UpdateSession(session)`: a session whose `ID` is
0 is created and receives the new row ID. -/
def updatedSession (env : Env) (session : Session) (w : List Event) : Session :=
  if session.ID = 0 then { session with ID := env.lastInsertRowID w } else session

/-- The function `checkBBS`: retrieves and responds to new check-in messages on a
specific BBS.  `retrieval` is the element `session.Retrieve[i]` (the source
passes a pointer to it), so that setting `retrieval.LastRun` changes the session. -/
def checkBBS (env : Env) (session : Session) (i : Nat) (retrieval : Retrieval)
    (w : List Event) : Session × List Event :=
  let start := env.clock w
  match ConnectToBBS env retrieval.BBS session.CallSign (Event.now :: w) with
  | (none, w1) => (session, w1)
  | (some conn, w1) =>
    match readLoop env conn session retrieval conn.mail 1 w1 with
    | (false, w2) => (session, closeConn conn session retrieval w2)
    | (true, w2) =>
      let session1 :=
        { session with Retrieve := session.Retrieve.set i { retrieval with LastRun := start } }
      let w3 := Event.updateSession session1 :: w2
      (updatedSession env session1 w2, closeConn conn session1 retrieval w3)

/-- The body of the loop over `session.Retrieve` in `ForRunningSessions` and
`ForSession`, for the retrieval `ret` at index `i`: computes the due point and
calls `checkBBS` when the retrieval is due. -/
def forRetrieval (env : Env) (now : Int) (session : Session) (i : Nat) (ret : Retrieval)
    (w : List Event) : Session × List Event :=
  if retrievalDue (env.Match session.RetrieveAt) now ret.LastRun then
    checkBBS env session i ret w
  else (session, w)

/-- The loop `for _, ret := range session.Retrieve`, at index `i` with the
retrievals `todo` still to visit. -/
def retrieveLoop (env : Env) (now : Int) :
    Session → Nat → List Retrieval → List Event → Session × List Event
  | session, _, [], w => (session, w)
  | session, i, ret :: todo, w =>
    retrieveLoop env now (forRetrieval env now session i ret w).1 (i + 1) todo
      (forRetrieval env now session i ret w).2

/-- The function `ForSession`: retrieves and responds to new messages in the
specified practice session. -/
def ForSession (env : Env) (session : Session) (w : List Event) : Session × List Event :=
  retrieveLoop env (env.clock w) session 0 session.Retrieve (Event.now :: w)

/-- The loop `for _, session := range st.GetRunningSessions()`. -/
def sessionsLoop (env : Env) (now : Int) :
    List Session → List Event → List Session × List Event
  | [], w => ([], w)
  | session :: rest, w =>
    ((retrieveLoop env now session 0 session.Retrieve w).1
      :: (sessionsLoop env now rest (retrieveLoop env now session 0 session.Retrieve w).2).1,
     (sessionsLoop env now rest (retrieveLoop env now session 0 session.Retrieve w).2).2)

/-- The function `ForRunningSessions`: retrieves and responds to new messages in
all running practice sessions.  Returns the sessions as they are in memory at the
end. -/
def ForRunningSessions (env : Env) (w : List Event) : List Session × List Event :=
  sessionsLoop env (env.clock w) (env.running (Event.now :: w))
    (Event.getRunningSessions :: Event.now :: w)

/-! ## Notions used to state the properties of the coordinator -/

/-- Every poll succeeds: every connection attempt yields a connection, and every
read on it succeeds. -/
def PollsSucceed (env : Env) : Prop :=
  ∀ (w : List Event) (bbsname mailbox : String),
    ∃ conn : Conn, (ConnectToBBS env bbsname mailbox w).1 = some conn ∧
      ∀ x ∈ conn.mail, ∃ message : String, x = Except.ok message

/-- The wall clock does not go backwards: a later reading (one made with a longer
history) is not before an earlier one. -/
def ClockMonotone (env : Env) : Prop :=
  ∀ w w2 : List Event, w <:+ w2 → env.clock w ≤ env.clock w2

/-- The `LastRun` of the `i`-th retrieval of a session (0 when there is none). -/
def lastRunOf (session : Session) (i : Nat) : Int :=
  match session.Retrieve[i]? with
  | some ret => ret.LastRun
  | none => 0

/-- The point found by an invocation at `now` for a retrieval last run at
`lastRun`, when the retrieval is due: the trigger instant on account of which the
invocation polls. -/
def duePoint (Match : Int → Bool) (now lastRun : Int) : Option Int :=
  if retrievalDue Match now lastRun then some (walkBack Match lastRun (initialPoint now))
  else none

/-- The session in memory and the history after `k` successive invocations of
`ForSession`, starting from `session` and `w`. -/
def invocations (env : Env) (session : Session) (w : List Event) : Nat → Session × List Event
  | 0 => (session, w)
  | k + 1 =>
    ForSession env (invocations env session w k).1 (invocations env session w k).2

/-- The time `now` read by invocation number `k` (counting from 0). -/
def invocationTime (env : Env) (session : Session) (w : List Event) (k : Nat) : Int :=
  env.clock (invocations env session w k).2

/-- The `LastRun` of retrieval `i` when invocation number `k` begins. -/
def lastRunBefore (env : Env) (session : Session) (w : List Event) (i k : Nat) : Int :=
  lastRunOf (invocations env session w k).1 i

/-- The trigger instant detected by invocation number `k` for retrieval `i`, if
the invocation finds the retrieval due. -/
def detected (env : Env) (session : Session) (w : List Event) (i k : Nat) : Option Int :=
  duePoint (env.Match session.RetrieveAt) (invocationTime env session w k)
    (lastRunBefore env session w i k)

/-- What one invocation at `now`, begun with history `w`, does to a retrieval
when every poll succeeds: nothing when the retrieval is not due, else `LastRun`
becomes a clock reading made after `w`. -/
def StepRel (env : Env) (Match : Int → Bool) (now : Int) (w : List Event)
    (r r2 : Retrieval) : Prop :=
  (retrievalDue Match now r.LastRun = false ∧ r2 = r) ∨
  (retrievalDue Match now r.LastRun = true ∧
    ∃ wk : List Event, w <:+ wk ∧ r2 = { r with LastRun := env.clock wk })

/-! ## Concrete collaborators, for evaluating the coordinator -/

/-- A connection on which every send, kill and close succeeds, with the given
answers to the reads. -/
def quietConn (mail : List (Except String String)) : Conn :=
  { mail := mail
    send := fun _ _ _ _ => none
    kill := fun _ _ => none
    close := fun _ => none }

/-- Collaborators for which every BBS is reached by telnet, every connection
succeeds and finds an empty mailbox, the cadence is every 20 minutes, and the
clock reads `base` plus `step` for every call made so far. -/
def tickingEnv (base step : Int) : Env :=
  { clock := fun w => base + step * w.length
    running := fun _ => []
    lastInsertRowID := fun _ => 1
    config := fun _ =>
      { Transport := "telnet", AX25 := "", TCP := "bbs:23", Passwords := fun _ => "" }
    kpc3plusConnect := fun _ _ _ => Except.error "no modem"
    telnetConnect := fun _ _ _ _ => Except.ok (quietConn [])
    Match := fun _ => every20
    responses := fun _ _ _ _ => [] }

/-- A running session with one retrieval, from the mailbox on `W1XSC`. -/
def demoSession (lastRun : Int) : Session :=
  { ID := 7
    CallSign := "PKTMON"
    Name := "Monday Practice"
    Prefix := "MON"
    Start := 0
    End := clockTime 23 0 0
    ReportToText := []
    ReportToHTML := []
    ToBBSes := ["W1XSC"]
    DownBBSes := []
    Retrieve := [{ BBS := "W1XSC", LastRun := lastRun }]
    MessageTypes := ["plain"]
    ModelMessage := ""
    Instructions := ""
    RetrieveAt := "every 20 minutes"
    Report := ""
    Flags := Running }

/-- The instant `m` is the latest instant satisfying the cadence that is at or
before `t`. -/
def IsLatestTrigger (Match : Int → Bool) (t m : Int) : Prop :=
  wholeMinute m ∧ Match m = true ∧ m ≤ t ∧
    ∀ m2 : Int, wholeMinute m2 → Match m2 = true → m2 ≤ t → m2 ≤ m

/-- The event is a call of `st.UpdateSession`. -/
def isUpdateSession : Event → Bool
  | Event.updateSession _ => true
  | _ => false

/-- The event persists something about a message: `analysis.Commit` or
`st.SaveResponse`. -/
def isMessageWrite : Event → Bool
  | Event.commit _ _ => true
  | Event.saveResponse _ => true
  | _ => false

/-- The event is a call of `conn.Kill`. -/
def isKill : Event → Bool
  | Event.kill _ => true
  | _ => false

/-- The history after the messages `messages`, numbered from `msgnum` on, have
each been read and handled in turn. -/
def handledAll (env : Env) (conn : Conn) (session : Session) (retrieval : Retrieval) :
    List String → Nat → List Event → List Event
  | [], _, w => w
  | message :: rest, msgnum, w =>
    handledAll env conn session retrieval rest (msgnum + 1)
      (handleMessage env conn session retrieval message msgnum (Event.read msgnum :: w))

/-- The response given to every message by `replyEnv`. -/
def replyTo (session : Session) (bbs message : String) : Response :=
  { LocalID := "R-" ++ message
    ResponseTo := message
    To := "sender@" ++ bbs
    Subject := "re: " ++ message
    Body := "received"
    SendTime := 0
    SenderCall := session.CallSign
    SenderBBS := bbs }

/-- Collaborators like `tickingEnv`, except that every connection attempt yields
the connection `conn` and every message is answered by one response. -/
def replyEnv (base step : Int) (conn : Conn) : Env :=
  { tickingEnv base step with
    telnetConnect := fun _ _ _ _ => Except.ok conn
    responses := fun _ session bbs message => [replyTo session bbs message] }

/-- A connection holding the messages `first` and `second`, on which the send of
the response to `first` fails and every other call succeeds. -/
def sendFailsConn : Conn :=
  { mail := [Except.ok "first", Except.ok "second"]
    send := fun _ subject _ _ => if subject = "re: first" then some "link down" else none
    kill := fun _ _ => none
    close := fun _ => none }

/-- A connection on which the first read returns the message `first` and the
second read fails. -/
def readFailsConn : Conn :=
  { mail := [Except.ok "first", Except.error "timeout"]
    send := fun _ _ _ _ => none
    kill := fun _ _ => none
    close := fun _ => none }

/-! ## `db/tx.go`: transactions with retry

The database is a value of a type `σ`.  A transaction body works on a copy of the
database and returns an error or nil; committing makes the copy the database,
rolling back discards it.  The body is a closure, which need not do the same on
every call: `fn i` is what it does when called by attempt number `i`.  The SQLite library (`sqlite`, `sqlitex`) is described
by what its calls answer on each attempt. -/

/-- An error value; `code` is its `sqlite.ErrCode`. -/
structure DBError where
  code : Nat
  text : String
  deriving DecidableEq, Repr

/-- The result code `sqlite.ResultBusy`. -/
def ResultBusy : Nat := 5
/-- The result code `sqlite.ResultLocked`. -/
def ResultLocked : Nat := 6

/-- The expression `sqlite.ErrCode(err).ToPrimary()`: the low byte of the result
code of `err`, and `ResultOK` (0) for the nil error. -/
def primaryCode : Option DBError → Nat
  | none => 0
  | some err => err.code % 256

/-- The test `code == sqlite.ResultBusy || code == sqlite.ResultLocked`. -/
def busyOrLocked (err : Option DBError) : Bool :=
  decide (primaryCode err = ResultBusy ∨ primaryCode err = ResultLocked)

/-- What a transaction does, in order (newest first in a trace). -/
inductive TxEvent where
  /-- The `BEGIN` of an attempt (`sqlitex.ExclusiveTransaction` when `write`,
  else `sqlitex.Transaction`). -/
  | begin (write : Bool)
  /-- A call of the body `fn`. -/
  | body
  /-- A `COMMIT`. -/
  | commit
  /-- A `ROLLBACK`. -/
  | rollback
  /-- A call of `time.Sleep(delay)`. -/
  | sleep (delay : Int)
  deriving DecidableEq, Repr

/-- The answers of the SQLite library and of the clock, per attempt (counted from
0): the error of the `BEGIN` and of the `COMMIT`, if any, and the nanoseconds
that pass during the attempt (beyond the time slept). -/
structure TxEnv where
  beginResult : Nat → Option DBError
  commitResult : Nat → Option DBError
  cost : Nat → Nat

/-- How `Transaction` ends: it returns an error value (nil or not), or panics. -/
inductive TxOutcome where
  | returned (err : Option DBError)
  | panicked (text : String)
  deriving DecidableEq, Repr

/-- The result of `Transaction`: how it ended, the database, and what it did. -/
structure TxResult (σ : Type) where
  outcome : TxOutcome
  db : σ
  trace : List TxEvent

/-- The result of `attemptTransaction`: `(ran, err)`, the database and the trace. -/
structure Attempt (σ : Type) where
  ran : Bool
  err : Option DBError
  db : σ
  trace : List TxEvent

/-- The deferred call `endfn(&err)` of the function returned by the library.
When the transaction was begun (`began = none`): commit if `err` is nil, the
commit error being stored in `err` and the transaction rolled back if the commit
fails; roll back if `err` is not nil.  When `sqlitex.Transaction` could not begin
(`began` is its error), no transaction is open: the function only stores that
error in `err` if `err` is nil, and the body has worked on the database itself. -/
def endfn {σ : Type} (env : TxEnv) (i : Nat) (began err : Option DBError) (db work : σ)
    (trace : List TxEvent) : Option DBError × σ × List TxEvent :=
  match began with
  | some beginErr =>
    match err with
    | none => (some beginErr, work, trace)
    | some e => (some e, work, trace)
  | none =>
    match err with
    | none =>
      match env.commitResult i with
      | none => (none, work, TxEvent.commit :: trace)
      | some commitErr => (some commitErr, db, TxEvent.rollback :: TxEvent.commit :: trace)
    | some e => (some e, db, TxEvent.rollback :: trace)

/-- The function `attemptTransaction`, for attempt number `i`. -/
def attemptTransaction {σ : Type} (env : TxEnv) (write : Bool) (fn : Nat → σ → Option DBError × σ)
    (i : Nat) (db : σ) (trace : List TxEvent) : Attempt σ :=
  let err : Option DBError := if write then env.beginResult i else none
  if busyOrLocked err then
    { ran := false, err := none, db := db, trace := TxEvent.begin write :: trace }
  else if err ≠ none then
    { ran := false, err := err, db := db, trace := TxEvent.begin write :: trace }
  else
    { ran := true
      err := (endfn env i (env.beginResult i) (fn i db).1 db (fn i db).2
        (TxEvent.body :: TxEvent.begin write :: trace)).1
      db := (endfn env i (env.beginResult i) (fn i db).1 db (fn i db).2
        (TxEvent.body :: TxEvent.begin write :: trace)).2.1
      trace := (endfn env i (env.beginResult i) (fn i db).1 db (fn i db).2
        (TxEvent.body :: TxEvent.begin write :: trace)).2.2 }

/-- The constant `maxDelay` (1024 ms), in nanoseconds. -/
def maxDelay : Int := 1024000000
/-- The constant `maxWait` (30 s), in nanoseconds. -/
def maxWait : Int := 30000000000
/-- The initial `delay` (8 ms), in nanoseconds. -/
def initialDelay : Int := 8000000

/-- The update `if delay < maxDelay then delay *= 2`. -/
def nextDelay (delay : Int) : Int := if delay < maxDelay then delay * 2 else delay

/-- The loop of `Transaction`, run for at most `fuel` iterations, at attempt
number `i` with the current `delay` and the time `elapsed` since `start`. -/
def transactionLoop {σ : Type} (env : TxEnv) (write : Bool) (fn : Nat → σ → Option DBError × σ) :
    Nat → Nat → Int → Int → σ → List TxEvent → TxResult σ
  | 0, _, _, _, db, trace =>
    { outcome := TxOutcome.panicked "iteration budget exhausted", db := db, trace := trace }
  | fuel + 1, i, delay, elapsed, db, trace =>
    if (attemptTransaction env write fn i db trace).ran then
      { outcome := TxOutcome.returned (attemptTransaction env write fn i db trace).err
        db := (attemptTransaction env write fn i db trace).db
        trace := (attemptTransaction env write fn i db trace).trace }
    else if elapsed + env.cost i > maxWait then
      { outcome := TxOutcome.panicked "too many retries"
        db := (attemptTransaction env write fn i db trace).db
        trace := (attemptTransaction env write fn i db trace).trace }
    else
      transactionLoop env write fn fuel (i + 1) (nextDelay delay)
        (elapsed + env.cost i + delay)
        (attemptTransaction env write fn i db trace).db
        (TxEvent.sleep delay :: (attemptTransaction env write fn i db trace).trace)

/-- The number of iterations the loop of `Transaction` can still make when
`elapsed` has passed, every sleep lasting at least 8 ms. -/
def iterationsLeft (elapsed : Int) : Nat :=
  if elapsed > maxWait then 1 else ((maxWait - elapsed) / initialDelay).toNat + 2

/-- The loop of `Transaction` from a given state (`transactionFrom_eq` shows that
the iteration budget is never exhausted when `delay` is at least 8 ms). -/
def transactionFrom {σ : Type} (env : TxEnv) (write : Bool) (fn : Nat → σ → Option DBError × σ)
    (i : Nat) (delay elapsed : Int) (db : σ) (trace : List TxEvent) : TxResult σ :=
  transactionLoop env write fn (iterationsLeft elapsed) i delay elapsed db trace

/-- The function `Transaction`: executes `fn` in a transaction, `write` telling
whether the transaction starts in write-exclusive mode. -/
def Transaction {σ : Type} (env : TxEnv) (write : Bool) (fn : Nat → σ → Option DBError × σ)
    (db : σ) : TxResult σ :=
  transactionFrom env write fn 0 initialDelay 0 db []

/-! ## Notions used to state the properties of `Transaction` -/

/-- The `delay` slept after the failed attempt number `k`. -/
def delayAt : Nat → Int
  | 0 => initialDelay
  | k + 1 => nextDelay (delayAt k)

/-- The time since `start` when attempt number `k` begins, the attempts before it
having been abandoned: what those attempts took plus what was slept after them
(the cumulative backoff). -/
def elapsedBefore (env : TxEnv) : Nat → Int
  | 0 => 0
  | k + 1 => elapsedBefore env k + env.cost k + delayAt k

/-- The trace of `k` attempts abandoned at their `BEGIN`, each followed by its
backoff sleep (newest first). -/
def busyTrace (write : Bool) : Nat → List TxEvent
  | 0 => []
  | k + 1 => TxEvent.sleep (delayAt k) :: TxEvent.begin write :: busyTrace write k

/-- The library answers as in `env`, but from attempt number `k` on: the answers
met by a transaction whose first attempt is the attempt `k` of `env`. -/
def shiftEnv (env : TxEnv) (k : Nat) : TxEnv :=
  { beginResult := fun i => env.beginResult (k + i)
    commitResult := fun i => env.commitResult (k + i)
    cost := fun i => env.cost (k + i) }

/-- A library whose `BEGIN` always succeeds and whose first `COMMIT` reports
`SQLITE_BUSY`, the later ones succeeding. -/
def busyCommitEnv : TxEnv :=
  { beginResult := fun _ => none
    commitResult := fun i => if i = 0 then some { code := 5, text := "database is locked" } else none
    cost := fun _ => 1000000 }

/-- A library whose first three `BEGIN`s report `SQLITE_BUSY`, everything else
succeeding. -/
def busyBeginEnv : TxEnv :=
  { beginResult := fun i => if i < 3 then some { code := 5, text := "database is locked" } else none
    commitResult := fun _ => none
    cost := fun _ => 1000000 }

/-- A body that inserts a row and returns nil, on every call. -/
def insertRow (row : String) (_ : Nat) (db : List String) : Option DBError × List String :=
  (none, row :: db)

/-- A body that inserts a row and then returns an error, on every call. -/
def failingBody (row : String) (_ : Nat) (db : List String) : Option DBError × List String :=
  (some { code := 1, text := "constraint failed" }, row :: db)

/-- A body that inserts a row; its first call meets contention and returns the
`SQLITE_BUSY` error, its later calls return nil. -/
def busyOnceBody (row : String) (i : Nat) (db : List String) : Option DBError × List String :=
  if i = 0 then (some { code := 5, text := "database is locked" }, db) else (none, row :: db)

/-- The body `fn` as met by a transaction whose first attempt is the attempt `k`. -/
def shiftBody {σ : Type} (fn : Nat → σ → Option DBError × σ) (k : Nat) :
    Nat → σ → Option DBError × σ :=
  fun i => fn (k + i)

/-- A library whose every `BEGIN` and `COMMIT` succeeds. -/
def quietTxEnv : TxEnv :=
  { beginResult := fun _ => none
    commitResult := fun _ => none
    cost := fun _ => 1000000 }

/-- A library whose first `BEGIN` fails with `SQLITE_CANTOPEN` (code 14, neither
busy nor locked), everything else succeeding. -/
def cantOpenOnceEnv : TxEnv :=
  { beginResult := fun i =>
      if i = 0 then some { code := 14, text := "unable to open database file" } else none
    commitResult := fun _ => none
    cost := fun _ => 1000000 }

/-- A library whose every `BEGIN` fails with `SQLITE_CANTOPEN`. -/
def cantOpenEnv : TxEnv :=
  { beginResult := fun _ => some { code := 14, text := "unable to open database file" }
    commitResult := fun _ => none
    cost := fun _ => 1000000 }

/-- The delays slept in a trace, newest first. -/
def sleepsOf : List TxEvent → List Int
  | [] => []
  | TxEvent.sleep delay :: rest => delay :: sleepsOf rest
  | _ :: rest => sleepsOf rest

/-- Collaborators like `tickingEnv`, except that the configuration of every BBS
names the transport `ax25`, which is none of `disable`, `kpc3plus`, `telnet`. -/
def unknownTransportEnv : Env :=
  { tickingEnv 0 1 with
    config := fun _ =>
      { Transport := "ax25", AX25 := "W1XSC-1", TCP := "", Passwords := fun _ => "" } }

/-- The event is a call of `conn.Send`. -/
def isSend : Event → Bool
  | Event.send _ _ _ => true
  | _ => false

/-- The session `demoSession`, with the flag `DontSendResponses` set as well. -/
def silentSession (lastRun : Int) : Session :=
  { demoSession lastRun with Flags := Running + DontSendResponses }

/-- The response `r2` is the response `r` stamped, without any send, with a clock
reading made after the history `w`. -/
def StampedUnsent (env : Env) (w : List Event) (r r2 : Response) : Prop :=
  ∃ wk : List Event, w <:+ wk ∧ r2 = { r with SendTime := env.clock wk }

/-- The response `r2` is the response `r` stamped with the clock reading that
follows a successful `conn.Send` of `r`, made after the history `w` and recorded
in the history `final`. -/
def StampedAfterSend (env : Env) (conn : Conn) (w final : List Event) (r r2 : Response) :
    Prop :=
  ∃ wk : List Event, w <:+ wk ∧ conn.send wk r.Subject r.Body r.To = none ∧
    Event.send r.Subject r.Body r.To :: wk <:+ final ∧
    r2 = { r with SendTime := env.clock (Event.send r.Subject r.Body r.To :: wk) }

/-- The event is a call of `st.SaveResponse`. -/
def isSaveResponse : Event → Bool
  | Event.saveResponse _ => true
  | _ => false

/-! ## `store/store.go`: lists stored as text -/

/-- The library function `strings.Split(s, ";")`, on the characters of `s`: the
pieces between the semicolons, of which there is always at least one. -/
def splitChars : List Char → List (List Char)
  | [] => [[]]
  | c :: cs =>
    if c = ';' then [] :: splitChars cs
    else
      match splitChars cs with
      | [] => [[c]]
      | piece :: pieces => (c :: piece) :: pieces

/-- The library function `strings.Split(s, ";")`. -/
def stringsSplit (s : String) : List String :=
  (splitChars s.data).map String.mk

/-- The library function `strings.Join(list, ";")`. -/
def stringsJoin : List String → String
  | [] => ""
  | [x] => x
  | x :: y :: rest => x ++ ";" ++ stringsJoin (y :: rest)

/-- The function `split` of `store/store.go`: splits a string on a semicolon;
unlike `strings.Split`, it returns an empty list if the input is an empty
string. -/
def Store.split (s : String) : List String :=
  if s = "" then [] else stringsSplit s

/-! ## Timestamps as text (`time.Time.Format`, `time.ParseInLocation`, `time.Time.AddDate`)

The store keeps instants as text.  The library functions are modelled for the two
layouts the sessions use, for the years 0000 to 9999 of the proleptic Gregorian
calendar, an instant being rendered with a given offset from UTC (in seconds). -/

/-- The duration `time.Second`, in nanoseconds. -/
def second : Int := 1000000000

/-- The layout `startEndFormat`. -/
def startEndFormat : String := "2006-01-02 15:04:05-07:00"

/-- The layout `lastRunFormat`. -/
def lastRunFormat : String := "2006-01-02 15:04:05.999999999-07:00"

/-- The year, month and day of the day that lies `days` days after 0001-01-01. -/
def civilFromDays (days : Int) : Int × Int × Int :=
  let z := days + 306
  let era := z / 146097
  let doe := z % 146097
  let yoe := (doe - doe / 1460 + doe / 36524 - doe / 146096) / 365
  let doy := doe - (365 * yoe + yoe / 4 - yoe / 100)
  let mp := (5 * doy + 2) / 153
  let d := doy - (153 * mp + 2) / 5 + 1
  let m := if mp < 10 then mp + 3 else mp - 9
  (yoe + era * 400 + (if m ≤ 2 then 1 else 0), m, d)

/-- The number of days from 0001-01-01 to the given year, month and day; a day
past the end of the month counts on into the next month. -/
def daysFromCivil (y m d : Int) : Int :=
  let y2 := if m ≤ 2 then y - 1 else y
  let era := y2 / 400
  let yoe := y2 % 400
  let mp := (m + 9) % 12
  let doy := (153 * mp + 2) / 5 + d - 1
  era * 146097 + (yoe * 365 + yoe / 4 - yoe / 100 + doy) - 306

/-- The instant of the given local date and time of day, at the given offset
from UTC in seconds (`time.Date`). -/
def dateTime (y m d hh mm ss offset : Int) : Int :=
  (daysFromCivil y m d * 86400 + hh * 3600 + mm * 60 + ss - offset) * second

/-- A number below 100 as two digits. -/
def digits2 (n : Int) : String :=
  (if n.toNat < 10 then "0" else "") ++ toString n.toNat

/-- A number below 10000 as four digits. -/
def digits4 (n : Int) : String :=
  (if n.toNat < 10 then "000" else if n.toNat < 100 then "00"
    else if n.toNat < 1000 then "0" else "") ++ toString n.toNat

/-- A number below 10^9 as nine digits. -/
def digits9 (n : Int) : List Char :=
  List.replicate (9 - (toString n.toNat).length) '0' ++ (toString n.toNat).data

/-- The fractional seconds of the layout element `.999999999`: nothing when the
nanoseconds are zero, else a point and the digits without trailing zeros. -/
def fractionText (ns : Int) : String :=
  if ns = 0 then ""
  else String.mk ('.' :: ((digits9 ns).reverse.dropWhile (fun c => c == '0')).reverse)

/-- The method `t.Format(layout)` for an instant rendered at the given offset
from UTC, `layout` being `startEndFormat` or `lastRunFormat`. -/
def formatTime (layout : String) (offset t : Int) : String :=
  let secs := t / second + offset
  let date := civilFromDays (secs / 86400)
  let sod := secs % 86400
  digits4 date.1 ++ "-" ++ digits2 date.2.1 ++ "-" ++ digits2 date.2.2 ++ " "
    ++ digits2 (sod / 3600) ++ ":" ++ digits2 (sod % 3600 / 60) ++ ":" ++ digits2 (sod % 60)
    ++ (if layout = lastRunFormat then fractionText (t % second) else "")
    ++ (if offset < 0 then "-" else "+")
    ++ digits2 (offset.natAbs / 3600) ++ ":" ++ digits2 (offset.natAbs % 3600 / 60)

/-- The value of a decimal digit. -/
def digitValue (c : Char) : Option Int :=
  if '0' ≤ c ∧ c ≤ '9' then some (c.toNat - 48) else none

/-- The value of a run of decimal digits. -/
def digitsValue : List Char → Option Int
  | [] => some 0
  | c :: cs =>
    match digitValue c, digitsValue cs with
    | some v, some rest => some (v * 10 ^ cs.length + rest)
    | _, _ => none

/-- The UTC offset `±hh:mm` at the end of a timestamp, in seconds. -/
def parseOffset : List Char → Option Int
  | [sign, h1, h2, ':', m1, m2] =>
    match digitsValue [h1, h2], digitsValue [m1, m2] with
    | some h, some m =>
      if sign = '+' then some (h * 3600 + m * 60)
      else if sign = '-' then some (-(h * 3600 + m * 60))
      else none
    | _, _ => none
  | _ => none

/-- What follows the seconds of a timestamp: an optional fraction of up to nine
digits, then the UTC offset.  Returns the nanoseconds and the offset. -/
def parseTail (rest : List Char) : Option (Int × Int) :=
  match rest with
  | '.' :: more =>
    let frac := more.takeWhile (fun c => '0' ≤ c ∧ c ≤ '9')
    if frac = [] ∨ 9 < frac.length then none
    else
      match digitsValue frac, parseOffset (more.drop frac.length) with
      | some v, some offset => some (v * 10 ^ (9 - frac.length), offset)
      | _, _ => none
  | _ =>
    match parseOffset rest with
    | some offset => some (0, offset)
    | none => none

/-- The function `time.ParseInLocation(layout, txt, time.Local)` for the layouts
`startEndFormat` and `lastRunFormat` (with either, a fraction of a second is
accepted and is optional): the instant, or `none` when `txt` does not parse.  The
day is not checked against the length of its month. -/
def parseTime (txt : String) : Option Int :=
  match txt.data with
  | y1 :: y2 :: y3 :: y4 :: '-' :: m1 :: m2 :: '-' :: d1 :: d2 :: ' '
      :: h1 :: h2 :: ':' :: n1 :: n2 :: ':' :: s1 :: s2 :: rest =>
    match digitsValue [y1, y2, y3, y4], digitsValue [m1, m2], digitsValue [d1, d2],
        digitsValue [h1, h2], digitsValue [n1, n2], digitsValue [s1, s2], parseTail rest with
    | some y, some m, some d, some hh, some mm, some ss, some (ns, offset) =>
      if 1 ≤ m ∧ m ≤ 12 ∧ 1 ≤ d ∧ d ≤ 31 ∧ hh < 24 ∧ mm < 60 ∧ ss < 60 then
        some (dateTime y m d hh mm ss offset + ns)
      else none
    | _, _, _, _, _, _, _ => none
  | _ => none

/-- The method `t.AddDate(years, months, days)` for a time in the location
`time.Local`, whose offset from UTC at an instant is `zone`.  The date and the
time of day of `t` are read at the offset in force at `t`; the date is moved, and
`time.Date` gives the instant that shows the moved date and the same time of day
in the location: `unix` counts the seconds of that local time as if it were UTC,
the offset is looked up at `unix` and, `unix` less that offset being the instant
meant, looked up again there (where the first lookup was already right for the
instant, the second returns the same offset). -/
def AddDate (zone : Int → Int) (t years months days : Int) : Int :=
  let secs := t / second + zone t
  let date := civilFromDays (secs / 86400)
  let month0 := date.2.1 - 1 + months
  let unix := (daysFromCivil (date.1 + years + month0 / 12) (month0 % 12 + 1) date.2.2 + days)
      * 86400 + secs % 86400
  let offset := zone ((unix - zone (unix * second)) * second)
  (unix - offset) * second + t % second

/-- The comparison of two texts by SQLite (collation `BINARY`): `a < b`, character
by character. -/
def charsLt : List Char → List Char → Bool
  | _, [] => false
  | [], _ :: _ => true
  | a :: as, b :: bs =>
    if a.toNat < b.toNat then true
    else if b.toNat < a.toNat then false
    else charsLt as bs

/-- The SQL comparison `a < b` of two texts. -/
def textLt (a b : String) : Bool := charsLt a.data b.data

/-- The SQL comparison `a >= b` of two texts. -/
def textGe (a b : String) : Bool := !textLt a b

/-! ## The store (`store/session.go`, `store/message.go`, `db/st.go`)

The database is modelled by the rows of its tables; a table lists its rows in the
order in which a scan without `ORDER BY` visits them.  Each store function is
modelled by the effect of its transaction once that has committed. -/

/-- A row of the table `session`; the columns `prefix` and `end` are named
`prefixText` and `endText`. -/
structure SessionRow where
  id : Int
  callsign : String
  name : String
  prefixText : String
  start : String
  endText : String
  reporttotext : String
  reporttohtml : String
  tobbses : String
  downbbses : String
  messagetypes : String
  modelmessage : String
  instructions : String
  retrieveat : String
  report : String
  flags : Int
  deriving DecidableEq, Repr

/-- A row of the table `retrieval`. -/
structure RetrievalRow where
  session : Int
  bbs : String
  lastrun : String
  deriving DecidableEq, Repr

/-- A row of the table `message`. -/
structure MessageRow where
  id : String
  hash : String
  deliverytime : String
  message : String
  session : Int
  fromaddress : String
  fromcallsign : String
  frombbs : String
  tobbs : String
  jurisdiction : String
  messagetype : String
  score : Int
  summary : String
  analysis : String
  deriving DecidableEq, Repr

/-- The tables of the database that the session functions touch. -/
structure DB where
  sessions : List SessionRow
  retrievals : List RetrievalRow
  messages : List MessageRow
  deriving DecidableEq, Repr

/-- What the store takes from outside the repository. -/
structure StoreEnv where
  /-- The offset from UTC, in seconds, of `time.Local` at an instant. -/
  zone : Int → Int
  /-- Whether `envelope.ParseSaved` accepts the text of a model message. -/
  parseSaved : String → Bool

/-- The method `St.BindTime`: the text bound for an instant, which is the empty
string for the zero time. -/
def BindTime (senv : StoreEnv) (v : Int) (fmt : String) : String :=
  if v = 0 then "" else formatTime fmt (senv.zone v) v

/-- The method `St.ColumnTime` on a text column: the zero time for the empty
string, `none` (a panic) when the text cannot be parsed. -/
def ColumnTime (txt : String) : Option Int :=
  if txt = "" then some 0 else parseTime txt

/-- The values that `CreateSession` and `UpdateSession` bind for a session, as the
row with the given ID. -/
def sessionRow (senv : StoreEnv) (id : Int) (session : Session) : SessionRow :=
  { id := id
    callsign := session.CallSign
    name := session.Name
    prefixText := session.Prefix
    start := BindTime senv session.Start startEndFormat
    endText := BindTime senv session.End startEndFormat
    reporttotext := stringsJoin session.ReportToText
    reporttohtml := stringsJoin session.ReportToHTML
    tobbses := stringsJoin session.ToBBSes
    downbbses := stringsJoin session.DownBBSes
    messagetypes := stringsJoin session.MessageTypes
    modelmessage := session.ModelMessage
    instructions := session.Instructions
    retrieveat := session.RetrieveAt
    report := session.Report
    flags := session.Flags }

/-- The rows that the statement `INSERT INTO retrieval (session, bbs, lastrun)`
adds for the retrievals of a session. -/
def retrievalRows (senv : StoreEnv) (id : Int) (retrieve : List Retrieval) :
    List RetrievalRow :=
  retrieve.map fun r =>
    { session := id, bbs := r.BBS, lastrun := BindTime senv r.LastRun lastRunFormat }

/-- The largest ID among a row and the rows after it. -/
def largestID (first : SessionRow) : List SessionRow → Int
  | [] => first.id
  | r :: rest => max first.id (largestID r rest)

/-- The row ID that SQLite gives to a row inserted without one into a table with
an integer primary key: one more than the largest ID in use, 1 in an empty
table. -/
def nextRowID : List SessionRow → Int
  | [] => 1
  | r :: rest => largestID r rest + 1

/-- The method `Store.CreateSession`: the session with its new ID, and the
database with the new row and the rows of its retrievals. -/
def CreateSession (senv : StoreEnv) (session : Session) (db : DB) : Session × DB :=
  let id := nextRowID db.sessions
  ({ session with ID := id },
   { db with
     sessions := db.sessions ++ [sessionRow senv id session]
     retrievals := db.retrievals ++ retrievalRows senv id session.Retrieve })

/-- The method `Store.UpdateSession`. -/
def UpdateSession (senv : StoreEnv) (session : Session) (db : DB) : Session × DB :=
  if session.ID = 0 then CreateSession senv session db
  else
    (session,
     { db with
       sessions := db.sessions.map fun row =>
         if row.id = session.ID then sessionRow senv session.ID session else row
       retrievals :=
         db.retrievals.filter (fun r => decide (r.session ≠ session.ID))
           ++ retrievalRows senv session.ID session.Retrieve })

/-- The inner statement of `getSessionsWhere`, on the rows it selects: the
retrievals read from them, `none` when a `lastrun` cannot be parsed. -/
def loadRetrievals : List RetrievalRow → Option (List Retrieval)
  | [] => some []
  | r :: rest =>
    match ColumnTime r.lastrun, loadRetrievals rest with
    | some lastRun, some more => some ({ BBS := r.bbs, LastRun := lastRun } :: more)
    | _, _ => none

/-- The body of the row loop of `getSessionsWhere`: the session read from a row,
`none` when the row makes the function panic. -/
def loadSession (senv : StoreEnv) (db : DB) (row : SessionRow) : Option Session :=
  match ColumnTime row.start, ColumnTime row.endText,
      loadRetrievals (db.retrievals.filter fun r => decide (r.session = row.id)) with
  | some start, some finish, some retrieve =>
    if row.modelmessage ≠ "" ∧ senv.parseSaved row.modelmessage = false then none
    else
      some
        { ID := row.id
          CallSign := row.callsign
          Name := row.name
          Prefix := row.prefixText
          Start := start
          End := finish
          ReportToText := Store.split row.reporttotext
          ReportToHTML := Store.split row.reporttohtml
          ToBBSes := Store.split row.tobbses
          DownBBSes := Store.split row.downbbses
          Retrieve := retrieve
          MessageTypes := Store.split row.messagetypes
          ModelMessage := row.modelmessage
          Instructions := row.instructions
          RetrieveAt := row.retrieveat
          Report := row.report
          Flags := (row.flags % 256).toNat }
  | _, _, _ => none

/-- The row loop of `getSessionsWhere` over the selected rows. -/
def loadSessions (senv : StoreEnv) (db : DB) : List SessionRow → Option (List Session)
  | [] => some []
  | row :: rest =>
    match loadSession senv db row, loadSessions senv db rest with
    | some session, some more => some (session :: more)
    | _, _ => none

/-- The method `Store.getSessionsWhere`, the clause `where` being given by the
rows it selects from the table, in order. -/
def getSessionsWhere (senv : StoreEnv) (db : DB)
    (select : List SessionRow → List SessionRow) : Option (List Session) :=
  loadSessions senv db (select db.sessions)

/-- The method `Store.GetRunningSessions` (clause `flags&1`). -/
def GetRunningSessions (senv : StoreEnv) (db : DB) : Option (List Session) :=
  getSessionsWhere senv db fun rows => rows.filter fun row => decide (row.flags % 2 = 1)

/-- The method `Store.GetSession` (clause `id=?`): `some none` is the result
`nil`. -/
def GetSession (senv : StoreEnv) (db : DB) (id : Int) : Option (Option Session) :=
  (getSessionsWhere senv db fun rows => rows.filter fun row => decide (row.id = id)).map
    List.head?

/-- The order of `ORDER BY end, callsign`. -/
def endCallsignLe (a b : SessionRow) : Prop :=
  textLt a.endText b.endText = true
    ∨ (a.endText = b.endText ∧ textLt b.callsign a.callsign = false)

instance : DecidableRel endCallsignLe :=
  fun a b => by unfold endCallsignLe; exact inferInstance

/-- The rows selected by the clause `end>=? AND end<?` for the two bound texts. -/
def endsWithin (startText endText : String) (row : SessionRow) : Bool :=
  textGe row.endText startText && textLt row.endText endText

/-- The method `Store.GetSessions` (clause `end>=? AND end<? ORDER BY end,
callsign`). -/
def GetSessions (senv : StoreEnv) (db : DB) (start finish : Int) : Option (List Session) :=
  getSessionsWhere senv db fun rows =>
    (rows.filter
      (endsWithin (BindTime senv start startEndFormat)
        (BindTime senv finish startEndFormat))).insertionSort endCallsignLe

/-- The method `Store.SessionHasMessages`. -/
def SessionHasMessages (db : DB) (sessionID : Int) : Bool :=
  db.messages.any fun m => decide (m.session = sessionID)

/-- A list of strings that the store can keep in a text column: no element holds
the separator `;`, and the list is not the one holding only the empty string. -/
def Storable (l : List String) : Prop := (∀ x ∈ l, ';' ∉ x.data) ∧ l ≠ [""]

instance (l : List String) : Decidable (Storable l) := by
  unfold Storable; exact inferInstance

/-! ## `sessions.go` -/

/-- The text of `t.Format("2006-01-02 15:04")` for an instant rendered at the
given offset from UTC. -/
def formatMinute (offset t : Int) : String :=
  let secs := t / second + offset
  let date := civilFromDays (secs / 86400)
  let sod := secs % 86400
  digits4 date.1 ++ "-" ++ digits2 date.2.1 ++ "-" ++ digits2 date.2.2 ++ " "
    ++ digits2 (sod / 3600) ++ ":" ++ digits2 (sod % 3600 / 60)

/-- The Go operator `&^` (bit clear). -/
def bitClear (flags mask : Nat) : Nat := flags ^^^ (flags &&& mask)

/-- The condition under which `closeSessions` sends the report of a session: the
session has report recipients, or messages are stored for it. -/
def NeedsReport (db : DB) (session : Session) : Prop :=
  session.ReportToText ≠ [] ∨ session.ReportToHTML ≠ []
    ∨ SessionHasMessages db session.ID = true

instance (db : DB) (session : Session) : Decidable (NeedsReport db session) := by
  unfold NeedsReport; exact inferInstance

/-- The body of the loop of `closeSessions` for one running session: a session
past its end has its `Running` flag cleared and is saved, and when it has report
recipients or stored messages a connection to its first BBS is sought, the report
is sent over it and it is closed.  `report.Send` and `conn.Close` are recorded as
calls, made whether or not a connection was obtained.  `none` is the panic of
`session.ToBBSes[0]` on an empty list. -/
def closeSession (env : Env) (senv : StoreEnv) (now : Int) (session : Session)
    (st : DB × List Event) : Option (DB × List Event) :=
  if session.End < now then
    let saved := UpdateSession senv { session with Flags := bitClear session.Flags Running } st.1
    let w1 := Event.log ("Closed session for " ++ saved.1.Name ++ " ending "
      ++ formatMinute (senv.zone saved.1.End) saved.1.End ++ ".")
      :: Event.updateSession saved.1 :: st.2
    if NeedsReport saved.2 saved.1 then
      match saved.1.ToBBSes with
      | [] => none
      | bbsname :: _ =>
        let conn := ConnectToBBS env bbsname saved.1.CallSign w1
        some (saved.2, Event.close :: Event.sendReport saved.1.ID conn.1.isSome :: conn.2)
    else some (saved.2, w1)
  else some st

/-- The loop of `closeSessions` over the running sessions. -/
def closeLoop (env : Env) (senv : StoreEnv) (now : Int) :
    List Session → DB × List Event → Option (DB × List Event)
  | [], st => some st
  | session :: rest, st =>
    match closeSession env senv now session st with
    | some st1 => closeLoop env senv now rest st1
    | none => none

/-- The function `closeSessions`: closes the sessions that are past their end
time and sends reports for them.  `none` is a panic. -/
def closeSessions (env : Env) (senv : StoreEnv) (db : DB) (w : List Event) :
    Option (DB × List Event) :=
  match GetRunningSessions senv db with
  | some sessions =>
    closeLoop env senv (env.clock w) sessions (db, Event.getRunningSessions :: Event.now :: w)
  | none => none

/-- The body of the loop of `openSessions` for one session. -/
def openSession (senv : StoreEnv) (start : Int) (session : Session)
    (st : DB × List Event) : DB × List Event :=
  if session.Flags &&& Running ≠ 0 ∨ start < session.Start then st
  else
    let saved := UpdateSession senv { session with Flags := session.Flags ||| Running } st.1
    (saved.2,
      Event.log ("Opened session for " ++ saved.1.Name ++ " ending "
        ++ formatMinute (senv.zone saved.1.End) saved.1.End ++ ".")
      :: Event.updateSession saved.1 :: st.2)

/-- The loop of `openSessions` over the sessions found. -/
def openLoop (senv : StoreEnv) (start : Int) :
    List Session → DB × List Event → DB × List Event
  | [], st => st
  | session :: rest, st => openLoop senv start rest (openSession senv start session st)

/-- The function `openSessions`: marks as running the sessions, among those ending
between now and a month from now, that have started and are not running.  `none`
is a panic. -/
def openSessions (env : Env) (senv : StoreEnv) (db : DB) (w : List Event) :
    Option (DB × List Event) :=
  let start := env.clock w
  let finish := AddDate senv.zone start 0 1 0
  match GetSessions senv db start finish with
  | some sessions => some (openLoop senv start sessions (db, Event.now :: w))
  | none => none

/-! ## Concrete stores -/

/-- A store whose local zone is eight hours behind UTC throughout, and for which
every model message parses. -/
def pacific : StoreEnv := { zone := fun _ => -28800, parseSaved := fun _ => true }

/-- Noon of 3 January 2022 in that zone. -/
def noon : Int := dateTime 2022 1 3 12 0 0 (-28800)

/-- The duration `time.Millisecond`. -/
def millisecond : Int := 1000000

/-- The duration of a day of 24 hours. -/
def day : Int := 86400 * second

/-- A practice session with one retrieval, from the mailbox on `W1XSC`. -/
def practiceSession (id start finish : Int) (flags : Nat) (reportTo : List String) :
    Session :=
  { ID := id
    CallSign := "PKTMON"
    Name := "Monday Practice"
    Prefix := "MON"
    Start := start
    End := finish
    ReportToText := reportTo
    ReportToHTML := []
    ToBBSes := ["W1XSC"]
    DownBBSes := []
    Retrieve := [{ BBS := "W1XSC", LastRun := start }]
    MessageTypes := ["plain"]
    ModelMessage := ""
    Instructions := ""
    RetrieveAt := "every 20 minutes"
    Report := ""
    Flags := flags }

/-- The database without rows. -/
def emptyDB : DB := { sessions := [], retrievals := [], messages := [] }

/-- The database holding one session, created from the given one. -/
def storeWith (session : Session) : DB := (CreateSession pacific session emptyDB).2

/-- Whether an event is a call of `report.Send` for the session with the given ID. -/
def isSendReport (id : Int) : Event → Bool
  | Event.sendReport session _ => decide (session = id)
  | _ => false

/-- The flags of the rows of the session table, in order. -/
def flagsOf (db : DB) : List Int := db.sessions.map fun row => row.flags

/-- The database after `UpdateSession` has been called for each session of a list
in turn. -/
def saveAll (senv : StoreEnv) : List Session → DB → DB
  | [], db => db
  | session :: rest, db => saveAll senv rest (UpdateSession senv session db).2

/-- A session as `closeSessions` saves it: with the `Running` flag cleared. -/
def closed (session : Session) : Session :=
  { session with Flags := bitClear session.Flags Running }

/-- A session as `openSessions` saves it: with the `Running` flag set. -/
def opened (session : Session) : Session :=
  { session with Flags := session.Flags ||| Running }

/-- Whether an event is a call of `st.UpdateSession` for the session with the
given ID. -/
def isUpdateOf (id : Int) : Event → Bool
  | Event.updateSession session => decide (session.ID = id)
  | _ => false

/-- Collaborators whose clock reads half a second past `noon` and advances by ten
milliseconds with every call made; every connection succeeds. -/
def halfPastEnv : Env := tickingEnv (noon + 500 * millisecond) (10 * millisecond)

/-- The database holding one running session, begun a week before `noon` and
ending at `noon`, with the given text recipients of its report. -/
def noonStore (reportTo : List String) : DB :=
  storeWith (practiceSession 0 (noon - 7 * day) noon Running reportTo)

/-! ## Concrete mailboxes with failing calls (C21, C25) -/

/-- A connection on which every send and close succeeds and every kill fails. -/
def killFailsConn : Conn :=
  { mail := [Except.ok "first"]
    send := fun _ _ _ _ => none
    kill := fun _ _ => some "no such message"
    close := fun _ => none }

/-- The session `demoSession`, with the flags `DontSendResponses` and
`DontKillMessages` set as well. -/
def passiveSession (lastRun : Int) : Session :=
  { demoSession lastRun with Flags := Running + DontKillMessages + DontSendResponses }

/-- The `conn.Send` call that sends a response. -/
def sendOf (r : Response) : Event := Event.send r.Subject r.Body r.To

/-! ## Notions used to compare the entry points of the coordinator (C26, C27) -/

/-- What an invocation at `now` may do to a retrieval: leave it as it is, or, the
retrieval being due, set its `LastRun` to a later time that is not before
`now`. -/
def MovedForward (Match : Int → Bool) (now : Int) (r r2 : Retrieval) : Prop :=
  r2 = r ∨
  (retrievalDue Match now r.LastRun = true ∧ r2.BBS = r.BBS ∧
    r.LastRun < now ∧ now ≤ r2.LastRun)

/-- Whether an event is a call other than `st.GetRunningSessions()`. -/
def notQuery : Event → Bool
  | Event.getRunningSessions => false
  | _ => true

/-- Two histories hold the same calls, in the same order, apart from queries for
the running sessions. -/
def SameCalls (h h2 : List Event) : Prop := h.filter notQuery = h2.filter notQuery

/-- The answers of a connection do not depend on the queries for the running
sessions made so far. -/
def ConnUnaware (conn : Conn) : Prop :=
  ∀ h h2 : List Event, SameCalls h h2 →
    conn.send h = conn.send h2 ∧ conn.kill h = conn.kill h2 ∧ conn.close h = conn.close h2

/-- The answers of the clock, of the mailboxes, of the analysis and of the row
counter do not depend on the queries for the running sessions made so far. -/
def Unaware (env : Env) : Prop :=
  ∀ h h2 : List Event, SameCalls h h2 →
    env.clock h = env.clock h2 ∧
    env.lastInsertRowID h = env.lastInsertRowID h2 ∧
    env.kpc3plusConnect h = env.kpc3plusConnect h2 ∧
    env.telnetConnect h = env.telnetConnect h2 ∧
    env.responses h = env.responses h2 ∧
    (∀ (a b : String) (conn : Conn), env.kpc3plusConnect h a b = Except.ok conn →
      ConnUnaware conn) ∧
    (∀ (a b c : String) (conn : Conn), env.telnetConnect h a b c = Except.ok conn →
      ConnUnaware conn)

/-- Collaborators like `replyEnv`, except that the clock advances with every call
other than a query for the running sessions, and that the one running session is
`session`. -/
def steadyEnv (base step : Int) (conn : Conn) (session : Session) : Env :=
  { replyEnv base step conn with
    clock := fun w => base + step * (w.filter notQuery).length
    running := fun _ => [session] }

/-! ## Messages in the store (`store/message.go`) -/

/-- The layout `deliveryTimeFormat`. -/
def deliveryTimeFormat : String := "2006-01-02 15:04:05-07:00"

/-- A `store.Message`: a single received message. -/
structure Message where
  LocalID : String
  Hash : String
  DeliveryTime : Int
  /-- The field `Message`: the text of the message. -/
  Text : String
  Session : Int
  FromAddress : String
  FromCallSign : String
  FromBBS : String
  ToBBS : String
  Jurisdiction : String
  MessageType : String
  Score : Int
  Summary : String
  Analysis : String
  deriving DecidableEq, Repr

/-- The values that `SaveMessage` binds for a message, as a row. -/
def messageRow (senv : StoreEnv) (m : Message) : MessageRow :=
  { id := m.LocalID
    hash := m.Hash
    deliverytime := BindTime senv m.DeliveryTime deliveryTimeFormat
    message := m.Text
    session := m.Session
    fromaddress := m.FromAddress
    fromcallsign := m.FromCallSign
    frombbs := m.FromBBS
    tobbs := m.ToBBS
    jurisdiction := m.Jurisdiction
    messagetype := m.MessageType
    score := m.Score
    summary := m.Summary
    analysis := m.Analysis }

/-- The method `Store.SaveMessage` (statement `INSERT OR REPLACE INTO message`).
The table has the primary key `id`; `uniqueHash` tells whether it has a unique
index on `hash` as well.  SQLite first deletes each row that conflicts with the
new one on a unique column, then inserts the new row. -/
def SaveMessage (senv : StoreEnv) (uniqueHash : Bool) (m : Message) (db : DB) : DB :=
  { db with
    messages :=
      db.messages.filter
          (fun row => !(decide (row.id = m.LocalID) || (uniqueHash && decide (row.hash = m.Hash))))
        ++ [messageRow senv m] }

/-- The body of the `if st.Step()` of `GetMessage` and `GetMessageByHash`: the
message read from a row, `none` when `deliverytime` cannot be parsed (a panic). -/
def loadMessage (row : MessageRow) : Option Message :=
  match ColumnTime row.deliverytime with
  | some deliveryTime =>
    some
      { LocalID := row.id
        Hash := row.hash
        DeliveryTime := deliveryTime
        Text := row.message
        Session := row.session
        FromAddress := row.fromaddress
        FromCallSign := row.fromcallsign
        FromBBS := row.frombbs
        ToBBS := row.tobbs
        Jurisdiction := row.jurisdiction
        MessageType := row.messagetype
        Score := row.score
        Summary := row.summary
        Analysis := row.analysis }
  | none => none

/-- The first row that a statement steps to, read as a message: `some none` is
the result `nil`, `none` a panic. -/
def firstMessage : List MessageRow → Option (Option Message)
  | [] => some none
  | row :: _ => (loadMessage row).map some

/-- The method `Store.GetMessage` (clause `id=?`). -/
def GetMessage (db : DB) (localID : String) : Option (Option Message) :=
  firstMessage (db.messages.filter fun row => decide (row.id = localID))

/-- The method `Store.GetMessageByHash` (clause `hash=?`). -/
def GetMessageByHash (db : DB) (hash : String) : Option (Option Message) :=
  firstMessage (db.messages.filter fun row => decide (row.hash = hash))

/-- A message received at noon. -/
def noonMessage (localID hash : String) : Message :=
  { LocalID := localID
    Hash := hash
    DeliveryTime := noon
    Text := "check-in"
    Session := 1
    FromAddress := "kc6rsc@w1xsc.ampr.org"
    FromCallSign := "KC6RSC"
    FromBBS := "W1XSC"
    ToBBS := "W1XSC"
    Jurisdiction := "SNY"
    MessageType := "plain"
    Score := 100
    Summary := ""
    Analysis := "" }

/-! ## The steps of `civilFromDays`, and the parts of a formatted time (C23) -/

/-- The count of days of an era (400 years from 1 March) with the leap-day
corrections of `civilFromDays` taken off; divided by 365 it gives the year of the
era. -/
def leapless (doe : Int) : Int := doe - doe / 1460 + doe / 36524 - doe / 146096

/-- The day of the era on which year `yoe` of the era begins. -/
def yearStart (yoe : Int) : Int := 365 * yoe + yoe / 4 - yoe / 100

/-- The year of the era of a day of the era. -/
def yearOfEra (doe : Int) : Int := leapless doe / 365

/-- The day of the year (from 1 March) of a day of the era. -/
def dayOfYear (doe : Int) : Int := doe - yearStart (yearOfEra doe)

/-- The month (0 for March) of a day of the year. -/
def monthFromMarch (doy : Int) : Int := (5 * doy + 2) / 153

/-- The day of the month of a day of the year. -/
def dayOfMonth (doy : Int) : Int := doy - (153 * monthFromMarch doy + 2) / 5 + 1

/-- The characters of the date and time of day of `formatTime`, for the local
time `secs` seconds after 0001-01-01 00:00:00. -/
def dateTimeChars (secs : Int) : List Char :=
  (digits4 (civilFromDays (secs / 86400)).1).data ++ '-'
    :: (digits2 (civilFromDays (secs / 86400)).2.1).data ++ '-'
    :: (digits2 (civilFromDays (secs / 86400)).2.2).data ++ ' '
    :: (digits2 (secs % 86400 / 3600)).data ++ ':'
    :: (digits2 (secs % 86400 % 3600 / 60)).data ++ ':'
    :: (digits2 (secs % 86400 % 60)).data

/-- The characters of the offset from UTC of `formatTime`. -/
def offsetChars (offset : Int) : List Char :=
  ((if offset < 0 then "-" else "+")
    ++ digits2 (offset.natAbs / 3600) ++ ":" ++ digits2 (offset.natAbs % 3600 / 60)).data

/-- The first instant of the year 10000, in UTC. -/
def year10000 : Int := dateTime 10000 1 1 0 0 0 0

/-- A store whose local zone is seven hours behind UTC until 2022-11-06 02:00
local time, and eight hours behind UTC from then on. -/
def fallBack : StoreEnv :=
  { zone := fun t => if t < dateTime 2022 11 6 2 0 0 (-25200) then -25200 else -28800
    parseSaved := fun _ => true }

/-- Whether an event is a call of `kpc3plus.Connect` or `telnet.Connect`: an
attempt to connect to a mailbox. -/
def isConnect : Event → Bool
  | Event.connect _ _ _ => true
  | _ => false

/-! # Theorems -/

/-! ### Facts about truncation and the initial point -/

theorem truncate_le (t : Int) : truncate t ≤ t := by
  unfold truncate minute
  omega

theorem lt_truncate_add (t : Int) : t - minute < truncate t := by
  unfold truncate minute
  omega

theorem wholeMinute_truncate (t : Int) : wholeMinute (truncate t) := by
  unfold wholeMinute truncate minute
  omega

theorem eq_truncate_iff (t : Int) : t = truncate t ↔ wholeMinute t := by
  unfold wholeMinute truncate minute
  omega

theorem wholeMinute_initialPoint (now : Int) : wholeMinute (initialPoint now) := by
  unfold initialPoint
  split
  · next h =>
    have := (eq_truncate_iff now).1 h
    unfold wholeMinute minute at *
    omega
  · exact wholeMinute_truncate now

theorem initialPoint_lt (now : Int) : initialPoint now < now := by
  unfold initialPoint
  split
  · unfold minute; omega
  · next h =>
    have := truncate_le now
    omega

theorem le_initialPoint (now : Int) : now - minute ≤ initialPoint now := by
  unfold initialPoint
  split
  · omega
  · have := lt_truncate_add now
    omega

/-- The initial point is the greatest whole minute strictly before `now`. -/
theorem initialPoint_greatest (now m : Int) (hm : wholeMinute m) (hlt : m < now) :
    m ≤ initialPoint now := by
  have h1 := wholeMinute_initialPoint now
  have h2 := le_initialPoint now
  unfold wholeMinute minute at *
  omega

/-! ### The walk-back loop -/

/-- The loop equation: `walkBack` is the loop of the source, one iteration
unrolled.  In particular the iteration budget of `walkBack` never runs out. -/
theorem walkBack_eq (Match : Int → Bool) (lastRun point : Int) :
    walkBack Match lastRun point =
      if lastRun < point ∧ Match point = false then
        walkBack Match lastRun (point + -minute)
      else point := by
  by_cases h : lastRun < point ∧ Match point = false
  · have hfuel : ((point - lastRun) / minute + 1).toNat
        = ((point + -minute - lastRun) / minute + 1).toNat + 1 := by
      unfold minute
      omega
    rw [if_pos h]
    unfold walkBack
    rw [hfuel]
    simp only [walkBackFuel, if_pos h]
  · rw [if_neg h]
    unfold walkBack
    cases ((point - lastRun) / minute + 1).toNat with
    | zero => rfl
    | succ n => simp only [walkBackFuel, if_neg h]

/-- What the walk-back loop returns, for a start `point` at most `k` minutes
after `lastRun`: a point `r` a whole number of minutes at or before `point` at
which the loop condition fails, every minute step passed over having satisfied
the loop condition. -/
theorem walkBack_spec_aux (Match : Int → Bool) (lastRun : Int) (k : Nat) :
    ∀ point : Int, point - lastRun < k * minute →
      walkBack Match lastRun point ≤ point ∧
      (point - walkBack Match lastRun point) % minute = 0 ∧
      ¬ (lastRun < walkBack Match lastRun point ∧
          Match (walkBack Match lastRun point) = false) ∧
      ∀ m : Int, walkBack Match lastRun point < m → m ≤ point →
        (point - m) % minute = 0 → lastRun < m ∧ Match m = false := by
  induction k with
  | zero =>
    intro point hk
    have hlt : ¬ (lastRun < point ∧ Match point = false) := by
      rintro ⟨h, -⟩
      simp at hk
      omega
    rw [walkBack_eq, if_neg hlt]
    refine ⟨le_refl _, by simp, hlt, ?_⟩
    intro m h1 h2
    omega
  | succ k ih =>
    intro point hk
    by_cases h : lastRun < point ∧ Match point = false
    · have hk2 : point + -minute - lastRun < k * minute := by
        push_cast at hk
        unfold minute at *
        omega
      obtain ⟨a, b, c, d⟩ := ih (point + -minute) hk2
      rw [walkBack_eq, if_pos h]
      refine ⟨?_, ?_, c, ?_⟩
      · unfold minute at *; omega
      · unfold minute at *; omega
      · intro m h1 h2 h3
        by_cases hm : m = point
        · subst hm; exact h
        · apply d m h1
          · unfold minute at *; omega
          · unfold minute at *; omega
    · rw [walkBack_eq, if_neg h]
      refine ⟨le_refl _, by simp, h, ?_⟩
      intro m h1 h2
      omega

theorem walkBack_spec (Match : Int → Bool) (lastRun point : Int) :
    walkBack Match lastRun point ≤ point ∧
    (point - walkBack Match lastRun point) % minute = 0 ∧
    ¬ (lastRun < walkBack Match lastRun point ∧
        Match (walkBack Match lastRun point) = false) ∧
    ∀ m : Int, walkBack Match lastRun point < m → m ≤ point →
      (point - m) % minute = 0 → lastRun < m ∧ Match m = false := by
  apply walkBack_spec_aux Match lastRun ((point - lastRun).toNat + 1) point
  push_cast
  unfold minute
  omega


/-- The retrieval is due exactly when some whole minute after `lastRun` and at or
before the initial point satisfies the cadence. -/
theorem retrievalDue_iff (Match : Int → Bool) (now lastRun : Int) :
    retrievalDue Match now lastRun = true ↔
      ∃ m : Int, wholeMinute m ∧ lastRun < m ∧ m ≤ initialPoint now ∧ Match m = true := by
  obtain ⟨hle, hmod, hexit, hskip⟩ := walkBack_spec Match lastRun (initialPoint now)
  have hp0 := wholeMinute_initialPoint now
  unfold retrievalDue
  rw [decide_eq_true_iff]
  constructor
  · intro hl
    refine ⟨_, ?_, hl, hle, ?_⟩
    · unfold wholeMinute minute at *
      omega
    · by_contra hM
      exact hexit ⟨hl, by simpa using hM⟩
  · rintro ⟨m, hm, hl, hp, hM⟩
    by_contra hlt
    have hmod2 : (initialPoint now - m) % minute = 0 := by
      unfold wholeMinute minute at *
      omega
    have := (hskip m (by omega) hp hmod2).2
    simp [hM] at this

theorem retrievalDue_eq_false_iff (Match : Int → Bool) (now lastRun : Int) :
    retrievalDue Match now lastRun = false ↔
      ∀ m : Int, wholeMinute m → lastRun < m → m ≤ initialPoint now → Match m = false := by
  rw [← Bool.not_eq_true, retrievalDue_iff]
  constructor
  · intro h m hm hl hp
    by_contra hM
    exact h ⟨m, hm, hl, hp, by simpa using hM⟩
  · rintro h ⟨m, hm, hl, hp, hM⟩
    rw [h m hm hl hp] at hM
    exact Bool.false_ne_true hM

/-! ### Histories only grow -/

theorem ConnectToBBS_suffix (env : Env) (bbsname mailbox : String) (w : List Event) :
    w <:+ (ConnectToBBS env bbsname mailbox w).2 := by
  unfold ConnectToBBS
  simp only
  split
  · exact List.suffix_cons _ _
  · split
    · split
      · exact List.suffix_cons _ _
      · exact (List.suffix_cons _ _).trans (List.suffix_cons _ _)
    · split
      · split
        · exact List.suffix_cons _ _
        · exact (List.suffix_cons _ _).trans (List.suffix_cons _ _)
      · exact List.suffix_refl _

theorem sendResponses_suffix (env : Env) (conn : Conn) (session : Session)
    (retrieval : Retrieval) (responses : List Response) :
    ∀ w : List Event, w <:+ (sendResponses env conn session retrieval responses w).2 := by
  induction responses with
  | nil => intro w; exact List.suffix_refl _
  | cons response rest ih =>
    intro w
    unfold sendResponses
    split
    · split
      · exact (List.suffix_cons _ _).trans (List.suffix_cons _ _)
      · exact ((List.suffix_cons _ _).trans (List.suffix_cons _ _)).trans (ih _)
    · exact (List.suffix_cons _ _).trans (ih _)

theorem saveResponses_suffix (responses : List Response) :
    ∀ w : List Event, w <:+ saveResponses responses w := by
  induction responses with
  | nil => intro w; exact List.suffix_refl _
  | cons response rest ih =>
    intro w
    exact (List.suffix_cons _ _).trans (ih _)

theorem handleMessage_suffix (env : Env) (conn : Conn) (session : Session)
    (retrieval : Retrieval) (message : String) (msgnum : Nat) (w : List Event) :
    w <:+ handleMessage env conn session retrieval message msgnum w := by
  unfold handleMessage
  simp only
  have h := sendResponses_suffix env conn session retrieval
    (env.responses (Event.analyze retrieval.BBS message :: w) session retrieval.BBS message)
    (Event.analyze retrieval.BBS message :: w)
  split
  · next heq =>
    rw [heq] at h
    exact (List.suffix_cons _ _).trans h
  · next stamped w2 heq =>
    rw [heq] at h
    have h2 : w <:+ w2 := (List.suffix_cons _ _).trans h
    split
    · split
      · exact h2.trans ((List.suffix_cons _ _).trans (List.suffix_cons _ _))
      · exact h2.trans (((List.suffix_cons _ _).trans (List.suffix_cons _ _)).trans
          (saveResponses_suffix _ _))
    · exact h2.trans ((List.suffix_cons _ _).trans (saveResponses_suffix _ _))

theorem readLoop_suffix (env : Env) (conn : Conn) (session : Session)
    (retrieval : Retrieval) (mail : List (Except String String)) :
    ∀ (msgnum : Nat) (w : List Event),
      w <:+ (readLoop env conn session retrieval mail msgnum w).2 := by
  induction mail with
  | nil => intro msgnum w; exact List.suffix_cons _ _
  | cons x rest ih =>
    intro msgnum w
    cases x with
    | error err => exact (List.suffix_cons _ _).trans (List.suffix_cons _ _)
    | ok message =>
      unfold readLoop
      split
      · exact List.suffix_cons _ _
      · exact ((List.suffix_cons _ _).trans (handleMessage_suffix _ _ _ _ _ _ _)).trans (ih _ _)

theorem closeConn_suffix (conn : Conn) (session : Session) (retrieval : Retrieval)
    (w : List Event) : w <:+ closeConn conn session retrieval w := by
  unfold closeConn
  split
  · exact (List.suffix_cons _ _).trans (List.suffix_cons _ _)
  · exact List.suffix_cons _ _

theorem checkBBS_suffix (env : Env) (session : Session) (i : Nat) (retrieval : Retrieval)
    (w : List Event) : w <:+ (checkBBS env session i retrieval w).2 := by
  unfold checkBBS
  simp only
  have h1 := ConnectToBBS_suffix env retrieval.BBS session.CallSign (Event.now :: w)
  split
  · next heq =>
    rw [heq] at h1
    exact (List.suffix_cons _ _).trans h1
  · next conn w1 heq =>
    rw [heq] at h1
    have h2 := readLoop_suffix env conn session retrieval conn.mail 1 w1
    have h3 : w <:+ w1 := (List.suffix_cons _ _).trans h1
    split
    · next heq2 =>
      rw [heq2] at h2
      exact (h3.trans h2).trans (closeConn_suffix _ _ _ _)
    · next heq2 =>
      rw [heq2] at h2
      exact (h3.trans h2).trans ((List.suffix_cons _ _).trans (closeConn_suffix _ _ _ _))

theorem forRetrieval_suffix (env : Env) (now : Int) (session : Session) (i : Nat)
    (ret : Retrieval) (w : List Event) :
    w <:+ (forRetrieval env now session i ret w).2 := by
  unfold forRetrieval
  split
  · exact checkBBS_suffix _ _ _ _ _
  · exact List.suffix_refl _

theorem retrieveLoop_suffix (env : Env) (now : Int) (todo : List Retrieval) :
    ∀ (session : Session) (i : Nat) (w : List Event),
      w <:+ (retrieveLoop env now session i todo w).2 := by
  induction todo with
  | nil => intro session i w; exact List.suffix_refl _
  | cons ret todo ih =>
    intro session i w
    unfold retrieveLoop
    exact (forRetrieval_suffix _ _ _ _ _ _).trans (ih _ _ _)

theorem ForSession_suffix (env : Env) (session : Session) (w : List Event) :
    w <:+ (ForSession env session w).2 := by
  unfold ForSession
  exact (List.suffix_cons _ _).trans (retrieveLoop_suffix _ _ _ _ _ _)


/-! ### Successful polls -/

theorem readLoop_ok (env : Env) (conn : Conn) (session : Session) (retrieval : Retrieval)
    (mail : List (Except String String)) :
    (∀ x ∈ mail, ∃ message : String, x = Except.ok message) →
    ∀ (msgnum : Nat) (w : List Event),
      (readLoop env conn session retrieval mail msgnum w).1 = true := by
  induction mail with
  | nil => intro _ msgnum w; rfl
  | cons x rest ih =>
    intro hall msgnum w
    obtain ⟨message, rfl⟩ := hall x (List.mem_cons_self _ _)
    unfold readLoop
    split
    · rfl
    · exact ih (fun y hy => hall y (List.mem_cons_of_mem _ hy)) _ _

theorem updatedSession_Retrieve (env : Env) (session : Session) (w : List Event) :
    (updatedSession env session w).Retrieve = session.Retrieve := by
  unfold updatedSession
  split <;> rfl

theorem updatedSession_RetrieveAt (env : Env) (session : Session) (w : List Event) :
    (updatedSession env session w).RetrieveAt = session.RetrieveAt := by
  unfold updatedSession
  split <;> rfl

theorem checkBBS_RetrieveAt (env : Env) (session : Session) (i : Nat) (retrieval : Retrieval)
    (w : List Event) : (checkBBS env session i retrieval w).1.RetrieveAt = session.RetrieveAt := by
  unfold checkBBS
  simp only
  split
  · rfl
  · split
    · rfl
    · simp only [updatedSession_RetrieveAt]

/-- When every poll succeeds, `checkBBS` records the time read at its start as
the `LastRun` of the retrieval. -/
theorem checkBBS_Retrieve_of_pollsSucceed (env : Env) (hp : PollsSucceed env)
    (session : Session) (i : Nat) (retrieval : Retrieval) (w : List Event) :
    (checkBBS env session i retrieval w).1.Retrieve =
      session.Retrieve.set i { retrieval with LastRun := env.clock w } := by
  obtain ⟨conn, hconn, hmail⟩ := hp (Event.now :: w) retrieval.BBS session.CallSign
  unfold checkBBS
  simp only
  split
  · next heq => rw [heq] at hconn; simp at hconn
  · next conn2 w1 heq =>
    rw [heq] at hconn
    simp only [Option.some.injEq] at hconn
    subst hconn
    have hok := readLoop_ok env conn2 session retrieval conn2.mail hmail 1 w1
    split
    · next heq2 => rw [heq2] at hok; simp at hok
    · simp only [updatedSession_Retrieve]

theorem forRetrieval_RetrieveAt (env : Env) (now : Int) (session : Session) (i : Nat)
    (ret : Retrieval) (w : List Event) :
    (forRetrieval env now session i ret w).1.RetrieveAt = session.RetrieveAt := by
  unfold forRetrieval
  split
  · exact checkBBS_RetrieveAt _ _ _ _ _
  · rfl

theorem forRetrieval_Retrieve_of_pollsSucceed (env : Env) (hp : PollsSucceed env)
    (now : Int) (session : Session) (i : Nat) (ret : Retrieval) (w : List Event) :
    (forRetrieval env now session i ret w).1.Retrieve =
      if retrievalDue (env.Match session.RetrieveAt) now ret.LastRun then
        session.Retrieve.set i { ret with LastRun := env.clock w }
      else session.Retrieve := by
  unfold forRetrieval
  split
  · exact checkBBS_Retrieve_of_pollsSucceed env hp _ _ _ _
  · rfl

theorem StepRel_mono (env : Env) (Match : Int → Bool) (now : Int) (w w1 : List Event)
    (h : w <:+ w1) (r r2 : Retrieval) (hrel : StepRel env Match now w1 r r2) :
    StepRel env Match now w r r2 := by
  rcases hrel with hno | ⟨hdue, wk, hwk, heq⟩
  · exact Or.inl hno
  · exact Or.inr ⟨hdue, wk, h.trans hwk, heq⟩

/-- What the loop over the retrievals does to the session when every poll
succeeds: the retrievals already visited stay as they are, each retrieval still
to visit is stepped. -/
theorem retrieveLoop_spec (env : Env) (hp : PollsSucceed env) (now : Int)
    (todo : List Retrieval) :
    ∀ (session : Session) (i : Nat) (w : List Event) (pre : List Retrieval),
      session.Retrieve = pre ++ todo → pre.length = i →
      (retrieveLoop env now session i todo w).1.RetrieveAt = session.RetrieveAt ∧
      ∃ todo2 : List Retrieval,
        (retrieveLoop env now session i todo w).1.Retrieve = pre ++ todo2 ∧
        List.Forall₂ (StepRel env (env.Match session.RetrieveAt) now w) todo todo2 := by
  induction todo with
  | nil =>
    intro session i w pre hpre _
    exact ⟨rfl, [], hpre, List.Forall₂.nil⟩
  | cons ret todo ih =>
    intro session i w pre hpre hlen
    unfold retrieveLoop
    have hat := forRetrieval_RetrieveAt env now session i ret w
    have hret := forRetrieval_Retrieve_of_pollsSucceed env hp now session i ret w
    have hsuf := forRetrieval_suffix env now session i ret w
    by_cases hdue : retrievalDue (env.Match session.RetrieveAt) now ret.LastRun = true
    · rw [if_pos hdue, hpre, List.set_append_right _ _ (by omega)] at hret
      have hidx : i - pre.length = 0 := by omega
      rw [hidx, List.set_cons_zero] at hret
      have hret2 : (forRetrieval env now session i ret w).1.Retrieve
          = (pre ++ [{ ret with LastRun := env.clock w }]) ++ todo := by
        rw [hret]; simp
      obtain ⟨h1, todo2, h2, h3⟩ := ih _ (i + 1) (forRetrieval env now session i ret w).2
        (pre ++ [{ ret with LastRun := env.clock w }]) hret2 (by simp [hlen])
      refine ⟨h1.trans hat, { ret with LastRun := env.clock w } :: todo2, ?_, ?_⟩
      · rw [h2]; simp
      · refine List.Forall₂.cons (Or.inr ⟨hdue, w, List.suffix_refl _, rfl⟩) ?_
        rw [hat] at h3
        exact h3.imp (fun r r2 h => StepRel_mono env _ now w _ hsuf r r2 h)
    · rw [if_neg hdue, hpre] at hret
      have hret2 : (forRetrieval env now session i ret w).1.Retrieve
          = (pre ++ [ret]) ++ todo := by
        rw [hret]; simp
      obtain ⟨h1, todo2, h2, h3⟩ := ih _ (i + 1) (forRetrieval env now session i ret w).2
        (pre ++ [ret]) hret2 (by simp [hlen])
      refine ⟨h1.trans hat, ret :: todo2, ?_, ?_⟩
      · rw [h2]; simp
      · refine List.Forall₂.cons (Or.inl ⟨by simpa using hdue, rfl⟩) ?_
        rw [hat] at h3
        exact h3.imp (fun r r2 h => StepRel_mono env _ now w _ hsuf r r2 h)

/-- What one invocation of `ForSession` does to the session when every poll
succeeds. -/
theorem ForSession_spec (env : Env) (hp : PollsSucceed env) (session : Session)
    (w : List Event) :
    (ForSession env session w).1.RetrieveAt = session.RetrieveAt ∧
    List.Forall₂ (StepRel env (env.Match session.RetrieveAt) (env.clock w) w)
      session.Retrieve (ForSession env session w).1.Retrieve := by
  unfold ForSession
  obtain ⟨h1, todo2, h2, h3⟩ := retrieveLoop_spec env hp (env.clock w) session.Retrieve
    session 0 (Event.now :: w) [] rfl rfl
  refine ⟨h1, ?_⟩
  rw [h2]
  simp only [List.nil_append]
  exact h3.imp (fun r r2 h => StepRel_mono env _ _ w _ (List.suffix_cons _ _) r r2 h)


/-! ### Sequences of invocations -/

theorem forall₂_getElem? {α β : Type} {R : α → β → Prop} {l1 : List α} {l2 : List β}
    (h : List.Forall₂ R l1 l2) :
    ∀ i : Nat, i < l1.length → ∃ a b, l1[i]? = some a ∧ l2[i]? = some b ∧ R a b := by
  induction h with
  | nil => intro i hi; simp at hi
  | cons hab _ ih =>
    intro i hi
    cases i with
    | zero => exact ⟨_, _, by simp, by simp, hab⟩
    | succ j =>
      simp only [List.length_cons, Nat.add_lt_add_iff_right] at hi
      simpa using ih j hi

/-- One invocation, seen from retrieval `i`: when the retrieval is not due its
`LastRun` stays, when it is due (and every poll succeeds, the clock not going
backwards) its `LastRun` becomes a time at or after the invocation time. -/
theorem ForSession_lastRunOf (env : Env) (hp : PollsSucceed env) (hc : ClockMonotone env)
    (session : Session) (w : List Event) (i : Nat) (hi : i < session.Retrieve.length) :
    (retrievalDue (env.Match session.RetrieveAt) (env.clock w) (lastRunOf session i) = false ∧
      lastRunOf (ForSession env session w).1 i = lastRunOf session i) ∨
    (retrievalDue (env.Match session.RetrieveAt) (env.clock w) (lastRunOf session i) = true ∧
      env.clock w ≤ lastRunOf (ForSession env session w).1 i) := by
  obtain ⟨a, b, ha, hb, hrel⟩ := forall₂_getElem? (ForSession_spec env hp session w).2 i hi
  have hL : lastRunOf session i = a.LastRun := by
    unfold lastRunOf; rw [ha]
  have hL2 : lastRunOf (ForSession env session w).1 i = b.LastRun := by
    unfold lastRunOf; rw [hb]
  rw [hL, hL2]
  rcases hrel with ⟨hno, rfl⟩ | ⟨hdue, wk, hwk, rfl⟩
  · exact Or.inl ⟨hno, rfl⟩
  · exact Or.inr ⟨hdue, hc w wk hwk⟩

theorem invocations_shape (env : Env) (hp : PollsSucceed env) (session : Session)
    (w : List Event) :
    ∀ k : Nat, (invocations env session w k).1.RetrieveAt = session.RetrieveAt ∧
      (invocations env session w k).1.Retrieve.length = session.Retrieve.length := by
  intro k
  induction k with
  | zero => exact ⟨rfl, rfl⟩
  | succ k ih =>
    have h := ForSession_spec env hp (invocations env session w k).1
      (invocations env session w k).2
    exact ⟨h.1.trans ih.1, h.2.length_eq.symm.trans ih.2⟩

theorem invocations_step (env : Env) (hp : PollsSucceed env) (hc : ClockMonotone env)
    (session : Session) (w : List Event) (i : Nat) (hi : i < session.Retrieve.length)
    (k : Nat) :
    (retrievalDue (env.Match session.RetrieveAt) (invocationTime env session w k)
        (lastRunBefore env session w i k) = false ∧
      lastRunBefore env session w i (k + 1) = lastRunBefore env session w i k) ∨
    (retrievalDue (env.Match session.RetrieveAt) (invocationTime env session w k)
        (lastRunBefore env session w i k) = true ∧
      invocationTime env session w k ≤ lastRunBefore env session w i (k + 1)) := by
  have hs := invocations_shape env hp session w k
  have h := ForSession_lastRunOf env hp hc (invocations env session w k).1
    (invocations env session w k).2 i (by rw [hs.2]; exact hi)
  rw [hs.1] at h
  exact h

theorem invocationTime_mono (env : Env) (hc : ClockMonotone env) (session : Session)
    (w : List Event) (k : Nat) :
    invocationTime env session w k ≤ invocationTime env session w (k + 1) :=
  hc _ _ (ForSession_suffix env _ _)

/-- A due point lies after `LastRun` and strictly before `now`. -/
theorem duePoint_bounds (Match : Int → Bool) (now lastRun m : Int)
    (h : duePoint Match now lastRun = some m) : lastRun < m ∧ m < now := by
  unfold duePoint at h
  split at h
  · next hdue =>
    simp only [Option.some.injEq] at h
    unfold retrievalDue at hdue
    rw [decide_eq_true_iff] at hdue
    have h1 := (walkBack_spec Match lastRun (initialPoint now)).1
    have h2 := initialPoint_lt now
    omega
  · simp at h

/-- A trigger instant that is the initial point of an invocation and lies after
`LastRun` is the due point of that invocation. -/
theorem duePoint_of_initialPoint (Match : Int → Bool) (now lastRun m : Int)
    (hp0 : initialPoint now = m) (hM : Match m = true) (hL : lastRun < m) :
    duePoint Match now lastRun = some m := by
  have hw : walkBack Match lastRun m = m := by
    rw [walkBack_eq, if_neg]
    simp [hM]
  unfold duePoint retrievalDue
  rw [hp0, hw, if_pos (by simpa using hL)]

/-- The sequence argument behind C5, for any sequence of invocation times `N` and
of `LastRun` values `L` related as successful invocations relate them. -/
theorem detect_once (Match : Int → Bool) (N L : Nat → Int) (n : Nat) (m : Int)
    (hstep : ∀ k, (retrievalDue Match (N k) (L k) = false ∧ L (k + 1) = L k) ∨
      (retrievalDue Match (N k) (L k) = true ∧ N k ≤ L (k + 1)))
    (hmono : ∀ k, N k ≤ N (k + 1))
    (hgap : ∀ k, k < n → N (k + 1) ≤ N k + minute)
    (hm : wholeMinute m) (hM : Match m = true) (h0 : N 0 ≤ m) (hn : m < N n)
    (hnot : ∀ k, k < n → N k ≤ m → L (k + 1) < m) :
    ∃ k, k ≤ n ∧ duePoint Match (N k) (L k) = some m ∧
      ∀ j, duePoint Match (N j) (L j) = some m → j = k := by
  classical
  have hex : ∃ k, m < N k := ⟨n, hn⟩
  have hfind := Nat.find_spec hex
  have hle : Nat.find hex ≤ n := Nat.find_min' hex hn
  have hpos : Nat.find hex ≠ 0 := by
    intro h0'
    rw [h0'] at hfind
    omega
  obtain ⟨p, hp⟩ : ∃ p, Nat.find hex = p + 1 := Nat.exists_eq_succ_of_ne_zero hpos
  have hNp : N p ≤ m := by
    have := Nat.find_min hex (show p < Nat.find hex by omega)
    omega
  have hmonoAll : ∀ d k, N k ≤ N (k + d) := by
    intro d
    induction d with
    | zero => intro k; exact le_refl _
    | succ d ih => intro k; exact (ih k).trans (hmono (k + d))
  rw [hp] at hfind hle
  have hpn : p < n := by omega
  have hgp := hgap p hpn
  have hp0 : initialPoint (N (p + 1)) = m := by
    have h1 := wholeMinute_initialPoint (N (p + 1))
    have h2 := initialPoint_lt (N (p + 1))
    have h3 := initialPoint_greatest (N (p + 1)) m hm hfind
    unfold wholeMinute minute at *
    omega
  have hdet : duePoint Match (N (p + 1)) (L (p + 1)) = some m :=
    duePoint_of_initialPoint Match _ _ m hp0 hM (hnot p hpn hNp)
  have hafter : ∀ d, m < L (p + 1 + (d + 1)) := by
    intro d
    induction d with
    | zero =>
      rcases hstep (p + 1) with ⟨hno, _⟩ | ⟨_, hge⟩
      · have := (duePoint_bounds Match _ _ m hdet)
        unfold duePoint at hdet
        rw [hno] at hdet
        simp at hdet
      · show m < L (p + 1 + 1)
        omega
    | succ d ih =>
      rcases hstep (p + 1 + (d + 1)) with ⟨_, heq⟩ | ⟨_, hge⟩
      · show m < L (p + 1 + (d + 1) + 1)
        rw [heq]; exact ih
      · have := hmonoAll (d + 1) (p + 1)
        show m < L (p + 1 + (d + 1) + 1)
        omega
  refine ⟨p + 1, hle, hdet, ?_⟩
  intro j hj
  have hb := duePoint_bounds Match _ _ m hj
  have hj1 : Nat.find hex ≤ j := Nat.find_min' hex hb.2
  rw [hp] at hj1
  by_contra hne
  obtain ⟨d, rfl⟩ : ∃ d, j = p + 1 + (d + 1) := ⟨j - (p + 1) - 1, by omega⟩
  have := hafter d
  omega



/-! ### The concrete collaborators -/

theorem tickingEnv_pollsSucceed (base step : Int) : PollsSucceed (tickingEnv base step) := by
  intro w bbsname mailbox
  refine ⟨quietConn [], ?_, ?_⟩
  · simp [ConnectToBBS, tickingEnv]
  · intro x hx
    simp [quietConn] at hx

theorem tickingEnv_clockMonotone (base step : Int) (hstep : 0 ≤ step) :
    ClockMonotone (tickingEnv base step) := by
  intro w w2 hsuf
  have hlen : (w.length : Int) ≤ (w2.length : Int) := by
    exact_mod_cast hsuf.length_le
  show base + step * (w.length : Int) ≤ base + step * (w2.length : Int)
  have := mul_le_mul_of_nonneg_left hlen hstep
  omega


/-! ### C1, C2: the due point -/

theorem forRetrieval_not_due (env : Env) (now : Int) (session : Session) (i : Nat)
    (ret : Retrieval) (w : List Event)
    (h : retrievalDue (env.Match session.RetrieveAt) now ret.LastRun = false) :
    forRetrieval env now session i ret w = (session, w) := by
  unfold forRetrieval
  rw [h]
  rfl

/-- A call of `checkBBS` always makes calls on the collaborators: it reads the
clock first. -/
theorem checkBBS_length_lt (env : Env) (session : Session) (i : Nat) (retrieval : Retrieval)
    (w : List Event) : w.length < (checkBBS env session i retrieval w).2.length := by
  have hnow : Event.now :: w <:+ (checkBBS env session i retrieval w).2 := by
    unfold checkBBS
    simp only
    have h1 := ConnectToBBS_suffix env retrieval.BBS session.CallSign (Event.now :: w)
    split
    · next heq =>
      rw [heq] at h1
      exact h1
    · next conn w1 heq =>
      rw [heq] at h1
      have h2 := readLoop_suffix env conn session retrieval conn.mail 1 w1
      split
      · next heq2 =>
        rw [heq2] at h2
        exact (h1.trans h2).trans (closeConn_suffix _ _ _ _)
      · next heq2 =>
        rw [heq2] at h2
        exact (h1.trans h2).trans ((List.suffix_cons _ _).trans (closeConn_suffix _ _ _ _))
  have := hnow.length_le
  simp only [List.length_cons] at this
  omega

/-- C1: the walk-back loop of `ForRunningSessions`/`ForSession` terminates
(`walkBack` is a total function satisfying the loop equation); the guard of the
`checkBBS` call holds, and the loop body calls `checkBBS` (which makes calls on
the collaborators), if and only if some whole minute `m` with `LastRun < m <= p0`
satisfies the cadence, `p0` being the initial point, which is the greatest whole
minute strictly before `now`; when such an `m` exists the loop stops at the
latest one.  With the cadence "every 20 minutes", `LastRun` 10:00:00 and `now`
10:47 the loop stops at 10:40 and the retrieval is due. -/
theorem c1_walk_back_finds_latest_due_point (Match : Int → Bool) (now lastRun : Int) :
    (∀ point : Int, walkBack Match lastRun point =
        if lastRun < point ∧ Match point = false then
          walkBack Match lastRun (point + -minute)
        else point) ∧
    (wholeMinute (initialPoint now) ∧ initialPoint now < now ∧
      ∀ m : Int, wholeMinute m → m < now → m ≤ initialPoint now) ∧
    (retrievalDue Match now lastRun = true ↔
      ∃ m : Int, wholeMinute m ∧ lastRun < m ∧ m ≤ initialPoint now ∧ Match m = true) ∧
    (∀ (env : Env) (session : Session) (i : Nat) (ret : Retrieval) (w : List Event),
      ((∃ m : Int, wholeMinute m ∧ ret.LastRun < m ∧ m ≤ initialPoint now ∧
          env.Match session.RetrieveAt m = true) →
        forRetrieval env now session i ret w = checkBBS env session i ret w ∧
        w.length < (forRetrieval env now session i ret w).2.length) ∧
      ((¬ ∃ m : Int, wholeMinute m ∧ ret.LastRun < m ∧ m ≤ initialPoint now ∧
          env.Match session.RetrieveAt m = true) →
        forRetrieval env now session i ret w = (session, w))) ∧
    (∀ m : Int, wholeMinute m → lastRun < m → m ≤ initialPoint now → Match m = true →
      wholeMinute (walkBack Match lastRun (initialPoint now)) ∧
      lastRun < walkBack Match lastRun (initialPoint now) ∧
      walkBack Match lastRun (initialPoint now) ≤ initialPoint now ∧
      Match (walkBack Match lastRun (initialPoint now)) = true ∧
      m ≤ walkBack Match lastRun (initialPoint now)) ∧
    (walkBack every20 (clockTime 10 0 0) (initialPoint (clockTime 10 47 0))
        = clockTime 10 40 0 ∧
      retrievalDue every20 (clockTime 10 47 0) (clockTime 10 0 0) = true) := by
  obtain ⟨hle, hmod, hexit, hskip⟩ := walkBack_spec Match lastRun (initialPoint now)
  have hp0 := wholeMinute_initialPoint now
  have hwhole : wholeMinute (walkBack Match lastRun (initialPoint now)) := by
    unfold wholeMinute minute at *
    omega
  have hlatest : ∀ m : Int, wholeMinute m → lastRun < m → m ≤ initialPoint now →
      Match m = true → m ≤ walkBack Match lastRun (initialPoint now) := by
    intro m hm hl hp hM
    by_contra hlt
    have hmod2 : (initialPoint now - m) % minute = 0 := by
      unfold wholeMinute minute at *
      omega
    have := (hskip m (by omega) hp hmod2).2
    simp [hM] at this
  have hmatch : lastRun < walkBack Match lastRun (initialPoint now) →
      Match (walkBack Match lastRun (initialPoint now)) = true := by
    intro hl
    by_contra hM
    exact hexit ⟨hl, by simpa using hM⟩
  refine ⟨walkBack_eq Match lastRun, ⟨hp0, initialPoint_lt now, ?_⟩, ?_, ?_, ?_, ?_⟩
  · intro m hm hlt
    exact initialPoint_greatest now m hm hlt
  · unfold retrievalDue
    rw [decide_eq_true_iff]
    constructor
    · intro hl
      exact ⟨_, hwhole, hl, hle, hmatch hl⟩
    · rintro ⟨m, hm, hl, hp, hM⟩
      have := hlatest m hm hl hp hM
      omega
  · intro env session i ret w
    constructor
    · intro hex
      have hdue := (retrievalDue_iff _ _ _).2 hex
      have hfor : forRetrieval env now session i ret w = checkBBS env session i ret w := by
        unfold forRetrieval
        rw [if_pos hdue]
      rw [hfor]
      exact ⟨rfl, checkBBS_length_lt env session i ret w⟩
    · intro hnex
      apply forRetrieval_not_due
      rw [← Bool.not_eq_true, retrievalDue_iff]
      exact hnex
  · intro m hm hl hp hM
    have h1 := hlatest m hm hl hp hM
    have h2 : lastRun < walkBack Match lastRun (initialPoint now) := by omega
    exact ⟨hwhole, h2, hle, hmatch h2, h1⟩
  · constructor <;> decide

/-- C1 at a concrete input: cadence every 20 minutes, `now` 10:47:30, `LastRun`
10:00:00, and the trigger instant 10:20. -/
theorem c1_walk_back_finds_latest_due_point_witness :
    clockTime 10 20 0 ≤ walkBack every20 (clockTime 10 0 0) (initialPoint (clockTime 10 47 30)) :=
  ((c1_walk_back_finds_latest_due_point every20 (clockTime 10 47 30)
      (clockTime 10 0 0)).2.2.2.2.1 (clockTime 10 20 0)
    (by decide) (by decide) (by decide) (by decide)).2.2.2.2

/-- C2: the initial point computed by `ForRunningSessions` and `ForSession` is a
whole minute with `now - 1min <= point < now`; it is `now - 1min` when `now` is
exactly on a whole minute and `now` truncated to the minute otherwise. -/
theorem c2_initial_point_bounds (now : Int) :
    wholeMinute (initialPoint now) ∧
    now - minute ≤ initialPoint now ∧
    initialPoint now < now ∧
    (wholeMinute now → initialPoint now = now - minute) ∧
    (¬ wholeMinute now → initialPoint now = truncate now) := by
  refine ⟨wholeMinute_initialPoint now, le_initialPoint now, initialPoint_lt now, ?_, ?_⟩
  · intro h
    unfold initialPoint
    rw [if_pos ((eq_truncate_iff now).2 h)]
    omega
  · intro h
    unfold initialPoint
    rw [if_neg (fun h2 => h ((eq_truncate_iff now).1 h2))]

/-- C2 at a concrete input: `now` = 10:47:00 exactly gives the point 10:46:00. -/
theorem c2_initial_point_bounds_witness :
    initialPoint (clockTime 10 47 0) = clockTime 10 47 0 - minute :=
  (c2_initial_point_bounds (clockTime 10 47 0)).2.2.2.1 (by decide)


/-! ### C3, C4, C5: what a sequence of invocations records -/

/-- C3, refuted as stated: one successful invocation at 10:47:30 of a session with
cadence every 20 minutes and `LastRun` 10:00:00 leaves `LastRun` at 10:47:31, the
time read when the poll began, while the latest instant satisfying the cadence at
or before the invocation time is 10:40:00. -/
theorem c3_final_last_run_is_poll_start_counterexample :
    invocationTime (tickingEnv (clockTime 10 47 30) 1000000000)
        (demoSession (clockTime 10 0 0)) [] 0 = clockTime 10 47 30 ∧
    lastRunBefore (tickingEnv (clockTime 10 47 30) 1000000000)
        (demoSession (clockTime 10 0 0)) [] 0 1 = clockTime 10 47 31 ∧
    IsLatestTrigger every20 (clockTime 10 47 30) (clockTime 10 40 0) ∧
    ¬ IsLatestTrigger every20
        (invocationTime (tickingEnv (clockTime 10 47 30) 1000000000)
          (demoSession (clockTime 10 0 0)) [] 0)
        (lastRunBefore (tickingEnv (clockTime 10 47 30) 1000000000)
          (demoSession (clockTime 10 0 0)) [] 0 1) := by
  refine ⟨by decide, by decide, ⟨by decide, by decide, by decide, ?_⟩, ?_⟩
  · intro m2 h1 h2 h3
    unfold every20 at h2
    rw [decide_eq_true_iff] at h2
    unfold wholeMinute minute at *
    unfold clockTime at *
    omega
  · intro h
    exact absurd h.1 (by decide)

/-- C3, amended: after any sequence of successful invocations (the clock not
going backwards), the final `LastRun` of a retrieval is at or after every whole
minute satisfying the cadence that is at or before the initial point of the
latest invocation (hence strictly before its invocation time); when the latest
invocation polls, the final `LastRun` is at or after the invocation time, being
the time read when the poll began. -/
theorem c3_final_last_run_covers_triggers (env : Env) (hp : PollsSucceed env)
    (hc : ClockMonotone env) (session : Session) (w : List Event) (n i : Nat)
    (hi : i < session.Retrieve.length) :
    (∀ m : Int, wholeMinute m → env.Match session.RetrieveAt m = true →
      m ≤ initialPoint (invocationTime env session w n) →
      m ≤ lastRunBefore env session w i (n + 1)) ∧
    (detected env session w i n ≠ none →
      invocationTime env session w n ≤ lastRunBefore env session w i (n + 1)) := by
  have hstep := invocations_step env hp hc session w i hi n
  constructor
  · intro m hm hM hle
    rcases hstep with ⟨hno, heq⟩ | ⟨_, hge⟩
    · rw [heq]
      by_contra hlt
      have := (retrievalDue_eq_false_iff _ _ _).1 hno m hm (by omega) hle
      rw [hM] at this
      exact Bool.noConfusion this
    · have := initialPoint_lt (invocationTime env session w n)
      omega
  · intro hdet
    rcases hstep with ⟨hno, _⟩ | ⟨_, hge⟩
    · exfalso
      apply hdet
      unfold detected duePoint
      rw [hno]
      rfl
    · exact hge

/-- C3 (amended) at a concrete input: the invocation at 10:47:30 and the trigger
instant 10:40:00. -/
theorem c3_final_last_run_covers_triggers_witness :
    clockTime 10 40 0 ≤ lastRunBefore (tickingEnv (clockTime 10 47 30) 1000000000)
      (demoSession (clockTime 10 0 0)) [] 0 1 :=
  (c3_final_last_run_covers_triggers (tickingEnv (clockTime 10 47 30) 1000000000)
    (tickingEnv_pollsSucceed _ _) (tickingEnv_clockMonotone _ _ (by decide))
    (demoSession (clockTime 10 0 0)) [] 0 0 (by decide)).1 (clockTime 10 40 0)
    (by decide) (by decide) (by decide)

/-- C4: if a retrieval was polled successfully during an invocation at `now`, its
`LastRun` is the time read when the poll began, and a further invocation at any
`now2 >= now` for which no whole minute satisfying the cadence lies after that
`LastRun` and at or before the initial point of `now2` makes no call for the
retrieval and leaves the session unchanged; this holds in particular for
`now2 = now`, the poll having begun no earlier than `now`. -/
theorem c4_rerun_is_noop (env : Env) (hp : PollsSucceed env) (now : Int)
    (session : Session) (i : Nat) (ret : Retrieval) (w : List Event)
    (hi : i < session.Retrieve.length)
    (hdue : retrievalDue (env.Match session.RetrieveAt) now ret.LastRun = true) :
    (forRetrieval env now session i ret w).1.Retrieve[i]?
      = some { ret with LastRun := env.clock w } ∧
    (∀ (now2 : Int) (w2 : List Event), now ≤ now2 →
      (∀ m : Int, wholeMinute m → env.clock w < m → m ≤ initialPoint now2 →
        env.Match session.RetrieveAt m = false) →
      forRetrieval env now2 (forRetrieval env now session i ret w).1 i
          { ret with LastRun := env.clock w } w2
        = ((forRetrieval env now session i ret w).1, w2)) ∧
    (now ≤ env.clock w → ∀ w2 : List Event,
      forRetrieval env now (forRetrieval env now session i ret w).1 i
          { ret with LastRun := env.clock w } w2
        = ((forRetrieval env now session i ret w).1, w2)) := by
  have hat := forRetrieval_RetrieveAt env now session i ret w
  have hret := forRetrieval_Retrieve_of_pollsSucceed env hp now session i ret w
  rw [if_pos hdue] at hret
  have hgen : ∀ (now2 : Int) (w2 : List Event),
      (∀ m : Int, wholeMinute m → env.clock w < m → m ≤ initialPoint now2 →
        env.Match session.RetrieveAt m = false) →
      forRetrieval env now2 (forRetrieval env now session i ret w).1 i
          { ret with LastRun := env.clock w } w2
        = ((forRetrieval env now session i ret w).1, w2) := by
    intro now2 w2 hnone
    have hfalse := (retrievalDue_eq_false_iff (env.Match session.RetrieveAt) now2
      (env.clock w)).2 hnone
    apply forRetrieval_not_due
    rw [hat]
    exact hfalse
  refine ⟨?_, fun now2 w2 _ hnone => hgen now2 w2 hnone, fun hstart w2 => hgen now w2 ?_⟩
  · rw [hret]
    simp [hi]
  · intro m _ hl hle
    have := initialPoint_lt now
    omega

/-- C4 at a concrete input: the session polled at 10:47:30, and a second
invocation at the same time. -/
theorem c4_rerun_is_noop_witness :
    forRetrieval (tickingEnv (clockTime 10 47 30) 1000000000) (clockTime 10 47 30)
        (forRetrieval (tickingEnv (clockTime 10 47 30) 1000000000) (clockTime 10 47 30)
          (demoSession (clockTime 10 0 0)) 0
          { BBS := "W1XSC", LastRun := clockTime 10 0 0 } [Event.now]).1 0
        { BBS := "W1XSC", LastRun := clockTime 10 47 31 } [Event.now]
      = ((forRetrieval (tickingEnv (clockTime 10 47 30) 1000000000) (clockTime 10 47 30)
          (demoSession (clockTime 10 0 0)) 0
          { BBS := "W1XSC", LastRun := clockTime 10 0 0 } [Event.now]).1, [Event.now]) :=
  (c4_rerun_is_noop (tickingEnv (clockTime 10 47 30) 1000000000)
    (tickingEnv_pollsSucceed _ _) (clockTime 10 47 30) (demoSession (clockTime 10 0 0)) 0
    { BBS := "W1XSC", LastRun := clockTime 10 0 0 } [Event.now]
    (by decide) (by decide)).2.2 (by decide) [Event.now]

/-- C5, refuted as stated: with cadence every 20 minutes and `LastRun` 10:00:00,
an invocation at 10:39:59.9 finds the retrieval due on account of 10:20 and its
poll records the start time 10:40:00.1; the next invocation, 1.2 seconds later,
has the trigger instant 10:40 as its initial point but finds nothing due, and no
invocation ever detects 10:40. -/
theorem c5_trigger_skipped_counterexample :
    detected (tickingEnv (clockTime 10 39 59 + 900000000) 200000000)
        (demoSession (clockTime 10 0 0)) [] 0 0 = some (clockTime 10 20 0) ∧
    lastRunBefore (tickingEnv (clockTime 10 39 59 + 900000000) 200000000)
        (demoSession (clockTime 10 0 0)) [] 0 1 = clockTime 10 40 0 + 100000000 ∧
    invocationTime (tickingEnv (clockTime 10 39 59 + 900000000) 200000000)
        (demoSession (clockTime 10 0 0)) [] 1 = clockTime 10 40 1 + 100000000 ∧
    (every20 (clockTime 10 40 0) = true ∧ wholeMinute (clockTime 10 40 0) ∧
      initialPoint (invocationTime (tickingEnv (clockTime 10 39 59 + 900000000) 200000000)
        (demoSession (clockTime 10 0 0)) [] 1) = clockTime 10 40 0) ∧
    detected (tickingEnv (clockTime 10 39 59 + 900000000) 200000000)
        (demoSession (clockTime 10 0 0)) [] 0 1 = none ∧
    ¬ ∃ k : Nat, detected (tickingEnv (clockTime 10 39 59 + 900000000) 200000000)
        (demoSession (clockTime 10 0 0)) [] 0 k = some (clockTime 10 40 0) := by
  refine ⟨by decide, by decide, by decide, by decide, by decide, ?_⟩
  rintro ⟨k, hk⟩
  have hp := tickingEnv_pollsSucceed (clockTime 10 39 59 + 900000000) 200000000
  have hc := tickingEnv_clockMonotone (clockTime 10 39 59 + 900000000) 200000000 (by decide)
  have hN : ∀ d : Nat, clockTime 10 40 1 + 100000000 ≤
      invocationTime (tickingEnv (clockTime 10 39 59 + 900000000) 200000000)
        (demoSession (clockTime 10 0 0)) [] (1 + d) := by
    intro d
    induction d with
    | zero => decide
    | succ d ih => exact ih.trans (invocationTime_mono _ hc _ _ _)
  have hL : ∀ d : Nat, clockTime 10 40 0 + 100000000 ≤
      lastRunBefore (tickingEnv (clockTime 10 39 59 + 900000000) 200000000)
        (demoSession (clockTime 10 0 0)) [] 0 (1 + d) := by
    intro d
    induction d with
    | zero => decide
    | succ d ih =>
      rcases invocations_step _ hp hc (demoSession (clockTime 10 0 0)) [] 0 (by decide)
        (1 + d) with ⟨_, heq⟩ | ⟨_, hge⟩
      · show _ ≤ lastRunBefore _ _ _ 0 (1 + d + 1)
        rw [heq]; exact ih
      · have h1 := hN d
        have h2 : clockTime 10 40 0 + 100000000 ≤ clockTime 10 40 1 + 100000000 := by decide
        show _ ≤ lastRunBefore _ _ _ 0 (1 + d + 1)
        omega
  have hb := duePoint_bounds _ _ _ _ hk
  cases k with
  | zero =>
    have h0 : detected (tickingEnv (clockTime 10 39 59 + 900000000) 200000000)
        (demoSession (clockTime 10 0 0)) [] 0 0 = some (clockTime 10 20 0) := by decide
    rw [h0] at hk
    exact absurd hk (by decide)
  | succ k =>
    have h1 := hL k
    rw [Nat.add_comm 1 k] at h1
    have h2 := hb.1
    omega

/-- C5, amended: when every poll succeeds, the clock does not go backwards and
invocations are at most a minute apart, a whole minute `m` satisfying the cadence
that is reached during the run is detected by exactly one invocation, provided no
poll begun by an invocation at or before `m` recorded a start time at or after
`m`. -/
theorem c5_trigger_detected_exactly_once (env : Env) (hp : PollsSucceed env)
    (hc : ClockMonotone env) (session : Session) (w : List Event) (i n : Nat)
    (hi : i < session.Retrieve.length) (m : Int) (hm : wholeMinute m)
    (hM : env.Match session.RetrieveAt m = true)
    (h0 : invocationTime env session w 0 ≤ m) (hn : m < invocationTime env session w n)
    (hgap : ∀ k, k < n →
      invocationTime env session w (k + 1) ≤ invocationTime env session w k + minute)
    (hnot : ∀ k, k < n → invocationTime env session w k ≤ m →
      lastRunBefore env session w i (k + 1) < m) :
    ∃ k, k ≤ n ∧ detected env session w i k = some m ∧
      ∀ j, detected env session w i j = some m → j = k :=
  detect_once (env.Match session.RetrieveAt) (invocationTime env session w)
    (lastRunBefore env session w i) n m (invocations_step env hp hc session w i hi)
    (invocationTime_mono env hc session w) hgap hm hM h0 hn hnot

/-- C5 (amended) at a concrete input: `LastRun` 10:30:00, invocations at 10:39:30
and 10:40:10, and the trigger instant 10:40:00. -/
theorem c5_trigger_detected_exactly_once_witness :
    ∃ k, k ≤ 1 ∧
      detected (tickingEnv (clockTime 10 39 30) 40000000000)
        (demoSession (clockTime 10 30 0)) [] 0 k = some (clockTime 10 40 0) ∧
      ∀ j, detected (tickingEnv (clockTime 10 39 30) 40000000000)
        (demoSession (clockTime 10 30 0)) [] 0 j = some (clockTime 10 40 0) → j = k :=
  c5_trigger_detected_exactly_once (tickingEnv (clockTime 10 39 30) 40000000000)
    (tickingEnv_pollsSucceed _ _) (tickingEnv_clockMonotone _ _ (by decide))
    (demoSession (clockTime 10 30 0)) [] 0 1 (by decide) (clockTime 10 40 0)
    (by decide) (by decide) (by decide) (by decide) (by decide) (by decide)



/-! ### Which calls a poll makes -/

theorem sendResponses_filter (p : Event → Bool) (hsend : ∀ a b c, p (Event.send a b c) = false)
    (hnow : p Event.now = false) (hlog : ∀ t, p (Event.log t) = false)
    (env : Env) (conn : Conn) (session : Session) (retrieval : Retrieval)
    (responses : List Response) :
    ∀ w : List Event,
      (sendResponses env conn session retrieval responses w).2.filter p = w.filter p := by
  induction responses with
  | nil => intro w; rfl
  | cons response rest ih =>
    intro w
    unfold sendResponses
    split
    · split
      · simp [List.filter_cons, hsend, hlog]
      · simp [ih, List.filter_cons, hsend, hnow]
    · simp [ih, List.filter_cons, hnow]

theorem saveResponses_filter (p : Event → Bool) (hsave : ∀ r, p (Event.saveResponse r) = false)
    (responses : List Response) :
    ∀ w : List Event, (saveResponses responses w).filter p = w.filter p := by
  induction responses with
  | nil => intro w; rfl
  | cons response rest ih =>
    intro w
    unfold saveResponses
    rw [ih]
    simp [List.filter_cons, hsave]

theorem ConnectToBBS_filter (p : Event → Bool) (hconnect : ∀ a b c, p (Event.connect a b c) = false)
    (hlog : ∀ t, p (Event.log t) = false) (env : Env) (bbsname mailbox : String)
    (w : List Event) :
    (ConnectToBBS env bbsname mailbox w).2.filter p = w.filter p := by
  unfold ConnectToBBS
  simp only
  split
  · simp [List.filter_cons, hlog]
  · split
    · split <;> simp [List.filter_cons, hlog, hconnect]
    · split
      · split <;> simp [List.filter_cons, hlog, hconnect]
      · rfl

theorem closeConn_filter (p : Event → Bool) (hclose : p Event.close = false)
    (hlog : ∀ t, p (Event.log t) = false) (conn : Conn) (session : Session)
    (retrieval : Retrieval) (w : List Event) :
    (closeConn conn session retrieval w).filter p = w.filter p := by
  unfold closeConn
  split <;> simp [List.filter_cons, hlog, hclose]

theorem handleMessage_filter_update (env : Env) (conn : Conn) (session : Session)
    (retrieval : Retrieval) (message : String) (msgnum : Nat) (w : List Event) :
    (handleMessage env conn session retrieval message msgnum w).filter isUpdateSession
      = w.filter isUpdateSession := by
  have hs := sendResponses_filter isUpdateSession (fun _ _ _ => rfl) rfl (fun _ => rfl)
    env conn session retrieval
    (env.responses (Event.analyze retrieval.BBS message :: w) session retrieval.BBS message)
    (Event.analyze retrieval.BBS message :: w)
  unfold handleMessage
  simp only
  split
  · next heq =>
    rw [heq] at hs
    simpa [List.filter_cons, isUpdateSession] using hs
  · next stamped w2 heq =>
    rw [heq] at hs
    have hs2 : w2.filter isUpdateSession = w.filter isUpdateSession := by
      simpa [List.filter_cons, isUpdateSession] using hs
    split
    · split
      · simp [List.filter_cons, isUpdateSession, hs2]
      · rw [saveResponses_filter isUpdateSession (fun _ => rfl)]
        simp [List.filter_cons, isUpdateSession, hs2]
    · rw [saveResponses_filter isUpdateSession (fun _ => rfl)]
      simp [List.filter_cons, isUpdateSession, hs2]

theorem handledAll_filter_update (env : Env) (conn : Conn) (session : Session)
    (retrieval : Retrieval) (messages : List String) :
    ∀ (msgnum : Nat) (w : List Event),
      (handledAll env conn session retrieval messages msgnum w).filter isUpdateSession
        = w.filter isUpdateSession := by
  induction messages with
  | nil => intro msgnum w; rfl
  | cons message rest ih =>
    intro msgnum w
    unfold handledAll
    rw [ih, handleMessage_filter_update]
    simp [List.filter_cons, isUpdateSession]

/-- A read that fails after the messages `messages` were read and handled ends
the loop of `checkBBS` with the failure logged. -/
theorem readLoop_read_fails (env : Env) (conn : Conn) (session : Session)
    (retrieval : Retrieval) (err : String) (rest : List (Except String String))
    (messages : List String) (hne : ∀ message ∈ messages, message ≠ "") :
    ∀ (msgnum : Nat) (w : List Event),
      readLoop env conn session retrieval
          (messages.map Except.ok ++ Except.error err :: rest) msgnum w
        = (false, Event.log ("ERROR: reading messages to " ++ session.CallSign ++ "@"
              ++ retrieval.BBS ++ ": " ++ err)
            :: Event.read (msgnum + messages.length)
            :: handledAll env conn session retrieval messages msgnum w) := by
  induction messages with
  | nil => intro msgnum w; rfl
  | cons message more ih =>
    intro msgnum w
    have hm : message ≠ "" := hne message (List.mem_cons_self _ _)
    simp only [List.map_cons, List.cons_append, List.length_cons]
    unfold readLoop
    rw [if_neg hm, ih (fun x hx => hne x (List.mem_cons_of_mem _ hx))]
    have hlen : msgnum + 1 + more.length = msgnum + (more.length + 1) := by omega
    have hall : handledAll env conn session retrieval (message :: more) msgnum w
        = handledAll env conn session retrieval more (msgnum + 1)
            (handleMessage env conn session retrieval message msgnum (Event.read msgnum :: w)) :=
      rfl
    rw [hlen, hall]


theorem handledAll_suffix (env : Env) (conn : Conn) (session : Session)
    (retrieval : Retrieval) (messages : List String) :
    ∀ (msgnum : Nat) (w : List Event),
      w <:+ handledAll env conn session retrieval messages msgnum w := by
  induction messages with
  | nil => intro msgnum w; exact List.suffix_refl _
  | cons message rest ih =>
    intro msgnum w
    exact ((List.suffix_cons _ _).trans (handleMessage_suffix _ _ _ _ _ _ _)).trans (ih _ _)

/-- C6: if connecting to the mailbox fails, or a `conn.Read` fails after some
messages were read and handled, `checkBBS` returns the session as it was (so the
retrieval keeps its `LastRun`) without having called `UpdateSession`; the history
up to the last handled message, with everything persisted by this poll and by
earlier retrievals, is kept; and the loop over the retrievals goes on with the
remaining ones. -/
theorem c6_failed_poll_keeps_last_run (env : Env) (now : Int) (session : Session) (i : Nat)
    (ret : Retrieval) (todo : List Retrieval) (w : List Event) :
    ((ConnectToBBS env ret.BBS session.CallSign (Event.now :: w)).1 = none →
      (checkBBS env session i ret w).1 = session ∧
      (checkBBS env session i ret w).2.filter isUpdateSession = w.filter isUpdateSession ∧
      w <:+ (checkBBS env session i ret w).2) ∧
    (∀ (conn : Conn) (w1 : List Event) (messages : List String) (err : String)
        (rest : List (Except String String)),
      ConnectToBBS env ret.BBS session.CallSign (Event.now :: w) = (some conn, w1) →
      conn.mail = messages.map Except.ok ++ Except.error err :: rest →
      (∀ message ∈ messages, message ≠ "") →
      (checkBBS env session i ret w).1 = session ∧
      (checkBBS env session i ret w).2.filter isUpdateSession = w.filter isUpdateSession ∧
      handledAll env conn session ret messages 1 w1 <:+ (checkBBS env session i ret w).2 ∧
      w <:+ handledAll env conn session ret messages 1 w1) ∧
    (retrievalDue (env.Match session.RetrieveAt) now ret.LastRun = true →
      (checkBBS env session i ret w).1 = session →
      retrieveLoop env now session i (ret :: todo) w
        = retrieveLoop env now session (i + 1) todo (checkBBS env session i ret w).2) := by
  have hconnf := ConnectToBBS_filter isUpdateSession (fun _ _ _ => rfl) (fun _ => rfl) env
    ret.BBS session.CallSign (Event.now :: w)
  have hconns := ConnectToBBS_suffix env ret.BBS session.CallSign (Event.now :: w)
  refine ⟨?_, ?_, ?_⟩
  · intro hnone
    have hcheck : checkBBS env session i ret w
        = (session, (ConnectToBBS env ret.BBS session.CallSign (Event.now :: w)).2) := by
      unfold checkBBS
      simp only
      split
      · next heq => rw [heq]
      · next heq => rw [heq] at hnone; simp at hnone
    rw [hcheck]
    refine ⟨rfl, ?_, (List.suffix_cons _ _).trans hconns⟩
    simpa [List.filter_cons, isUpdateSession] using hconnf
  · intro conn w1 messages err rest hconn hmail hne
    rw [hconn] at hconnf hconns
    have hread := readLoop_read_fails env conn session ret err rest messages hne 1 w1
    rw [← hmail] at hread
    have hcheck : checkBBS env session i ret w
        = (session, closeConn conn session ret
            (Event.log ("ERROR: reading messages to " ++ session.CallSign ++ "@"
                ++ ret.BBS ++ ": " ++ err)
              :: Event.read (1 + messages.length)
              :: handledAll env conn session ret messages 1 w1)) := by
      unfold checkBBS
      simp only [hconn, hread]
    rw [hcheck]
    have hw1 : w1.filter isUpdateSession = w.filter isUpdateSession := by
      simpa [List.filter_cons, isUpdateSession] using hconnf
    refine ⟨rfl, ?_, ?_, ?_⟩
    · rw [closeConn_filter isUpdateSession rfl (fun _ => rfl)]
      simp [List.filter_cons, isUpdateSession, handledAll_filter_update, hw1]
    · exact ((List.suffix_cons _ _).trans (List.suffix_cons _ _)).trans
        (closeConn_suffix _ _ _ _)
    · exact ((List.suffix_cons _ _).trans hconns).trans (handledAll_suffix _ _ _ _ _ _ _)
  · intro hdue hsame
    have hfor : forRetrieval env now session i ret w = checkBBS env session i ret w := by
      unfold forRetrieval
      rw [if_pos hdue]
    show retrieveLoop env now (forRetrieval env now session i ret w).1 (i + 1) todo
        (forRetrieval env now session i ret w).2 = _
    rw [hfor, hsame]

/-- C6 at a concrete input: a mailbox whose first read returns a message and whose
second read fails. -/
theorem c6_failed_poll_keeps_last_run_witness :
    (checkBBS (replyEnv (clockTime 10 47 30) 1000000000 readFailsConn)
        (demoSession (clockTime 10 0 0)) 0
        { BBS := "W1XSC", LastRun := clockTime 10 0 0 } []).1
      = demoSession (clockTime 10 0 0) :=
  ((c6_failed_poll_keeps_last_run (replyEnv (clockTime 10 47 30) 1000000000 readFailsConn)
    (clockTime 10 47 30) (demoSession (clockTime 10 0 0)) 0
    { BBS := "W1XSC", LastRun := clockTime 10 0 0 } [] []).2.1
    readFailsConn [Event.connect "telnet" "W1XSC" "PKTMON", Event.now] ["first"] "timeout" []
    rfl rfl (by decide)).1


/-- When the connection succeeds and every read succeeds, `checkBBS` records the
poll's start time and updates the session, whatever the sends and kills did. -/
theorem checkBBS_of_reads_ok (env : Env) (session : Session) (i : Nat) (ret : Retrieval)
    (w w1 : List Event) (conn : Conn)
    (hconn : ConnectToBBS env ret.BBS session.CallSign (Event.now :: w) = (some conn, w1))
    (hmail : ∀ x ∈ conn.mail, ∃ message : String, x = Except.ok message) :
    checkBBS env session i ret w =
      (updatedSession env
          { session with Retrieve := session.Retrieve.set i { ret with LastRun := env.clock w } }
          (readLoop env conn session ret conn.mail 1 w1).2,
        closeConn conn
          { session with Retrieve := session.Retrieve.set i { ret with LastRun := env.clock w } }
          ret
          (Event.updateSession
              { session with
                Retrieve := session.Retrieve.set i { ret with LastRun := env.clock w } }
            :: (readLoop env conn session ret conn.mail 1 w1).2)) := by
  have hok := readLoop_ok env conn session ret conn.mail hmail 1 w1
  unfold checkBBS
  simp only [hconn]
  split
  · next heq => rw [heq] at hok; simp at hok
  · next heq => rw [heq]

/-- C7, refuted as stated: on a mailbox holding two messages where the send of
the response to the first fails, `checkBBS` goes on to read and handle the second
message, sets `LastRun` to the poll's start time 10:47:30 and updates the
session. -/
theorem c7_send_failure_does_not_abort_poll_counterexample :
    (checkBBS (replyEnv (clockTime 10 47 30) 1000000000 sendFailsConn)
        (demoSession (clockTime 10 0 0)) 0
        { BBS := "W1XSC", LastRun := clockTime 10 0 0 } []).2.reverse
      = [Event.now,
         Event.connect "telnet" "W1XSC" "PKTMON",
         Event.read 1,
         Event.analyze "W1XSC" "first",
         Event.send "re: first" "received" "sender@W1XSC",
         Event.log "ERROR: sending message from PKTMON@W1XSC: link down",
         Event.read 2,
         Event.analyze "W1XSC" "second",
         Event.send "re: second" "received" "sender@W1XSC",
         Event.now,
         Event.kill 2,
         Event.commit "W1XSC" "second",
         Event.saveResponse
           { replyTo (demoSession (clockTime 10 0 0)) "W1XSC" "second" with
             SendTime := clockTime 10 47 39 },
         Event.read 3,
         Event.updateSession (demoSession (clockTime 10 47 30)),
         Event.close] ∧
    (checkBBS (replyEnv (clockTime 10 47 30) 1000000000 sendFailsConn)
        (demoSession (clockTime 10 0 0)) 0
        { BBS := "W1XSC", LastRun := clockTime 10 0 0 } []).1
      = demoSession (clockTime 10 47 30) := by
  constructor <;> decide

/-- C7, amended: if a `conn.Send` fails while a message is handled, or the
`conn.Kill` of the message fails, `handleMessage` abandons that message alone:
nothing about it is persisted (and after a failed send the message is not
killed); the loop of `checkBBS` then goes on to the next message number, and when
every read succeeds `checkBBS` sets `LastRun` to the poll's start time and
updates the session. -/
theorem c7_write_failure_abandons_message_only (env : Env) (conn : Conn) (session : Session)
    (ret : Retrieval) (message : String) (msgnum : Nat) (w : List Event) :
    ((sendResponses env conn session ret
          (env.responses (Event.analyze ret.BBS message :: w) session ret.BBS message)
          (Event.analyze ret.BBS message :: w)).1 = none →
      (handleMessage env conn session ret message msgnum w).filter isMessageWrite
          = w.filter isMessageWrite ∧
      (handleMessage env conn session ret message msgnum w).filter isKill
          = w.filter isKill) ∧
    (∀ (stamped : List Response) (w2 : List Event) (err : String),
      sendResponses env conn session ret
          (env.responses (Event.analyze ret.BBS message :: w) session ret.BBS message)
          (Event.analyze ret.BBS message :: w) = (some stamped, w2) →
      session.Flags &&& DontKillMessages = 0 → conn.kill w2 msgnum = some err →
      (handleMessage env conn session ret message msgnum w).filter isMessageWrite
          = w.filter isMessageWrite) ∧
    (∀ rest : List (Except String String), message ≠ "" →
      readLoop env conn session ret (Except.ok message :: rest) msgnum w
        = readLoop env conn session ret rest (msgnum + 1)
            (handleMessage env conn session ret message msgnum (Event.read msgnum :: w))) ∧
    (∀ (i : Nat) (w0 w1 : List Event),
      ConnectToBBS env ret.BBS session.CallSign (Event.now :: w0) = (some conn, w1) →
      (∀ x ∈ conn.mail, ∃ m : String, x = Except.ok m) →
      (checkBBS env session i ret w0).1.Retrieve
          = session.Retrieve.set i { ret with LastRun := env.clock w0 } ∧
      Event.updateSession
          { session with Retrieve := session.Retrieve.set i { ret with LastRun := env.clock w0 } }
        ∈ (checkBBS env session i ret w0).2) := by
  refine ⟨?_, ?_, ?_, ?_⟩
  · intro hnone
    have hw : handleMessage env conn session ret message msgnum w
        = (sendResponses env conn session ret
            (env.responses (Event.analyze ret.BBS message :: w) session ret.BBS message)
            (Event.analyze ret.BBS message :: w)).2 := by
      unfold handleMessage
      simp only
      split
      · next heq => rw [heq]
      · next heq => rw [heq] at hnone; simp at hnone
    rw [hw, sendResponses_filter isMessageWrite (fun _ _ _ => rfl) rfl (fun _ => rfl),
      sendResponses_filter isKill (fun _ _ _ => rfl) rfl (fun _ => rfl)]
    constructor <;> simp [List.filter_cons, isMessageWrite, isKill]
  · intro stamped w2 err hsend hflag hkill
    have hf := sendResponses_filter isMessageWrite (fun _ _ _ => rfl) rfl (fun _ => rfl)
      env conn session ret
      (env.responses (Event.analyze ret.BBS message :: w) session ret.BBS message)
      (Event.analyze ret.BBS message :: w)
    rw [hsend] at hf
    have hw : handleMessage env conn session ret message msgnum w
        = Event.log ("ERROR: killing message " ++ toString msgnum ++ " at "
            ++ session.CallSign ++ "@" ++ ret.BBS ++ ": " ++ err)
          :: Event.kill msgnum :: w2 := by
      unfold handleMessage
      simp only [hsend, hflag, hkill, if_true]
    rw [hw]
    simpa [List.filter_cons, isMessageWrite] using hf
  · intro rest hne
    show (if message = "" then _ else _) = _
    rw [if_neg hne]
  · intro i w0 w1 hconn hmail
    rw [checkBBS_of_reads_ok env session i ret w0 w1 conn hconn hmail]
    refine ⟨by simp only [updatedSession_Retrieve], ?_⟩
    exact (closeConn_suffix _ _ _ _).subset (List.mem_cons_self _ _)

/-- C7 (amended) at a concrete input: the message `first`, the send of whose
response fails. -/
theorem c7_write_failure_abandons_message_only_witness :
    (handleMessage (replyEnv (clockTime 10 47 30) 1000000000 sendFailsConn) sendFailsConn
        (demoSession (clockTime 10 0 0)) { BBS := "W1XSC", LastRun := clockTime 10 0 0 }
        "first" 1 []).filter isMessageWrite = [] :=
  ((c7_write_failure_abandons_message_only
    (replyEnv (clockTime 10 47 30) 1000000000 sendFailsConn) sendFailsConn
    (demoSession (clockTime 10 0 0)) { BBS := "W1XSC", LastRun := clockTime 10 0 0 }
    "first" 1 []).1 (by decide)).1


/-! ### The loop of `Transaction` -/

theorem le_nextDelay (delay : Int) (h : initialDelay ≤ delay) : initialDelay ≤ nextDelay delay := by
  unfold nextDelay initialDelay at *
  split <;> omega

theorem iterationsLeft_pos (elapsed : Int) : 0 < iterationsLeft elapsed := by
  unfold iterationsLeft
  split <;> omega

/-- After a sleep of at least 8 ms the loop needs one iteration less. -/
theorem iterationsLeft_step (elapsed cost delay : Int) (hcost : 0 ≤ cost)
    (hdelay : initialDelay ≤ delay) (hwait : ¬ elapsed + cost > maxWait) :
    iterationsLeft (elapsed + cost + delay) + 1 ≤ iterationsLeft elapsed := by
  unfold iterationsLeft initialDelay maxWait at *
  split <;> split <;> omega

theorem transactionLoop_succ {σ : Type} (env : TxEnv) (write : Bool)
    (fn : Nat → σ → Option DBError × σ) (fuel i : Nat) (delay elapsed : Int) (db : σ)
    (trace : List TxEvent) :
    transactionLoop env write fn (fuel + 1) i delay elapsed db trace =
      if (attemptTransaction env write fn i db trace).ran then
        { outcome := TxOutcome.returned (attemptTransaction env write fn i db trace).err
          db := (attemptTransaction env write fn i db trace).db
          trace := (attemptTransaction env write fn i db trace).trace }
      else if elapsed + env.cost i > maxWait then
        { outcome := TxOutcome.panicked "too many retries"
          db := (attemptTransaction env write fn i db trace).db
          trace := (attemptTransaction env write fn i db trace).trace }
      else
        transactionLoop env write fn fuel (i + 1) (nextDelay delay)
          (elapsed + env.cost i + delay)
          (attemptTransaction env write fn i db trace).db
          (TxEvent.sleep delay :: (attemptTransaction env write fn i db trace).trace) :=
  rfl

/-- A larger iteration budget does not change the result of the loop. -/
theorem transactionLoop_fuel {σ : Type} (env : TxEnv) (write : Bool)
    (fn : Nat → σ → Option DBError × σ) (fuel : Nat) :
    ∀ (i : Nat) (delay elapsed : Int) (db : σ) (trace : List TxEvent),
      initialDelay ≤ delay → iterationsLeft elapsed ≤ fuel →
      transactionLoop env write fn (fuel + 1) i delay elapsed db trace
        = transactionLoop env write fn fuel i delay elapsed db trace := by
  induction fuel with
  | zero =>
    intro i delay elapsed db trace _ hfuel
    have := iterationsLeft_pos elapsed
    omega
  | succ fuel ih =>
    intro i delay elapsed db trace hdelay hfuel
    rw [transactionLoop_succ env write fn fuel i delay elapsed db trace,
      transactionLoop_succ env write fn (fuel + 1) i delay elapsed db trace]
    split
    · rfl
    · split
      · rfl
      · next hwait =>
        apply ih _ _ _ _ _ (le_nextDelay delay hdelay)
        have := iterationsLeft_step elapsed (env.cost i) delay (by omega) hdelay hwait
        omega

theorem transactionLoop_fuel_add {σ : Type} (env : TxEnv) (write : Bool)
    (fn : Nat → σ → Option DBError × σ) (i : Nat) (delay elapsed : Int) (db : σ)
    (trace : List TxEvent) (hdelay : initialDelay ≤ delay) (extra : Nat) :
    transactionLoop env write fn (iterationsLeft elapsed + extra) i delay elapsed db trace
      = transactionLoop env write fn (iterationsLeft elapsed) i delay elapsed db trace := by
  induction extra with
  | zero => rfl
  | succ extra ih =>
    rw [← ih]
    exact transactionLoop_fuel env write fn (iterationsLeft elapsed + extra) i delay elapsed db
      trace hdelay (Nat.le_add_right _ _)

/-- The loop equation: `transactionFrom` is the loop of `Transaction`, one
iteration unrolled; the iteration budget is never exhausted. -/
theorem transactionFrom_eq {σ : Type} (env : TxEnv) (write : Bool)
    (fn : Nat → σ → Option DBError × σ) (i : Nat) (delay elapsed : Int) (db : σ)
    (trace : List TxEvent) (hdelay : initialDelay ≤ delay) :
    transactionFrom env write fn i delay elapsed db trace =
      if (attemptTransaction env write fn i db trace).ran then
        { outcome := TxOutcome.returned (attemptTransaction env write fn i db trace).err
          db := (attemptTransaction env write fn i db trace).db
          trace := (attemptTransaction env write fn i db trace).trace }
      else if elapsed + env.cost i > maxWait then
        { outcome := TxOutcome.panicked "too many retries"
          db := (attemptTransaction env write fn i db trace).db
          trace := (attemptTransaction env write fn i db trace).trace }
      else
        transactionFrom env write fn (i + 1) (nextDelay delay) (elapsed + env.cost i + delay)
          (attemptTransaction env write fn i db trace).db
          (TxEvent.sleep delay :: (attemptTransaction env write fn i db trace).trace) := by
  unfold transactionFrom
  obtain ⟨n, hn⟩ : ∃ n, iterationsLeft elapsed = n + 1 :=
    ⟨iterationsLeft elapsed - 1, by have := iterationsLeft_pos elapsed; omega⟩
  rw [hn, transactionLoop_succ]
  split
  · rfl
  · split
    · rfl
    · next hwait =>
      have hstep := iterationsLeft_step elapsed (env.cost i) delay (by omega) hdelay hwait
      obtain ⟨extra, hextra⟩ : ∃ extra,
          n = iterationsLeft (elapsed + env.cost i + delay) + extra :=
        ⟨n - iterationsLeft (elapsed + env.cost i + delay), by omega⟩
      rw [hextra]
      exact transactionLoop_fuel_add env write fn _ _ _ _ _ (le_nextDelay delay hdelay) extra

theorem le_delayAt (k : Nat) : initialDelay ≤ delayAt k := by
  induction k with
  | zero => exact le_refl _
  | succ k ih => exact le_nextDelay _ ih

theorem elapsedBefore_mono (env : TxEnv) (k : Nat) :
    elapsedBefore env k + env.cost k ≤ elapsedBefore env (k + 1) := by
  have := le_delayAt k
  show _ ≤ elapsedBefore env k + env.cost k + delayAt k
  unfold initialDelay at this
  omega

/-- An attempt whose `BEGIN` reports busy or locked is abandoned without calling
the body. -/
theorem attemptTransaction_busy {σ : Type} (env : TxEnv) (fn : Nat → σ → Option DBError × σ)
    (i : Nat) (db : σ) (trace : List TxEvent)
    (hbusy : busyOrLocked (env.beginResult i) = true) :
    attemptTransaction env true fn i db trace
      = { ran := false, err := none, db := db, trace := TxEvent.begin true :: trace } := by
  unfold attemptTransaction
  simp only [if_true, hbusy]

/-- An attempt whose `BEGIN` succeeds runs the body and ends the transaction. -/
theorem attemptTransaction_begun {σ : Type} (env : TxEnv) (write : Bool)
    (fn : Nat → σ → Option DBError × σ) (i : Nat) (db : σ) (trace : List TxEvent)
    (hok : env.beginResult i = none) :
    attemptTransaction env write fn i db trace
      = { ran := true
          err := (endfn env i none (fn i db).1 db (fn i db).2
            (TxEvent.body :: TxEvent.begin write :: trace)).1
          db := (endfn env i none (fn i db).1 db (fn i db).2
            (TxEvent.body :: TxEvent.begin write :: trace)).2.1
          trace := (endfn env i none (fn i db).1 db (fn i db).2
            (TxEvent.body :: TxEvent.begin write :: trace)).2.2 } := by
  unfold attemptTransaction
  have hnb : busyOrLocked (none : Option DBError) = false := by decide
  simp [hok, hnb]

/-- After `K` attempts abandoned at a busy `BEGIN`, the time limit not exceeded,
`Transaction` is at attempt `K` with the database untouched. -/
theorem Transaction_busy_begins {σ : Type} (env : TxEnv) (write : Bool)
    (fn : Nat → σ → Option DBError × σ) (db : σ) (K : Nat)
    (hbusy : ∀ i, i < K → write = true ∧ busyOrLocked (env.beginResult i) = true)
    (hwait : elapsedBefore env K ≤ maxWait) :
    Transaction env write fn db
      = transactionFrom env write fn K (delayAt K) (elapsedBefore env K) db
          (busyTrace write K) := by
  induction K with
  | zero => rfl
  | succ K ih =>
    have hmono := elapsedBefore_mono env K
    rw [ih (fun i hi => hbusy i (by omega)) (by omega)]
    obtain ⟨hw, hb⟩ := hbusy K (by omega)
    subst hw
    rw [transactionFrom_eq env true fn K _ _ _ _ (le_delayAt K),
      attemptTransaction_busy env fn K db _ hb]
    simp only [Bool.false_eq_true, if_false]
    rw [if_neg (by omega)]
    rfl


theorem busyTrace_mem (write : Bool) (K : Nat) (e : TxEvent) (h : e ∈ busyTrace write K) :
    (∃ d : Int, e = TxEvent.sleep d) ∨ e = TxEvent.begin write := by
  induction K with
  | zero => simp [busyTrace] at h
  | succ K ih =>
    simp only [busyTrace, List.mem_cons] at h
    rcases h with h | h | h
    · exact Or.inl ⟨_, h⟩
    · exact Or.inr h
    · exact ih h

theorem busyTrace_count_body (write : Bool) (K : Nat) :
    List.count TxEvent.body (busyTrace write K) = 0 := by
  rw [List.count_eq_zero]
  intro h
  rcases busyTrace_mem write K _ h with ⟨d, hd⟩ | hb
  · exact TxEvent.noConfusion hd
  · exact TxEvent.noConfusion hb

/-- The attempt that follows `K` abandoned attempts decides the result of
`Transaction`, when its `BEGIN` succeeds. -/
theorem Transaction_after_busy_begins {σ : Type} (env : TxEnv) (write : Bool)
    (fn : Nat → σ → Option DBError × σ) (db : σ) (K : Nat)
    (hbusy : ∀ i, i < K → write = true ∧ busyOrLocked (env.beginResult i) = true)
    (hwait : elapsedBefore env K ≤ maxWait) (hbegin : env.beginResult K = none) :
    Transaction env write fn db
      = { outcome := TxOutcome.returned (endfn env K none (fn K db).1 db (fn K db).2
            (TxEvent.body :: TxEvent.begin write :: busyTrace write K)).1
          db := (endfn env K none (fn K db).1 db (fn K db).2
            (TxEvent.body :: TxEvent.begin write :: busyTrace write K)).2.1
          trace := (endfn env K none (fn K db).1 db (fn K db).2
            (TxEvent.body :: TxEvent.begin write :: busyTrace write K)).2.2 } := by
  rw [Transaction_busy_begins env write fn db K hbusy hwait,
    transactionFrom_eq env write fn K _ _ _ _ (le_delayAt K),
    attemptTransaction_begun env write fn K db _ hbegin]
  rfl

/-- The deferred `endfn` does not look at the trace: a longer trace only shows in
the resulting trace. -/
theorem endfn_append {σ : Type} (env : TxEnv) (K : Nat) (err : Option DBError) (db work : σ)
    (trace older : List TxEvent) :
    (endfn env K none err db work (trace ++ older)).1
        = (endfn (shiftEnv env K) 0 none err db work trace).1 ∧
    (endfn env K none err db work (trace ++ older)).2.1
        = (endfn (shiftEnv env K) 0 none err db work trace).2.1 ∧
    (endfn env K none err db work (trace ++ older)).2.2
        = (endfn (shiftEnv env K) 0 none err db work trace).2.2 ++ older := by
  have hc : (shiftEnv env K).commitResult 0 = env.commitResult K := rfl
  unfold endfn
  rw [hc]
  cases err with
  | some e => exact ⟨rfl, rfl, rfl⟩
  | none =>
    cases env.commitResult K with
    | none => exact ⟨rfl, rfl, rfl⟩
    | some ce => exact ⟨rfl, rfl, rfl⟩

/-! ### C8, C9, C10 -/

/-- C8: when the `BEGIN` of an attempt succeeds (after any number of attempts
abandoned at a busy `BEGIN`) and the body returns a non-nil error `e`,
`Transaction` returns `e`, the database is as it was, and the trace ends with
that one call of the body followed by a rollback: no commit, no further attempt,
no sleep after the body. -/
theorem c8_body_error_rolls_back_without_retry {σ : Type} (env : TxEnv) (write : Bool)
    (fn : Nat → σ → Option DBError × σ) (db work : σ) (K : Nat) (e : DBError)
    (hbusy : ∀ i, i < K → write = true ∧ busyOrLocked (env.beginResult i) = true)
    (hwait : elapsedBefore env K ≤ maxWait) (hbegin : env.beginResult K = none)
    (hfn : fn K db = (some e, work)) :
    (Transaction env write fn db).outcome = TxOutcome.returned (some e) ∧
    (Transaction env write fn db).db = db ∧
    (Transaction env write fn db).trace
      = TxEvent.rollback :: TxEvent.body :: TxEvent.begin write :: busyTrace write K ∧
    List.count TxEvent.body (Transaction env write fn db).trace = 1 ∧
    TxEvent.commit ∉ (Transaction env write fn db).trace := by
  rw [Transaction_after_busy_begins env write fn db K hbusy hwait hbegin, hfn]
  refine ⟨rfl, rfl, rfl, ?_, ?_⟩
  · show List.count TxEvent.body
      (TxEvent.rollback :: TxEvent.body :: TxEvent.begin write :: busyTrace write K) = 1
    rw [List.count_cons, List.count_cons, List.count_cons, busyTrace_count_body]
    rfl
  · show TxEvent.commit ∉
      TxEvent.rollback :: TxEvent.body :: TxEvent.begin write :: busyTrace write K
    intro h
    simp only [List.mem_cons] at h
    rcases h with h | h | h | h
    · exact TxEvent.noConfusion h
    · exact TxEvent.noConfusion h
    · exact TxEvent.noConfusion h
    · rcases busyTrace_mem write K _ h with ⟨d, hd⟩ | hb
      · exact TxEvent.noConfusion hd
      · exact TxEvent.noConfusion hb

/-- C8 at a concrete input: a body that fails, in a read transaction. -/
theorem c8_body_error_rolls_back_without_retry_witness :
    (Transaction busyCommitEnv false (failingBody "r1") ["r0"]).trace
      = [TxEvent.rollback, TxEvent.body, TxEvent.begin false] :=
  (c8_body_error_rolls_back_without_retry busyCommitEnv false (failingBody "r1")
    ["r0"] ["r1", "r0"] 0 { code := 1, text := "constraint failed" }
    (by decide) (by decide) rfl rfl).2.2.1

/-- C9, refuted as stated: a body that meets contention on its first call and
returns the `SQLITE_BUSY` error, and would succeed on a second call, is not
called again: `Transaction` rolls back and returns the busy error after one
attempt, while the same body succeeding at once returns nil with the row
inserted. -/
theorem c9_body_contention_is_not_retried_counterexample :
    (Transaction quietTxEnv true (busyOnceBody "r1") ["r0"]).outcome
      = TxOutcome.returned (some { code := 5, text := "database is locked" }) ∧
    (Transaction quietTxEnv true (busyOnceBody "r1") ["r0"]).db = ["r0"] ∧
    (Transaction quietTxEnv true (busyOnceBody "r1") ["r0"]).trace
      = [TxEvent.rollback, TxEvent.body, TxEvent.begin true] ∧
    (busyOnceBody "r1" 1 ["r0"]).1 = none ∧
    elapsedBefore quietTxEnv 1 < maxWait ∧
    (Transaction (shiftEnv quietTxEnv 1) true (shiftBody (busyOnceBody "r1") 1) ["r0"]).outcome
      = TxOutcome.returned none ∧
    (Transaction (shiftEnv quietTxEnv 1) true (shiftBody (busyOnceBody "r1") 1) ["r0"]).db
      = ["r1", "r0"] := by
  refine ⟨by decide, by decide, by decide, by decide, by decide, by decide, by decide⟩

/-- C9, amended: a write transaction whose first `K` attempts are abandoned at a
`BEGIN` that reports busy or locked, the time elapsed when attempt `K` begins
(the cumulative backoff) not exceeding 30 seconds, and whose attempt `K` begins,
returns the same error value and leaves the same database as a transaction whose
first attempt is that attempt; the abandoned attempts do not call the body, and
each is followed by its backoff sleep. -/
theorem c9_busy_retry_converges {σ : Type} (env : TxEnv) (fn : Nat → σ → Option DBError × σ)
    (db : σ) (K : Nat)
    (hbusy : ∀ i, i < K → busyOrLocked (env.beginResult i) = true)
    (hwait : elapsedBefore env K ≤ maxWait) (hbegin : env.beginResult K = none) :
    (Transaction env true fn db).outcome = (Transaction (shiftEnv env K) true (shiftBody fn K) db).outcome ∧
    (Transaction env true fn db).db = (Transaction (shiftEnv env K) true (shiftBody fn K) db).db ∧
    (Transaction env true fn db).trace
      = (Transaction (shiftEnv env K) true (shiftBody fn K) db).trace ++ busyTrace true K ∧
    List.count TxEvent.body (busyTrace true K) = 0 ∧
    ((fn K db).1 = none → env.commitResult K = none →
      (Transaction env true fn db).outcome = TxOutcome.returned none ∧
      (Transaction env true fn db).db = (fn K db).2) := by
  have h1 := Transaction_after_busy_begins env true fn db K
    (fun i hi => ⟨rfl, hbusy i hi⟩) hwait hbegin
  have h2 := Transaction_after_busy_begins (shiftEnv env K) true (shiftBody fn K) db 0
    (fun i hi => absurd hi (Nat.not_lt_zero i))
    (show (0 : Int) ≤ maxWait by decide) hbegin
  obtain ⟨ha, hb, hc⟩ := endfn_append env K (fn K db).1 db (fn K db).2
    [TxEvent.body, TxEvent.begin true] (busyTrace true K)
  rw [h1, h2]
  refine ⟨?_, ?_, ?_, busyTrace_count_body true K, ?_⟩
  · exact congrArg TxOutcome.returned ha
  · exact hb
  · exact hc
  · intro hfn hcommit
    show TxOutcome.returned (endfn env K none (fn K db).1 db (fn K db).2 _).1 = _ ∧
      (endfn env K none (fn K db).1 db (fn K db).2 _).2.1 = _
    unfold endfn
    rw [hfn, hcommit]
    exact ⟨rfl, rfl⟩

/-- C9 (amended) at a concrete input: three busy `BEGIN`s, then success. -/
theorem c9_busy_retry_converges_witness :
    (Transaction busyBeginEnv true (insertRow "r1") ["r0"]).outcome = TxOutcome.returned none ∧
    (Transaction busyBeginEnv true (insertRow "r1") ["r0"]).db = ["r1", "r0"] :=
  (c9_busy_retry_converges busyBeginEnv (insertRow "r1") ["r0"] 3
    (by decide) (by decide) rfl).2.2.2.2 rfl rfl

/-- C10, evaluated at the failing input: the `BEGIN` succeeds, the body returns
nil and the `COMMIT` reports `SQLITE_BUSY`.  `Transaction` returns the busy error
after that single attempt, the transaction rolled back and the body called once,
although the `COMMIT` of a second attempt would have succeeded. -/
theorem c10_commit_busy_is_returned_not_retried :
    (Transaction busyCommitEnv true (insertRow "r1") ["r0"]).outcome
      = TxOutcome.returned (some { code := 5, text := "database is locked" }) ∧
    (Transaction busyCommitEnv true (insertRow "r1") ["r0"]).db = ["r0"] ∧
    (Transaction busyCommitEnv true (insertRow "r1") ["r0"]).trace
      = [TxEvent.rollback, TxEvent.commit, TxEvent.body, TxEvent.begin true] ∧
    busyOrLocked (busyCommitEnv.commitResult 0) = true ∧
    busyCommitEnv.commitResult 1 = none := by
  refine ⟨by decide, by decide, by decide, by decide, by decide⟩


/-! ### C11, C12: errors of `BEGIN` and the backoff -/

/-- C11, evaluated at the failing input: a write transaction whose first `BEGIN`
fails with `SQLITE_CANTOPEN`, an error that is neither busy nor locked.
`Transaction` does not panic: it sleeps 8 ms, retries, runs the body on the
second attempt and returns nil with the row inserted.  When every `BEGIN` fails
that way it sleeps and retries 36 times, the body never running, and panics only
once 30 seconds have passed, with "too many retries". -/
theorem c11_begin_error_is_retried_not_fatal :
    busyOrLocked (cantOpenOnceEnv.beginResult 0) = false ∧
    (attemptTransaction cantOpenOnceEnv true (insertRow "r1") 0 ["r0"] []).ran = false ∧
    (attemptTransaction cantOpenOnceEnv true (insertRow "r1") 0 ["r0"] []).err
      = some { code := 14, text := "unable to open database file" } ∧
    (Transaction cantOpenOnceEnv true (insertRow "r1") ["r0"]).outcome
      = TxOutcome.returned none ∧
    (Transaction cantOpenOnceEnv true (insertRow "r1") ["r0"]).db = ["r1", "r0"] ∧
    (Transaction cantOpenOnceEnv true (insertRow "r1") ["r0"]).trace
      = [TxEvent.commit, TxEvent.body, TxEvent.begin true, TxEvent.sleep 8000000,
         TxEvent.begin true] ∧
    (Transaction cantOpenEnv true (insertRow "r1") ["r0"]).outcome
      = TxOutcome.panicked "too many retries" ∧
    (sleepsOf (Transaction cantOpenEnv true (insertRow "r1") ["r0"]).trace).length = 36 ∧
    List.count TxEvent.body (Transaction cantOpenEnv true (insertRow "r1") ["r0"]).trace = 0 := by
  refine ⟨by decide, by decide, by decide, by decide, by decide, by decide, by decide,
    by decide, by decide⟩

theorem delayAt_small (n : Nat) (hn : n ≤ 7) : delayAt n = 8 * 2 ^ n * 1000000 := by
  interval_cases n <;> decide

theorem delayAt_large (n : Nat) : delayAt (7 + n) = maxDelay := by
  induction n with
  | zero => decide
  | succ n ih =>
    show nextDelay (delayAt (7 + n)) = maxDelay
    rw [ih]
    decide

/-- The closed form of the delay: `min(8 * 2^n, 1024)` milliseconds. -/
theorem delayAt_eq (n : Nat) : delayAt n = min (8 * 2 ^ n) 1024 * 1000000 := by
  by_cases hn : n ≤ 7
  · rw [delayAt_small n hn]
    have hpow : (2 : Int) ^ n ≤ 2 ^ 7 := pow_le_pow_right₀ (by norm_num) hn
    have hmin : min (8 * (2 : Int) ^ n) 1024 = 8 * 2 ^ n := by
      apply min_eq_left
      norm_num at hpow
      omega
    rw [hmin]
  · obtain ⟨d, rfl⟩ : ∃ d, n = 7 + d := ⟨n - 7, by omega⟩
    rw [delayAt_large d]
    have hpow : (2 : Int) ^ 7 ≤ 2 ^ (7 + d) := pow_le_pow_right₀ (by norm_num) (by omega)
    have hmin : min (8 * (2 : Int) ^ (7 + d)) 1024 = 1024 := by
      apply min_eq_right
      norm_num at hpow
      omega
    rw [hmin]
    decide

theorem sleepsOf_endfn {σ : Type} (env : TxEnv) (i : Nat) (began err : Option DBError)
    (db work : σ) (trace : List TxEvent) :
    sleepsOf (endfn env i began err db work trace).2.2 = sleepsOf trace := by
  unfold endfn
  cases began with
  | some beginErr => cases err <;> rfl
  | none =>
    cases err with
    | some e => rfl
    | none => cases env.commitResult i <;> rfl

theorem sleepsOf_attemptTransaction {σ : Type} (env : TxEnv) (write : Bool)
    (fn : Nat → σ → Option DBError × σ) (i : Nat) (db : σ) (trace : List TxEvent) :
    sleepsOf (attemptTransaction env write fn i db trace).trace = sleepsOf trace := by
  unfold attemptTransaction
  simp only
  split_ifs <;> first | rfl | exact sleepsOf_endfn env i _ _ db _ _

/-- In the loop of `Transaction`, the sleeps are `delayAt 0`, `delayAt 1`, ... in
that order, whatever the iteration budget. -/
theorem sleepsOf_transactionLoop {σ : Type} (env : TxEnv) (write : Bool)
    (fn : Nat → σ → Option DBError × σ) (fuel : Nat) :
    ∀ (i : Nat) (elapsed : Int) (db : σ) (trace : List TxEvent),
      sleepsOf trace = ((List.range i).map delayAt).reverse →
      ∃ k, sleepsOf (transactionLoop env write fn fuel i (delayAt i) elapsed db trace).trace
        = ((List.range k).map delayAt).reverse := by
  induction fuel with
  | zero => intro i elapsed db trace h; exact ⟨i, h⟩
  | succ fuel ih =>
    intro i elapsed db trace h
    rw [transactionLoop_succ]
    have hatt := sleepsOf_attemptTransaction env write fn i db trace
    split
    · exact ⟨i, hatt.trans h⟩
    · split
      · exact ⟨i, hatt.trans h⟩
      · apply ih (i + 1)
        show delayAt i :: sleepsOf (attemptTransaction env write fn i db trace).trace = _
        rw [hatt, h, List.range_succ]
        simp

/-- C12: the backoff delay of `Transaction` starts at 8 ms and doubles on each
retry up to the cap: the delay slept before retry `n + 1` is
`min(8 * 2^n, 1024)` milliseconds, the delays slept by `Transaction` being
exactly these in order; the sequence is non-decreasing and never exceeds
1024 ms. -/
theorem c12_backoff_delay_sequence (n : Nat) :
    delayAt 0 = 8 * 1000000 ∧
    delayAt n = min (8 * 2 ^ n) 1024 * 1000000 ∧
    delayAt n ≤ delayAt (n + 1) ∧
    delayAt n ≤ 1024 * 1000000 ∧
    (delayAt n < 1024 * 1000000 → delayAt (n + 1) = 2 * delayAt n) ∧
    (∀ (σ : Type) (env : TxEnv) (write : Bool) (fn : Nat → σ → Option DBError × σ) (db : σ),
      ∃ k, sleepsOf (Transaction env write fn db).trace
        = ((List.range k).map delayAt).reverse) := by
  have hle : delayAt n ≤ 1024 * 1000000 := by
    rw [delayAt_eq]
    have := min_le_right (8 * (2 : Int) ^ n) 1024
    omega
  have hnext : delayAt (n + 1) = nextDelay (delayAt n) := rfl
  refine ⟨by decide, delayAt_eq n, ?_, hle, ?_, ?_⟩
  · rw [hnext]
    have := le_delayAt n
    unfold nextDelay initialDelay at *
    split <;> omega
  · intro hlt
    rw [hnext]
    unfold nextDelay maxDelay
    split <;> omega
  · intro σ env write fn db
    exact sleepsOf_transactionLoop env write fn (iterationsLeft 0) 0 0 db [] rfl


/-! ### C19, C20: connections that fail, and send times -/

/-- For the transports `disable`, `kpc3plus` and `telnet`, a nil connection comes
with a logged error that names the mailbox and the BBS. -/
theorem ConnectToBBS_nil_logged (env : Env) (bbsname mailbox : String) (w : List Event)
    (hknown : (env.config bbsname).Transport = "disable" ∨
      (env.config bbsname).Transport = "kpc3plus" ∨
      (env.config bbsname).Transport = "telnet")
    (hnil : (ConnectToBBS env bbsname mailbox w).1.isNone = true) :
    ∃ (detail : String) (older : List Event),
      (ConnectToBBS env bbsname mailbox w).2
        = Event.log ("ERROR: can't connect to " ++ mailbox ++ "@" ++ bbsname ++ detail)
            :: older := by
  rcases hknown with h | h | h
  · refine ⟨": connections to " ++ bbsname ++ " are disabled", w, ?_⟩
    simp [ConnectToBBS, h, String.append_assoc]
  · cases hc : env.kpc3plusConnect w (env.config bbsname).AX25 mailbox with
    | ok conn => simp [ConnectToBBS, h, hc] at hnil
    | error err =>
      refine ⟨" via kpc3plus: " ++ err, Event.connect "kpc3plus" bbsname mailbox :: w, ?_⟩
      simp [ConnectToBBS, h, hc, String.append_assoc]
  · cases hc : env.telnetConnect w (env.config bbsname).TCP mailbox
        ((env.config bbsname).Passwords mailbox) with
    | ok conn => simp [ConnectToBBS, h, hc] at hnil
    | error err =>
      refine ⟨" via telnet: " ++ err, Event.connect "telnet" bbsname mailbox :: w, ?_⟩
      simp [ConnectToBBS, h, hc, String.append_assoc]

/-- C19, evaluated at the failing input: a BBS whose configured transport is
`ax25`, none of `disable`, `kpc3plus` and `telnet`.  `ConnectToBBS` returns the
nil connection and has logged nothing. -/
theorem c19_unknown_transport_fails_silently :
    (unknownTransportEnv.config "W1XSC").Transport = "ax25" ∧
    (ConnectToBBS unknownTransportEnv "W1XSC" "PKTMON" []).1.isNone = true ∧
    (ConnectToBBS unknownTransportEnv "W1XSC" "PKTMON" []).2 = [] := by
  refine ⟨by decide, by decide, by decide⟩


/-- C20, refuted as stated: with `DontSendResponses` set, `handleMessage` makes
no `conn.Send` call, yet stamps the response with the time read (10:47:31) and
persists it with that non-zero `SendTime`. -/
theorem c20_unsent_response_is_stamped_counterexample :
    (silentSession (clockTime 10 0 0)).Flags &&& DontSendResponses ≠ 0 ∧
    (handleMessage (replyEnv (clockTime 10 47 30) 1000000000 (quietConn [])) (quietConn [])
        (silentSession (clockTime 10 0 0)) { BBS := "W1XSC", LastRun := clockTime 10 0 0 }
        "first" 1 []).reverse
      = [Event.analyze "W1XSC" "first",
         Event.now,
         Event.kill 1,
         Event.commit "W1XSC" "first",
         Event.saveResponse
           { replyTo (silentSession (clockTime 10 0 0)) "W1XSC" "first" with
             SendTime := clockTime 10 47 31 }] ∧
    clockTime 10 47 31 ≠ 0 := by
  refine ⟨by decide, by decide, by decide⟩

theorem sendResponses_unsent (env : Env) (conn : Conn) (session : Session)
    (retrieval : Retrieval) (hflag : session.Flags &&& DontSendResponses ≠ 0)
    (responses : List Response) :
    ∀ w : List Event, ∃ stamped : List Response,
      (sendResponses env conn session retrieval responses w).1 = some stamped ∧
      (sendResponses env conn session retrieval responses w).2.filter isSend
        = w.filter isSend ∧
      List.Forall₂ (StampedUnsent env w) responses stamped := by
  induction responses with
  | nil => intro w; exact ⟨[], rfl, rfl, List.Forall₂.nil⟩
  | cons response rest ih =>
    intro w
    obtain ⟨stamped, h1, h2, h3⟩ := ih (Event.now :: w)
    have hcons : sendResponses env conn session retrieval (response :: rest) w
        = ((sendResponses env conn session retrieval rest (Event.now :: w)).1.map
            (fun stamped => { response with SendTime := env.clock w } :: stamped),
           (sendResponses env conn session retrieval rest (Event.now :: w)).2) := by
      conv_lhs => unfold sendResponses
      rw [if_neg hflag]
    refine ⟨{ response with SendTime := env.clock w } :: stamped, ?_, ?_, ?_⟩
    · rw [hcons, h1]
      rfl
    · rw [hcons]
      simpa [List.filter_cons, isSend] using h2
    · refine List.Forall₂.cons ⟨w, List.suffix_refl _, rfl⟩ ?_
      exact h3.imp (fun r r2 ⟨wk, hwk, heq⟩ => ⟨wk, (List.suffix_cons _ _).trans hwk, heq⟩)

theorem sendResponses_cons_sent (env : Env) (conn : Conn) (session : Session)
    (retrieval : Retrieval) (hflag : session.Flags &&& DontSendResponses = 0)
    (response : Response) (rest : List Response) (w : List Event)
    (hsend : conn.send w response.Subject response.Body response.To = none) :
    sendResponses env conn session retrieval (response :: rest) w
      = ((sendResponses env conn session retrieval rest
            (Event.now :: Event.send response.Subject response.Body response.To :: w)).1.map
          (fun stamped =>
            { response with
              SendTime := env.clock (Event.send response.Subject response.Body response.To :: w) }
              :: stamped),
         (sendResponses env conn session retrieval rest
            (Event.now :: Event.send response.Subject response.Body response.To :: w)).2) := by
  conv_lhs => unfold sendResponses
  rw [if_pos hflag, hsend]

theorem sendResponses_cons_failed (env : Env) (conn : Conn) (session : Session)
    (retrieval : Retrieval) (hflag : session.Flags &&& DontSendResponses = 0)
    (response : Response) (rest : List Response) (w : List Event) (err : String)
    (hsend : conn.send w response.Subject response.Body response.To = some err) :
    (sendResponses env conn session retrieval (response :: rest) w).1 = none := by
  conv_lhs => unfold sendResponses
  rw [if_pos hflag, hsend]

theorem sendResponses_sent (env : Env) (conn : Conn) (session : Session)
    (retrieval : Retrieval) (hflag : session.Flags &&& DontSendResponses = 0)
    (responses : List Response) :
    ∀ (w : List Event) (stamped : List Response),
      (sendResponses env conn session retrieval responses w).1 = some stamped →
      List.Forall₂
        (StampedAfterSend env conn w (sendResponses env conn session retrieval responses w).2)
        responses stamped := by
  induction responses with
  | nil =>
    intro w stamped h
    simp only [sendResponses, Option.some.injEq] at h
    subst h
    exact List.Forall₂.nil
  | cons response rest ih =>
    intro w stamped h
    have hsuf := sendResponses_suffix env conn session retrieval rest
      (Event.now :: Event.send response.Subject response.Body response.To :: w)
    cases hsend : conn.send w response.Subject response.Body response.To with
    | some err =>
      rw [sendResponses_cons_failed env conn session retrieval hflag response rest w err hsend] at h
      exact Option.noConfusion h
    | none =>
      rw [sendResponses_cons_sent env conn session retrieval hflag response rest w hsend] at h ⊢
      cases hrec : (sendResponses env conn session retrieval rest
          (Event.now :: Event.send response.Subject response.Body response.To :: w)).1 with
      | none =>
        simp only [hrec, Option.map_none'] at h
        exact Option.noConfusion h
      | some stamped2 =>
        simp only [hrec, Option.map_some', Option.some.injEq] at h
        subst h
        refine List.Forall₂.cons ⟨w, List.suffix_refl _, hsend, ?_, rfl⟩ ?_
        · exact (List.suffix_cons _ _).trans hsuf
        · exact (ih _ stamped2 hrec).imp (fun r r2 ⟨wk, hwk, hs, hfin, heq⟩ =>
            ⟨wk, ((List.suffix_cons _ _).trans (List.suffix_cons _ _)).trans hwk, hs, hfin, heq⟩)

theorem mem_saveResponses (responses : List Response) :
    ∀ (w : List Event) (e : Event),
      e ∈ saveResponses responses w → e ∈ w ∨ ∃ r ∈ responses, e = Event.saveResponse r := by
  induction responses with
  | nil => intro w e h; exact Or.inl h
  | cons response rest ih =>
    intro w e h
    rcases ih _ e h with h1 | ⟨r, hr, he⟩
    · rcases List.mem_cons.1 h1 with h2 | h2
      · exact Or.inr ⟨response, List.mem_cons_self _ _, h2⟩
      · exact Or.inl h2
    · exact Or.inr ⟨r, List.mem_cons_of_mem _ hr, he⟩


/-- The responses persisted by `handleMessage` are among those stamped by its
send loop. -/
theorem handleMessage_saved (env : Env) (conn : Conn) (session : Session) (ret : Retrieval)
    (message : String) (msgnum : Nat) (w : List Event) (r : Response)
    (hmem : Event.saveResponse r ∈ handleMessage env conn session ret message msgnum w) :
    Event.saveResponse r ∈ w ∨
    ∃ stamped : List Response,
      (sendResponses env conn session ret
        (env.responses (Event.analyze ret.BBS message :: w) session ret.BBS message)
        (Event.analyze ret.BBS message :: w)).1 = some stamped ∧ r ∈ stamped := by
  have hf := sendResponses_filter isSaveResponse (fun _ _ _ => rfl) rfl (fun _ => rfl)
    env conn session ret
    (env.responses (Event.analyze ret.BBS message :: w) session ret.BBS message)
    (Event.analyze ret.BBS message :: w)
  have hold : ∀ w2 : List Event,
      w2.filter isSaveResponse = (Event.analyze ret.BBS message :: w).filter isSaveResponse →
      Event.saveResponse r ∈ w2 → Event.saveResponse r ∈ w := by
    intro w2 hw2 h
    have h1 : Event.saveResponse r ∈ w2.filter isSaveResponse :=
      List.mem_filter.2 ⟨h, rfl⟩
    rw [hw2] at h1
    have h2 := (List.mem_filter.1 h1).1
    rcases List.mem_cons.1 h2 with h3 | h3
    · exact Event.noConfusion h3
    · exact h3
  unfold handleMessage at hmem
  simp only at hmem
  cases hsend : sendResponses env conn session ret
      (env.responses (Event.analyze ret.BBS message :: w) session ret.BBS message)
      (Event.analyze ret.BBS message :: w) with
  | mk result w2 =>
    rw [hsend] at hmem hf
    cases result with
    | none => exact Or.inl (hold w2 hf hmem)
    | some stamped =>
      simp only at hmem hf
      have hsaved : ∀ base : List Event,
          (Event.saveResponse r ∈ base → Event.saveResponse r ∈ w) →
          Event.saveResponse r ∈ saveResponses stamped base →
          Event.saveResponse r ∈ w ∨ ∃ stamped2 : List Response,
            (some stamped, w2).1 = some stamped2 ∧ r ∈ stamped2 := by
        intro base hbase h
        rcases mem_saveResponses stamped base _ h with h1 | ⟨r2, hr2, he⟩
        · exact Or.inl (hbase h1)
        · simp only [Event.saveResponse.injEq] at he
          subst he
          exact Or.inr ⟨stamped, rfl, hr2⟩
      split at hmem
      · split at hmem
        · left
          rcases List.mem_cons.1 hmem with h | h
          · exact Event.noConfusion h
          · rcases List.mem_cons.1 h with h | h
            · exact Event.noConfusion h
            · exact hold w2 hf h
        · apply hsaved _ _ hmem
          intro h
          rcases List.mem_cons.1 h with h | h
          · exact Event.noConfusion h
          · rcases List.mem_cons.1 h with h | h
            · exact Event.noConfusion h
            · exact hold w2 hf h
      · apply hsaved _ _ hmem
        intro h
        rcases List.mem_cons.1 h with h | h
        · exact Event.noConfusion h
        · exact hold w2 hf h

/-- C20, amended: `handleMessage` stamps a response with the time read once its
send step is passed.  When `DontSendResponses` is set there is no `conn.Send`
call and every response is stamped all the same, with a clock reading; when it is
not set, a response is stamped only after `conn.Send` was called for it and
succeeded.  The responses that `handleMessage` persists are stamped ones. -/
theorem c20_send_time_is_stamped_after_send_step (env : Env) (conn : Conn)
    (session : Session) (ret : Retrieval) (message : String) (msgnum : Nat) (w : List Event) :
    (session.Flags &&& DontSendResponses ≠ 0 →
      ∃ stamped : List Response,
        (sendResponses env conn session ret
          (env.responses (Event.analyze ret.BBS message :: w) session ret.BBS message)
          (Event.analyze ret.BBS message :: w)).1 = some stamped ∧
        (sendResponses env conn session ret
          (env.responses (Event.analyze ret.BBS message :: w) session ret.BBS message)
          (Event.analyze ret.BBS message :: w)).2.filter isSend = w.filter isSend ∧
        List.Forall₂ (StampedUnsent env (Event.analyze ret.BBS message :: w))
          (env.responses (Event.analyze ret.BBS message :: w) session ret.BBS message)
          stamped) ∧
    (session.Flags &&& DontSendResponses = 0 →
      ∀ stamped : List Response,
        (sendResponses env conn session ret
          (env.responses (Event.analyze ret.BBS message :: w) session ret.BBS message)
          (Event.analyze ret.BBS message :: w)).1 = some stamped →
        List.Forall₂
          (StampedAfterSend env conn (Event.analyze ret.BBS message :: w)
            (sendResponses env conn session ret
              (env.responses (Event.analyze ret.BBS message :: w) session ret.BBS message)
              (Event.analyze ret.BBS message :: w)).2)
          (env.responses (Event.analyze ret.BBS message :: w) session ret.BBS message)
          stamped) ∧
    (∀ r : Response,
      Event.saveResponse r ∈ handleMessage env conn session ret message msgnum w →
      Event.saveResponse r ∈ w ∨
      ∃ stamped : List Response,
        (sendResponses env conn session ret
          (env.responses (Event.analyze ret.BBS message :: w) session ret.BBS message)
          (Event.analyze ret.BBS message :: w)).1 = some stamped ∧ r ∈ stamped) := by
  refine ⟨?_, ?_, ?_⟩
  · intro hflag
    obtain ⟨stamped, h1, h2, h3⟩ := sendResponses_unsent env conn session ret hflag
      (env.responses (Event.analyze ret.BBS message :: w) session ret.BBS message)
      (Event.analyze ret.BBS message :: w)
    refine ⟨stamped, h1, ?_, h3⟩
    rw [h2]
    simp [List.filter_cons, isSend]
  · intro hflag stamped h
    exact sendResponses_sent env conn session ret hflag _ _ stamped h
  · intro r hmem
    exact handleMessage_saved env conn session ret message msgnum w r hmem

/-- C20 (amended) at a concrete input: the session with `DontSendResponses` and
the message `first`. -/
theorem c20_send_time_is_stamped_after_send_step_witness :
    ∃ stamped : List Response,
      (sendResponses (replyEnv (clockTime 10 47 30) 1000000000 (quietConn [])) (quietConn [])
        (silentSession (clockTime 10 0 0)) { BBS := "W1XSC", LastRun := clockTime 10 0 0 }
        ((replyEnv (clockTime 10 47 30) 1000000000 (quietConn [])).responses
          [Event.analyze "W1XSC" "first"] (silentSession (clockTime 10 0 0)) "W1XSC" "first")
        [Event.analyze "W1XSC" "first"]).1 = some stamped ∧
      (sendResponses (replyEnv (clockTime 10 47 30) 1000000000 (quietConn [])) (quietConn [])
        (silentSession (clockTime 10 0 0)) { BBS := "W1XSC", LastRun := clockTime 10 0 0 }
        ((replyEnv (clockTime 10 47 30) 1000000000 (quietConn [])).responses
          [Event.analyze "W1XSC" "first"] (silentSession (clockTime 10 0 0)) "W1XSC" "first")
        [Event.analyze "W1XSC" "first"]).2.filter isSend = [] ∧
      List.Forall₂
        (StampedUnsent (replyEnv (clockTime 10 47 30) 1000000000 (quietConn []))
          [Event.analyze "W1XSC" "first"])
        ((replyEnv (clockTime 10 47 30) 1000000000 (quietConn [])).responses
          [Event.analyze "W1XSC" "first"] (silentSession (clockTime 10 0 0)) "W1XSC" "first")
        stamped :=
  (c20_send_time_is_stamped_after_send_step
    (replyEnv (clockTime 10 47 30) 1000000000 (quietConn [])) (quietConn [])
    (silentSession (clockTime 10 0 0)) { BBS := "W1XSC", LastRun := clockTime 10 0 0 }
    "first" 1 []).1 (by decide)


/-! ### C15: lists stored as text -/

theorem splitChars_ne_nil (cs : List Char) : splitChars cs ≠ [] := by
  cases cs with
  | nil => simp [splitChars]
  | cons c cs =>
    unfold splitChars
    split
    · simp
    · split <;> simp

theorem splitChars_cons (c : Char) (cs : List Char) :
    splitChars (c :: cs) =
      if c = ';' then [] :: splitChars cs
      else
        match splitChars cs with
        | [] => [[c]]
        | piece :: pieces => (c :: piece) :: pieces :=
  rfl

theorem splitChars_of_not_mem (a : List Char) (ha : ';' ∉ a) : splitChars a = [a] := by
  induction a with
  | nil => rfl
  | cons c a ih =>
    have hc : c ≠ ';' := fun h => ha (h ▸ List.mem_cons_self _ _)
    have ha2 : ';' ∉ a := fun h => ha (List.mem_cons_of_mem _ h)
    rw [splitChars_cons, if_neg hc, ih ha2]

theorem splitChars_append (a b : List Char) (ha : ';' ∉ a) :
    splitChars (a ++ ';' :: b) = a :: splitChars b := by
  induction a with
  | nil =>
    show splitChars (';' :: b) = _
    rw [splitChars_cons, if_pos rfl]
  | cons c a ih =>
    have hc : c ≠ ';' := fun h => ha (h ▸ List.mem_cons_self _ _)
    have ha2 : ';' ∉ a := fun h => ha (List.mem_cons_of_mem _ h)
    show splitChars (c :: (a ++ ';' :: b)) = _
    rw [splitChars_cons, if_neg hc, ih ha2]

theorem stringsJoin_cons_cons (x y : String) (rest : List String) :
    (stringsJoin (x :: y :: rest)).data = x.data ++ ';' :: (stringsJoin (y :: rest)).data := by
  show (x ++ ";" ++ stringsJoin (y :: rest)).data = _
  rw [String.data_append, String.data_append]
  simp

/-- Splitting the join of a non-empty list whose elements hold no semicolon gives
the list back. -/
theorem stringsSplit_stringsJoin (l : List String) (hne : l ≠ [])
    (hsemi : ∀ x ∈ l, ';' ∉ x.data) : stringsSplit (stringsJoin l) = l := by
  have hdata : splitChars (stringsJoin l).data = l.map String.data := by
    induction l with
    | nil => exact absurd rfl hne
    | cons x rest ih =>
      cases rest with
      | nil =>
        show splitChars x.data = [x.data]
        exact splitChars_of_not_mem _ (hsemi x (List.mem_cons_self _ _))
      | cons y rest =>
        rw [stringsJoin_cons_cons, splitChars_append _ _ (hsemi x (List.mem_cons_self _ _)),
          ih (by simp) (fun z hz => hsemi z (List.mem_cons_of_mem _ hz))]
        rfl
  unfold stringsSplit
  rw [hdata, List.map_map]
  conv_rhs => rw [← List.map_id l]
  apply List.map_congr_left
  intro x _
  rfl

theorem stringsJoin_eq_empty (l : List String) (h : stringsJoin l = "") :
    l = [] ∨ l = [""] := by
  cases l with
  | nil => exact Or.inl rfl
  | cons x rest =>
    cases rest with
    | nil =>
      right
      have hx : x = "" := h
      rw [hx]
    | cons y rest =>
      exfalso
      have hd := congrArg String.data h
      rw [stringsJoin_cons_cons] at hd
      have hlen := congrArg List.length hd
      simp at hlen

/-- Reading back a stored list: `split` undoes the `;`-join of a list whose
elements hold no `;`, the list holding only the empty string apart. -/
theorem Store_split_stringsJoin (l : List String) (hsemi : ∀ x ∈ l, ';' ∉ x.data)
    (hone : l ≠ [""]) : Store.split (stringsJoin l) = l := by
  unfold Store.split
  by_cases hempty : stringsJoin l = ""
  · rw [if_pos hempty]
    rcases stringsJoin_eq_empty l hempty with h | h
    · exact h.symm
    · exact absurd h hone
  · rw [if_neg hempty]
    apply stringsSplit_stringsJoin l _ hsemi
    intro h
    apply hempty
    rw [h]
    rfl

/-- C15, refuted as stated: the list holding only the empty string has no element
containing a semicolon, is stored as the empty string, and reads back as the
empty list. -/
theorem c15_singleton_empty_string_counterexample :
    (∀ x ∈ [""], ';' ∉ x.data) ∧
    stringsJoin [""] = "" ∧
    Store.split (stringsJoin [""]) = [] ∧
    Store.split (stringsJoin [""]) ≠ [""] := by
  refine ⟨by decide, by decide, by decide, by decide⟩

/-- C15, amended: for every list of strings in which no element contains `;`,
other than the list holding only the empty string, `split` of the `;`-join of the
list is the list; the empty list is stored as the empty string, which reads back
as the empty list. -/
theorem c15_split_join_round_trip (l : List String) (hsemi : ∀ x ∈ l, ';' ∉ x.data)
    (hone : l ≠ [""]) :
    Store.split (stringsJoin l) = l ∧
    stringsJoin [] = "" ∧ Store.split "" = [] := by
  exact ⟨Store_split_stringsJoin l hsemi hone, rfl, by decide⟩

/-- C15 (amended) at a concrete input: a list of two addresses. -/
theorem c15_split_join_round_trip_witness :
    Store.split (stringsJoin ["ops@example.org", "net@example.org"])
      = ["ops@example.org", "net@example.org"] :=
  (c15_split_join_round_trip ["ops@example.org", "net@example.org"]
    (by decide) (by decide)).1


/-! ## Sessions in the store (C13, C14) -/

theorem retrievalRows_session (senv : StoreEnv) (id : Int) (l : List Retrieval) :
    ∀ r ∈ retrievalRows senv id l, r.session = id := by
  intro r hr
  unfold retrievalRows at hr
  rcases List.mem_map.mp hr with ⟨x, _, rfl⟩
  rfl

theorem filter_retrievalRows_same (senv : StoreEnv) (id : Int) (l : List Retrieval) :
    (retrievalRows senv id l).filter (fun r => decide (r.session = id))
      = retrievalRows senv id l := by
  apply List.filter_eq_self.mpr
  intro r hr
  simp [retrievalRows_session senv id l r hr]

theorem filter_retrievalRows_other (senv : StoreEnv) (id other : Int) (l : List Retrieval)
    (h : other ≠ id) :
    (retrievalRows senv id l).filter (fun r => decide (r.session = other)) = [] := by
  apply List.filter_eq_nil_iff.mpr
  intro r hr
  simp [retrievalRows_session senv id l r hr, Ne.symm h]

theorem loadRetrievals_retrievalRows (senv : StoreEnv) (id : Int) (l : List Retrieval)
    (h : ∀ r ∈ l, ColumnTime (BindTime senv r.LastRun lastRunFormat) = some r.LastRun) :
    loadRetrievals (retrievalRows senv id l) = some l := by
  induction l with
  | nil => rfl
  | cons r rest ih =>
    have hr := h r (List.mem_cons_self _ _)
    have hrest := ih (fun x hx => h x (List.mem_cons_of_mem _ hx))
    unfold retrievalRows at hrest ⊢
    simp only [List.map_cons, loadRetrievals, hr, hrest]

theorem UpdateSession_retrievals (senv : StoreEnv) (session : Session) (db : DB)
    (hid : session.ID ≠ 0) :
    (UpdateSession senv session db).2.retrievals
      = db.retrievals.filter (fun r => decide (r.session ≠ session.ID))
          ++ retrievalRows senv session.ID session.Retrieve := by
  unfold UpdateSession
  rw [if_neg hid]

theorem UpdateSession_sessions (senv : StoreEnv) (session : Session) (db : DB)
    (hid : session.ID ≠ 0) :
    (UpdateSession senv session db).2.sessions
      = db.sessions.map fun row =>
          if row.id = session.ID then sessionRow senv session.ID session else row := by
  unfold UpdateSession
  rw [if_neg hid]

theorem filter_other_map_update (senv : StoreEnv) (session : Session)
    (rows : List SessionRow) :
    (rows.map fun row =>
        if row.id = session.ID then sessionRow senv session.ID session else row).filter
        (fun row => decide (row.id ≠ session.ID))
      = rows.filter (fun row => decide (row.id ≠ session.ID)) := by
  induction rows with
  | nil => rfl
  | cons old rest ih =>
    rw [List.map_cons, List.filter_cons, List.filter_cons, ih]
    by_cases h : old.id = session.ID
    · rw [if_pos h]
      have h1 : decide ((sessionRow senv session.ID session).id ≠ session.ID) = false := by
        simp [sessionRow]
      have h2 : decide (old.id ≠ session.ID) = false := by simp [h]
      rw [h1, h2]
      rfl
    · rw [if_neg h]

/-- C14: for a session with a non-zero ID, `UpdateSession` hands the session back
as it is and rewrites its row in place: the session table keeps its length and
the IDs of its rows in order, each row with the session's ID holds the session's
values and every other row is as before.  The retrieval rows keyed by that ID are
afterwards exactly those of the session's `Retrieve` list, whatever rows were
there before (and they read back as that list when each `LastRun` survives the
text format); the retrieval rows of every other session and the messages are
unchanged. -/
theorem c14_update_replaces_retrieval_children (senv : StoreEnv) (session : Session)
    (db : DB) (hid : session.ID ≠ 0) :
    (UpdateSession senv session db).1 = session ∧
    (UpdateSession senv session db).2.sessions.length = db.sessions.length ∧
    (UpdateSession senv session db).2.sessions.map (fun row => row.id)
      = db.sessions.map (fun row => row.id) ∧
    (∀ row ∈ (UpdateSession senv session db).2.sessions,
      row.id = session.ID → row = sessionRow senv session.ID session) ∧
    (UpdateSession senv session db).2.sessions.filter (fun row => decide (row.id ≠ session.ID))
      = db.sessions.filter (fun row => decide (row.id ≠ session.ID)) ∧
    (UpdateSession senv session db).2.retrievals.filter
        (fun r => decide (r.session = session.ID))
      = session.Retrieve.map (fun r =>
          { session := session.ID, bbs := r.BBS,
            lastrun := BindTime senv r.LastRun lastRunFormat }) ∧
    ((∀ r ∈ session.Retrieve,
        ColumnTime (BindTime senv r.LastRun lastRunFormat) = some r.LastRun) →
      loadRetrievals ((UpdateSession senv session db).2.retrievals.filter
        (fun r => decide (r.session = session.ID))) = some session.Retrieve) ∧
    (∀ other : Int, other ≠ session.ID →
      (UpdateSession senv session db).2.retrievals.filter
          (fun r => decide (r.session = other))
        = db.retrievals.filter (fun r => decide (r.session = other))) ∧
    (UpdateSession senv session db).2.messages = db.messages := by
  have hkeyed : (UpdateSession senv session db).2.retrievals.filter
        (fun r => decide (r.session = session.ID))
      = retrievalRows senv session.ID session.Retrieve := by
    rw [UpdateSession_retrievals senv session db hid, List.filter_append,
      filter_retrievalRows_same, List.filter_filter]
    have : List.filter (fun a => decide (a.session = session.ID) && decide (a.session ≠ session.ID))
        db.retrievals = [] := by
      apply List.filter_eq_nil_iff.mpr
      intro r _
      simp
    rw [this, List.nil_append]
  refine ⟨?_, ?_, ?_, ?_, ?_, hkeyed, ?_, ?_, ?_⟩
  · unfold UpdateSession
    rw [if_neg hid]
  · rw [UpdateSession_sessions senv session db hid, List.length_map]
  · rw [UpdateSession_sessions senv session db hid, List.map_map]
    apply List.map_congr_left
    intro row _
    show (if row.id = session.ID then sessionRow senv session.ID session else row).id = row.id
    split
    · next h => exact h.symm
    · rfl
  · rw [UpdateSession_sessions senv session db hid]
    intro row hrow hrowid
    rcases List.mem_map.mp hrow with ⟨old, _, rfl⟩
    by_cases h : old.id = session.ID
    · rw [if_pos h]
    · rw [if_neg h] at hrowid
      exact absurd hrowid h
  · rw [UpdateSession_sessions senv session db hid]
    exact filter_other_map_update senv session db.sessions
  · intro hlast
    rw [hkeyed]
    exact loadRetrievals_retrievalRows senv session.ID session.Retrieve hlast
  · intro other hother
    rw [UpdateSession_retrievals senv session db hid, List.filter_append,
      filter_retrievalRows_other senv session.ID other session.Retrieve hother,
      List.append_nil, List.filter_filter]
    apply List.filter_congr
    intro r _
    by_cases h : r.session = other
    · simp [h, hother]
    · simp [h]
  · unfold UpdateSession
    rw [if_neg hid]


/-- C14 at a concrete input: the session with ID 1 is saved with a later `LastRun`
and without its `Running` flag; its one retrieval row is replaced by the new
one. -/
theorem c14_update_replaces_retrieval_children_witness :
    (UpdateSession pacific (practiceSession 1 noon noon 0 []) (noonStore [])).2.retrievals.filter
        (fun r => decide (r.session = 1))
      = [{ session := 1, bbs := "W1XSC", lastrun := "2022-01-03 12:00:00-08:00" }] ∧
    (noonStore []).retrievals
      = [{ session := 1, bbs := "W1XSC", lastrun := "2021-12-27 12:00:00-08:00" }] :=
  ⟨(c14_update_replaces_retrieval_children pacific (practiceSession 1 noon noon 0 [])
      (noonStore []) (by decide)).2.2.2.2.2.1, by decide⟩

/-! ## Closing and opening sessions (`sessions.go`; C16, C17, C18) -/

theorem UpdateSession_fst (senv : StoreEnv) (session : Session) (db : DB)
    (hid : session.ID ≠ 0) : (UpdateSession senv session db).1 = session := by
  unfold UpdateSession
  rw [if_neg hid]

theorem UpdateSession_messages (senv : StoreEnv) (session : Session) (db : DB) :
    (UpdateSession senv session db).2.messages = db.messages := by
  unfold UpdateSession
  split <;> rfl

theorem UpdateSession_rows_other (senv : StoreEnv) (session : Session) (db : DB)
    (hid : session.ID ≠ 0) (id : Int) (hother : session.ID ≠ id) :
    (UpdateSession senv session db).2.sessions.filter (fun row => decide (row.id = id))
      = db.sessions.filter (fun row => decide (row.id = id)) := by
  rw [UpdateSession_sessions senv session db hid]
  induction db.sessions with
  | nil => rfl
  | cons old rest ih =>
    rw [List.map_cons, List.filter_cons, List.filter_cons, ih]
    by_cases h : old.id = session.ID
    · rw [if_pos h]
      have h1 : decide ((sessionRow senv session.ID session).id = id) = false := by
        simp [sessionRow, hother]
      have h2 : decide (old.id = id) = false := by simp [h, hother]
      rw [h1, h2]
      rfl
    · rw [if_neg h]

theorem UpdateSession_rows_same (senv : StoreEnv) (session : Session) (db : DB)
    (hid : session.ID ≠ 0) :
    ∀ row ∈ (UpdateSession senv session db).2.sessions,
      row.id = session.ID → row = sessionRow senv session.ID session := by
  rw [UpdateSession_sessions senv session db hid]
  intro row hrow hrowid
  rcases List.mem_map.mp hrow with ⟨old, _, rfl⟩
  by_cases h : old.id = session.ID
  · rw [if_pos h]
  · rw [if_neg h] at hrowid
    exact absurd hrowid h

theorem saveAll_messages (senv : StoreEnv) (l : List Session) :
    ∀ db : DB, (saveAll senv l db).messages = db.messages := by
  induction l with
  | nil => intro db; rfl
  | cons s rest ih =>
    intro db
    show (saveAll senv rest (UpdateSession senv s db).2).messages = db.messages
    rw [ih, UpdateSession_messages]

theorem saveAll_rows_other (senv : StoreEnv) (id : Int) (l : List Session) :
    ∀ db : DB, (∀ t ∈ l, t.ID ≠ 0) → (∀ t ∈ l, t.ID ≠ id) →
      (saveAll senv l db).sessions.filter (fun row => decide (row.id = id))
        = db.sessions.filter (fun row => decide (row.id = id)) := by
  induction l with
  | nil => intro db _ _; rfl
  | cons s rest ih =>
    intro db hid hother
    show (saveAll senv rest (UpdateSession senv s db).2).sessions.filter _ = _
    rw [ih _ (fun t ht => hid t (List.mem_cons_of_mem _ ht))
        (fun t ht => hother t (List.mem_cons_of_mem _ ht)),
      UpdateSession_rows_other senv s db (hid s (List.mem_cons_self _ _)) id
        (hother s (List.mem_cons_self _ _))]

theorem saveAll_rows_same (senv : StoreEnv) (l : List Session) :
    ∀ db : DB, (∀ t ∈ l, t.ID ≠ 0) → (l.map fun t => t.ID).Nodup →
      ∀ s ∈ l, ∀ row ∈ (saveAll senv l db).sessions,
        row.id = s.ID → row = sessionRow senv s.ID s := by
  induction l with
  | nil => intro db _ _ s hs; exact absurd hs (List.not_mem_nil _)
  | cons t rest ih =>
    intro db hid hnodup s hs row hrow hrowid
    rw [List.map_cons, List.nodup_cons] at hnodup
    have hidrest : ∀ u ∈ rest, u.ID ≠ 0 := fun u hu => hid u (List.mem_cons_of_mem _ hu)
    rcases List.mem_cons.mp hs with hst | hsrest
    · subst hst
      have hother : ∀ u ∈ rest, u.ID ≠ s.ID := by
        intro u hu heq
        apply hnodup.1
        rw [← heq]
        exact List.mem_map.mpr ⟨u, hu, rfl⟩
      have hmem : row ∈ (saveAll senv rest (UpdateSession senv s db).2).sessions.filter
          (fun row => decide (row.id = s.ID)) := by
        apply List.mem_filter.mpr
        exact ⟨hrow, by simp [hrowid]⟩
      rw [saveAll_rows_other senv s.ID rest _ hidrest hother] at hmem
      exact UpdateSession_rows_same senv s db (hid s (List.mem_cons_self _ _)) row
        (List.mem_filter.mp hmem).1 hrowid
    · exact ih _ hidrest hnodup.2 s hsrest row hrow hrowid


theorem bitClear_and (flags mask : Nat) : bitClear flags mask &&& mask = 0 := by
  apply Nat.eq_of_testBit_eq
  intro i
  unfold bitClear
  rw [Nat.testBit_and, Nat.testBit_xor, Nat.testBit_and, Nat.zero_testBit]
  cases flags.testBit i <;> cases mask.testBit i <;> rfl

theorem NeedsReport_congr (db1 db2 : DB) (session : Session)
    (h : db1.messages = db2.messages) : NeedsReport db1 session ↔ NeedsReport db2 session := by
  unfold NeedsReport SessionHasMessages
  rw [h]

theorem NeedsReport_closed (senv : StoreEnv) (db : DB) (session : Session) :
    NeedsReport (UpdateSession senv (closed session) db).2 (closed session)
      ↔ NeedsReport db session := by
  rw [NeedsReport_congr _ db _ (UpdateSession_messages senv (closed session) db)]
  rfl

theorem closeSession_running (env : Env) (senv : StoreEnv) (now : Int) (session : Session)
    (st : DB × List Event) (h : ¬ session.End < now) :
    closeSession env senv now session st = some st := by
  unfold closeSession
  rw [if_neg h]

theorem closeSession_quiet (env : Env) (senv : StoreEnv) (now : Int) (session : Session)
    (st : DB × List Event) (hid : session.ID ≠ 0) (h : session.End < now)
    (hquiet : ¬ NeedsReport st.1 session) :
    closeSession env senv now session st
      = some ((UpdateSession senv (closed session) st.1).2,
          Event.log ("Closed session for " ++ session.Name ++ " ending "
            ++ formatMinute (senv.zone session.End) session.End ++ ".")
          :: Event.updateSession (closed session) :: st.2) := by
  have hquiet2 : ¬ NeedsReport (UpdateSession senv (closed session) st.1).2 (closed session) :=
    fun hn => hquiet ((NeedsReport_closed senv st.1 session).mp hn)
  have hfst : (UpdateSession senv (closed session) st.1).1 = closed session :=
    UpdateSession_fst senv (closed session) st.1 hid
  unfold closeSession
  rw [if_pos h]
  unfold closed at hfst hquiet2 ⊢
  simp only [hfst, if_neg hquiet2]

theorem closeSession_report (env : Env) (senv : StoreEnv) (now : Int) (session : Session)
    (st : DB × List Event) (hid : session.ID ≠ 0) (h : session.End < now)
    (hneeds : NeedsReport st.1 session) (bbsname : String) (others : List String)
    (hbbs : session.ToBBSes = bbsname :: others) :
    closeSession env senv now session st
      = some ((UpdateSession senv (closed session) st.1).2,
          Event.close
          :: Event.sendReport session.ID
              (ConnectToBBS env bbsname session.CallSign
                (Event.log ("Closed session for " ++ session.Name ++ " ending "
                    ++ formatMinute (senv.zone session.End) session.End ++ ".")
                  :: Event.updateSession (closed session) :: st.2)).1.isSome
          :: (ConnectToBBS env bbsname session.CallSign
                (Event.log ("Closed session for " ++ session.Name ++ " ending "
                    ++ formatMinute (senv.zone session.End) session.End ++ ".")
                  :: Event.updateSession (closed session) :: st.2)).2) := by
  have hneeds2 : NeedsReport (UpdateSession senv (closed session) st.1).2 (closed session) :=
    (NeedsReport_closed senv st.1 session).mpr hneeds
  have hfst : (UpdateSession senv (closed session) st.1).1 = closed session :=
    UpdateSession_fst senv (closed session) st.1 hid
  unfold closeSession
  rw [if_pos h]
  unfold closed at hfst hneeds2 ⊢
  simp only [hfst, if_pos hneeds2]
  split
  · next hnil => rw [hbbs] at hnil; exact absurd hnil (List.cons_ne_nil _ _)
  · next b rest hcons =>
    rw [hbbs] at hcons
    rw [(List.cons.inj hcons).1]

theorem closeLoop_cons (env : Env) (senv : StoreEnv) (now : Int) (session : Session)
    (rest : List Session) (st st1 : DB × List Event)
    (h : closeSession env senv now session st = some st1) :
    closeLoop env senv now (session :: rest) st = closeLoop env senv now rest st1 := by
  conv_lhs => unfold closeLoop
  rw [h]

theorem closeLoop_spec (env : Env) (senv : StoreEnv) (now : Int) (db0 : DB)
    (sessions : List Session) :
    ∀ (db : DB) (w : List Event), db.messages = db0.messages →
      (∀ s ∈ sessions, s.ID ≠ 0) →
      (∀ s ∈ sessions, s.End < now → NeedsReport db0 s → s.ToBBSes ≠ []) →
      ∃ w1, closeLoop env senv now sessions (db, w)
          = some (saveAll senv ((sessions.filter fun s => decide (s.End < now)).map closed) db,
              w1) ∧
        w <:+ w1 ∧
        (∀ id, (w1.filter (isSendReport id)).length
            = (w.filter (isSendReport id)).length
              + (sessions.filter fun s =>
                  decide (s.ID = id ∧ s.End < now ∧ NeedsReport db0 s)).length) ∧
        (∀ s ∈ sessions, s.End < now → Event.updateSession (closed s) ∈ w1) := by
  induction sessions with
  | nil =>
    intro db w _ _ _
    refine ⟨w, rfl, List.suffix_refl _, ?_, ?_⟩
    · intro id; simp
    · intro s hs; exact absurd hs (List.not_mem_nil _)
  | cons s rest ih =>
    intro db w hmsgs hid hbbs
    have hidrest : ∀ t ∈ rest, t.ID ≠ 0 := fun t ht => hid t (List.mem_cons_of_mem _ ht)
    have hbbsrest : ∀ t ∈ rest, t.End < now → NeedsReport db0 t → t.ToBBSes ≠ [] :=
      fun t ht => hbbs t (List.mem_cons_of_mem _ ht)
    have hsid : s.ID ≠ 0 := hid s (List.mem_cons_self _ _)
    by_cases hexp : s.End < now
    · have hmsgs1 : (UpdateSession senv (closed s) db).2.messages = db0.messages := by
        rw [UpdateSession_messages, hmsgs]
      have hfilter : ((s :: rest).filter fun s => decide (s.End < now)).map closed
          = closed s :: ((rest.filter fun s => decide (s.End < now)).map closed) := by
        rw [List.filter_cons_of_pos (by simpa using hexp), List.map_cons]
      by_cases hneeds : NeedsReport db0 s
      · obtain ⟨bbsname, others, hto⟩ : ∃ b o, s.ToBBSes = b :: o := by
          have := hbbs s (List.mem_cons_self _ _) hexp hneeds
          cases hto : s.ToBBSes with
          | nil => exact absurd hto this
          | cons b o => exact ⟨b, o, rfl⟩
        have hbody := closeSession_report env senv now s (db, w) hsid hexp
          ((NeedsReport_congr db db0 s hmsgs).mpr hneeds) bbsname others hto
        rw [closeLoop_cons env senv now s rest _ _ hbody]
        obtain ⟨w1, hrun, hsuf, hcount, hupd⟩ := ih _ _ hmsgs1 hidrest hbbsrest
        refine ⟨w1, ?_, ?_, ?_, ?_⟩
        · rw [hrun, hfilter]; rfl
        · refine List.IsSuffix.trans ?_ hsuf
          refine List.IsSuffix.trans ?_ (List.suffix_cons _ _)
          refine List.IsSuffix.trans ?_ (List.suffix_cons _ _)
          refine List.IsSuffix.trans ?_ (ConnectToBBS_suffix env _ _ _)
          exact (List.suffix_cons _ _).trans (List.suffix_cons _ _)
        · intro id
          rw [hcount id]
          have hconn := ConnectToBBS_filter (isSendReport id) (fun _ _ _ => rfl) (fun _ => rfl)
            env bbsname s.CallSign
            (Event.log ("Closed session for " ++ s.Name ++ " ending "
                ++ formatMinute (senv.zone s.End) s.End ++ ".")
              :: Event.updateSession (closed s) :: w)
          by_cases hsame : s.ID = id
          · rw [List.filter_cons_of_neg (by simp [isSendReport]),
              List.filter_cons_of_pos (by simp [isSendReport, hsame]), hconn,
              List.filter_cons_of_neg (by simp [isSendReport]),
              List.filter_cons_of_neg (by simp [isSendReport]),
              List.filter_cons_of_pos (by simp [hsame, hexp, hneeds])]
            simp only [List.length_cons]
            omega
          · rw [List.filter_cons_of_neg (by simp [isSendReport]),
              List.filter_cons_of_neg (by simp [isSendReport, hsame]), hconn,
              List.filter_cons_of_neg (by simp [isSendReport]),
              List.filter_cons_of_neg (by simp [isSendReport]),
              List.filter_cons_of_neg (by simp [hsame])]
        · intro t ht hte
          rcases List.mem_cons.mp ht with rfl | htrest
          · apply hsuf.subset
            apply List.mem_cons_of_mem
            apply List.mem_cons_of_mem
            apply (ConnectToBBS_suffix env _ _ _).subset
            exact List.mem_cons_of_mem _ (List.mem_cons_self _ _)
          · exact hupd t htrest hte
      · have hbody := closeSession_quiet env senv now s (db, w) hsid hexp
          (fun hn => hneeds ((NeedsReport_congr db db0 s hmsgs).mp hn))
        rw [closeLoop_cons env senv now s rest _ _ hbody]
        obtain ⟨w1, hrun, hsuf, hcount, hupd⟩ := ih _ _ hmsgs1 hidrest hbbsrest
        refine ⟨w1, ?_, ?_, ?_, ?_⟩
        · rw [hrun, hfilter]; rfl
        · exact ((List.suffix_cons _ _).trans (List.suffix_cons _ _)).trans hsuf
        · intro id
          rw [hcount id,
            List.filter_cons_of_neg (by simp [isSendReport]),
            List.filter_cons_of_neg (by simp [isSendReport]),
            List.filter_cons_of_neg (by simp [hneeds])]
        · intro t ht hte
          rcases List.mem_cons.mp ht with rfl | htrest
          · apply hsuf.subset
            exact List.mem_cons_of_mem _ (List.mem_cons_self _ _)
          · exact hupd t htrest hte
    · have hbody := closeSession_running env senv now s (db, w) hexp
      rw [closeLoop_cons env senv now s rest _ _ hbody]
      obtain ⟨w1, hrun, hsuf, hcount, hupd⟩ := ih _ _ hmsgs hidrest hbbsrest
      refine ⟨w1, ?_, hsuf, ?_, ?_⟩
      · rw [hrun, List.filter_cons_of_neg (by simpa using hexp)]
      · intro id
        rw [hcount id, List.filter_cons_of_neg (by simp [hexp])]
      · intro t ht hte
        rcases List.mem_cons.mp ht with rfl | htrest
        · exact absurd hte hexp
        · exact hupd t htrest hte


theorem loadSession_ID (senv : StoreEnv) (db : DB) (row : SessionRow) (s : Session)
    (h : loadSession senv db row = some s) : s.ID = row.id := by
  unfold loadSession at h
  split at h
  · split at h
    · exact absurd h (by simp)
    · rw [← Option.some.inj h]
  · exact absurd h (by simp)

theorem loadSessions_cons (senv : StoreEnv) (db : DB) (row : SessionRow)
    (rest : List SessionRow) (sessions : List Session)
    (h : loadSessions senv db (row :: rest) = some sessions) :
    ∃ s more, loadSession senv db row = some s ∧ loadSessions senv db rest = some more
      ∧ sessions = s :: more := by
  unfold loadSessions at h
  split at h
  · next s more hs hmore => exact ⟨s, more, hs, hmore, (Option.some.inj h).symm⟩
  · exact absurd h (by simp)

theorem loadSessions_ids (senv : StoreEnv) (db : DB) (rows : List SessionRow) :
    ∀ sessions, loadSessions senv db rows = some sessions →
      sessions.map (fun s => s.ID) = rows.map (fun row => row.id) := by
  induction rows with
  | nil =>
    intro sessions h
    have : sessions = [] := (Option.some.inj h).symm
    rw [this]
    rfl
  | cons row rest ih =>
    intro sessions h
    obtain ⟨s, more, hs, hmore, rfl⟩ := loadSessions_cons senv db row rest sessions h
    rw [List.map_cons, List.map_cons, ih more hmore, loadSession_ID senv db row s hs]

theorem length_filter_ID (P : Session → Prop) [DecidablePred P] (l : List Session)
    (hnodup : (l.map fun t => t.ID).Nodup) (s : Session) (hs : s ∈ l) :
    (l.filter fun t => decide (t.ID = s.ID ∧ P t)).length = if P s then 1 else 0 := by
  induction l with
  | nil => exact absurd hs (List.not_mem_nil _)
  | cons t rest ih =>
    rw [List.map_cons, List.nodup_cons] at hnodup
    rcases List.mem_cons.mp hs with hst | hsrest
    · subst hst
      have hnone : (rest.filter fun t => decide (t.ID = s.ID ∧ P t)) = [] := by
        apply List.filter_eq_nil_iff.mpr
        intro u hu
        have : u.ID ≠ s.ID := by
          intro heq
          apply hnodup.1
          rw [← heq]
          exact List.mem_map.mpr ⟨u, hu, rfl⟩
        simp [this]
      by_cases hp : P s
      · rw [List.filter_cons_of_pos (by simp [hp]), hnone, if_pos hp]
        rfl
      · rw [List.filter_cons_of_neg (by simp [hp]), hnone, if_neg hp]
        rfl
    · have hne : t.ID ≠ s.ID := by
        intro heq
        apply hnodup.1
        rw [heq]
        exact List.mem_map.mpr ⟨s, hsrest, rfl⟩
      rw [List.filter_cons_of_neg (by simp [hne])]
      exact ih hnodup.2 hsrest

theorem nodup_ids_filter (p : SessionRow → Bool) (rows : List SessionRow)
    (h : (rows.map fun row => row.id).Nodup) :
    ((rows.filter p).map fun row => row.id).Nodup :=
  List.Nodup.sublist (List.Sublist.map _ (List.filter_sublist rows)) h

/-! ## The connections made by `closeSessions` (C17) -/

theorem ConnectToBBS_connects (env : Env) (bbsname mailbox : String) (w : List Event) :
    ∃ added : List Event,
      (ConnectToBBS env bbsname mailbox w).2.filter isConnect = added ++ w.filter isConnect ∧
      added.length ≤ 1 ∧
      ((env.config bbsname).Transport = "kpc3plus" ∨ (env.config bbsname).Transport = "telnet" →
        added.length = 1) ∧
      ∀ e ∈ added, ∃ transport, e = Event.connect transport bbsname mailbox := by
  unfold ConnectToBBS
  by_cases hd : (env.config bbsname).Transport = "disable"
  · refine ⟨[], ?_, by simp, ?_, by simp⟩
    · simp [hd, isConnect]
    · rw [hd]
      intro h
      rcases h with h | h <;> exact absurd h (by decide)
  · by_cases hk : (env.config bbsname).Transport = "kpc3plus"
    · refine ⟨[Event.connect "kpc3plus" bbsname mailbox], ?_, by simp, by simp, ?_⟩
      · simp only [if_neg hd, if_pos hk]
        split <;> simp [isConnect]
      · intro e he
        exact ⟨"kpc3plus", List.mem_singleton.mp he⟩
    · by_cases ht : (env.config bbsname).Transport = "telnet"
      · refine ⟨[Event.connect "telnet" bbsname mailbox], ?_, by simp, by simp, ?_⟩
        · simp only [if_neg hd, if_neg hk, if_pos ht]
          split <;> simp [isConnect]
        · intro e he
          exact ⟨"telnet", List.mem_singleton.mp he⟩
      · refine ⟨[], ?_, by simp, ?_, by simp⟩
        · simp [hd, hk, ht]
        · intro h
          rcases h with h | h
          · exact absurd h hk
          · exact absurd h ht

theorem closeLoop_connects (env : Env) (senv : StoreEnv) (now : Int) (db0 : DB)
    (sessions : List Session) :
    ∀ (db : DB) (w : List Event) (res : DB × List Event), db.messages = db0.messages →
      (∀ s ∈ sessions, s.ID ≠ 0) →
      (∀ s ∈ sessions, s.End < now → NeedsReport db0 s → s.ToBBSes ≠ []) →
      closeLoop env senv now sessions (db, w) = some res →
      ∃ added : List Event,
        res.2.filter isConnect = added ++ w.filter isConnect ∧
        added.length
          ≤ (sessions.filter fun s => decide (s.End < now ∧ NeedsReport db0 s)).length ∧
        ((∀ s ∈ sessions, s.End < now → NeedsReport db0 s →
            ∀ bbsname others, s.ToBBSes = bbsname :: others →
              (env.config bbsname).Transport = "kpc3plus"
                ∨ (env.config bbsname).Transport = "telnet") →
          added.length
            = (sessions.filter fun s => decide (s.End < now ∧ NeedsReport db0 s)).length) ∧
        ∀ e ∈ added, ∃ s ∈ sessions, s.End < now ∧ NeedsReport db0 s ∧
          ∃ transport bbsname others,
            s.ToBBSes = bbsname :: others ∧ e = Event.connect transport bbsname s.CallSign := by
  induction sessions with
  | nil =>
    intro db w res _ _ _ hrun
    have hres : res = (db, w) := by
      unfold closeLoop at hrun
      exact (Option.some.inj hrun).symm
    subst hres
    exact ⟨[], by simp, by simp, by simp, by simp⟩
  | cons s rest ih =>
    intro db w res hmsgs hid hbbs hrun
    have hidrest : ∀ t ∈ rest, t.ID ≠ 0 := fun t ht => hid t (List.mem_cons_of_mem _ ht)
    have hbbsrest : ∀ t ∈ rest, t.End < now → NeedsReport db0 t → t.ToBBSes ≠ [] :=
      fun t ht => hbbs t (List.mem_cons_of_mem _ ht)
    have hsid : s.ID ≠ 0 := hid s (List.mem_cons_self _ _)
    by_cases hexp : s.End < now
    · have hmsgs1 : (UpdateSession senv (closed s) db).2.messages = db0.messages := by
        rw [UpdateSession_messages, hmsgs]
      by_cases hneeds : NeedsReport db0 s
      · obtain ⟨bbsname, others, hto⟩ : ∃ b o, s.ToBBSes = b :: o := by
          have := hbbs s (List.mem_cons_self _ _) hexp hneeds
          cases hto : s.ToBBSes with
          | nil => exact absurd hto this
          | cons b o => exact ⟨b, o, rfl⟩
        have hbody := closeSession_report env senv now s (db, w) hsid hexp
          ((NeedsReport_congr db db0 s hmsgs).mpr hneeds) bbsname others hto
        rw [closeLoop_cons env senv now s rest _ _ hbody] at hrun
        obtain ⟨added, hadd, hle, heq, hmem⟩ := ih _ _ res hmsgs1 hidrest hbbsrest hrun
        obtain ⟨calls, hcalls, hcle, hceq, hcmem⟩ := ConnectToBBS_connects env bbsname s.CallSign
          (Event.log ("Closed session for " ++ s.Name ++ " ending "
              ++ formatMinute (senv.zone s.End) s.End ++ ".")
            :: Event.updateSession (closed s) :: w)
        have hfilter : (s :: rest).filter (fun s => decide (s.End < now ∧ NeedsReport db0 s))
            = s :: rest.filter (fun s => decide (s.End < now ∧ NeedsReport db0 s)) :=
          List.filter_cons_of_pos (by simp [hexp, hneeds])
        refine ⟨added ++ calls, ?_, ?_, ?_, ?_⟩
        · rw [hadd, List.filter_cons_of_neg (by simp [isConnect]),
            List.filter_cons_of_neg (by simp [isConnect]), hcalls,
            List.filter_cons_of_neg (by simp [isConnect]),
            List.filter_cons_of_neg (by simp [isConnect]), List.append_assoc]
        · rw [hfilter, List.length_append, List.length_cons]
          omega
        · intro hreach
          rw [hfilter, List.length_append, List.length_cons,
            heq (fun t ht => hreach t (List.mem_cons_of_mem _ ht)),
            hceq (hreach s (List.mem_cons_self _ _) hexp hneeds bbsname others hto)]
        · intro e he
          rcases List.mem_append.mp he with he | he
          · obtain ⟨t, ht, hrest⟩ := hmem e he
            exact ⟨t, List.mem_cons_of_mem _ ht, hrest⟩
          · obtain ⟨transport, htr⟩ := hcmem e he
            exact ⟨s, List.mem_cons_self _ _, hexp, hneeds, transport, bbsname, others, hto, htr⟩
      · have hbody := closeSession_quiet env senv now s (db, w) hsid hexp
          (fun hn => hneeds ((NeedsReport_congr db db0 s hmsgs).mp hn))
        rw [closeLoop_cons env senv now s rest _ _ hbody] at hrun
        obtain ⟨added, hadd, hle, heq, hmem⟩ := ih _ _ res hmsgs1 hidrest hbbsrest hrun
        have hfilter : (s :: rest).filter (fun s => decide (s.End < now ∧ NeedsReport db0 s))
            = rest.filter (fun s => decide (s.End < now ∧ NeedsReport db0 s)) :=
          List.filter_cons_of_neg (by simp [hneeds])
        refine ⟨added, ?_, ?_, ?_, ?_⟩
        · rw [hadd, List.filter_cons_of_neg (by simp [isConnect]),
            List.filter_cons_of_neg (by simp [isConnect])]
        · rw [hfilter]; exact hle
        · intro hreach
          rw [hfilter]
          exact heq (fun t ht => hreach t (List.mem_cons_of_mem _ ht))
        · intro e he
          obtain ⟨t, ht, hrest⟩ := hmem e he
          exact ⟨t, List.mem_cons_of_mem _ ht, hrest⟩
    · have hbody := closeSession_running env senv now s (db, w) hexp
      rw [closeLoop_cons env senv now s rest _ _ hbody] at hrun
      obtain ⟨added, hadd, hle, heq, hmem⟩ := ih _ _ res hmsgs hidrest hbbsrest hrun
      have hfilter : (s :: rest).filter (fun s => decide (s.End < now ∧ NeedsReport db0 s))
          = rest.filter (fun s => decide (s.End < now ∧ NeedsReport db0 s)) :=
        List.filter_cons_of_neg (by simp [hexp])
      refine ⟨added, hadd, ?_, ?_, ?_⟩
      · rw [hfilter]; exact hle
      · intro hreach
        rw [hfilter]
        exact heq (fun t ht => hreach t (List.mem_cons_of_mem _ ht))
      · intro e he
        obtain ⟨t, ht, hrest⟩ := hmem e he
        exact ⟨t, List.mem_cons_of_mem _ ht, hrest⟩

/-- C17: when the rows of the running sessions can be read, the session rows have
distinct non-zero IDs, and each running session that is past its end and has
report recipients or stored messages names a destination BBS, `closeSessions`
returns, and for every running session: if its end is before now, it is saved
with the `Running` flag cleared (the call is in the history and each row with
its ID holds the cleared session); `report.Send` is called for it once if its end
is before now and it has text recipients, HTML recipients or a stored message,
and not at all otherwise.  The call of `report.Send` follows the one call of
`ConnectToBBS`, which is for the first entry of `ToBBSes` and the session's call
sign, and is followed by the call of `conn.Close`; these calls are made whether
or not a connection was obtained.  Rows of other sessions are left as they
were.  The attempts to connect to a mailbox (calls of `kpc3plus.Connect` or
`telnet.Connect`) that the pass adds to the history are at most one for each
running session that is past its end and has recipients or a stored message,
each of them to the first entry of `ToBBSes` of such a session with its call
sign, and exactly one for each when the BBS named is configured for one of the
two transports; so a session that is closed without recipients or stored
messages causes no attempt, and nor does a session that is not closed.  For such
sessions the body of the loop only saves and logs, or does nothing at all. -/
theorem c17_close_clears_flag_and_reports_when_needed (env : Env) (senv : StoreEnv)
    (db : DB) (w : List Event) (sessions : List Session)
    (hload : GetRunningSessions senv db = some sessions)
    (hkey : (db.sessions.map fun row => row.id).Nodup)
    (hid : ∀ row ∈ db.sessions, row.id ≠ 0)
    (hbbs : ∀ s ∈ sessions, s.End < env.clock w → NeedsReport db s → s.ToBBSes ≠ []) :
    ∃ db1 w1, closeSessions env senv db w = some (db1, w1) ∧
      (∀ s ∈ sessions, s.End < env.clock w →
        (closed s).Flags &&& Running = 0 ∧
        Event.updateSession (closed s) ∈ w1 ∧
        ∀ row ∈ db1.sessions, row.id = s.ID → row = sessionRow senv s.ID (closed s)) ∧
      (∀ s ∈ sessions,
        (w1.filter (isSendReport s.ID)).length
          = (w.filter (isSendReport s.ID)).length
            + if s.End < env.clock w ∧ NeedsReport db s then 1 else 0) ∧
      (∀ (s : Session) (st : DB × List Event) (bbsname : String) (others : List String),
        s.ID ≠ 0 → s.End < env.clock w → NeedsReport st.1 s → s.ToBBSes = bbsname :: others →
        ∃ db2 connected text,
          closeSession env senv (env.clock w) s st
            = some (db2, Event.close :: Event.sendReport s.ID connected
                :: (ConnectToBBS env bbsname s.CallSign
                    (Event.log text :: Event.updateSession (closed s) :: st.2)).2)) ∧
      (∀ id : Int, (∀ s ∈ sessions, s.End < env.clock w → s.ID ≠ id) →
        db1.sessions.filter (fun row => decide (row.id = id))
          = db.sessions.filter (fun row => decide (row.id = id))) ∧
      (∃ added : List Event,
        w1.filter isConnect = added ++ w.filter isConnect ∧
        added.length
          ≤ (sessions.filter fun s =>
              decide (s.End < env.clock w ∧ NeedsReport db s)).length ∧
        ((∀ s ∈ sessions, s.End < env.clock w → NeedsReport db s →
            ∀ bbsname others, s.ToBBSes = bbsname :: others →
              (env.config bbsname).Transport = "kpc3plus"
                ∨ (env.config bbsname).Transport = "telnet") →
          added.length
            = (sessions.filter fun s =>
                decide (s.End < env.clock w ∧ NeedsReport db s)).length) ∧
        ∀ e ∈ added, ∃ s ∈ sessions, s.End < env.clock w ∧ NeedsReport db s ∧
          ∃ transport bbsname others,
            s.ToBBSes = bbsname :: others ∧
            e = Event.connect transport bbsname s.CallSign) ∧
      (∀ (s : Session) (st : DB × List Event),
        s.ID ≠ 0 → s.End < env.clock w → ¬ NeedsReport st.1 s →
        ∃ db2 text,
          closeSession env senv (env.clock w) s st
            = some (db2, Event.log text :: Event.updateSession (closed s) :: st.2)) ∧
      (∀ (s : Session) (st : DB × List Event), ¬ s.End < env.clock w →
        closeSession env senv (env.clock w) s st = some st) := by
  have hrows : loadSessions senv db (db.sessions.filter fun row => decide (row.flags % 2 = 1))
      = some sessions := hload
  have hids := loadSessions_ids senv db _ sessions hrows
  have hnodup : (sessions.map fun s => s.ID).Nodup := by
    rw [hids]
    exact nodup_ids_filter _ _ hkey
  have hsid : ∀ s ∈ sessions, s.ID ≠ 0 := by
    intro s hs
    have hmem : s.ID ∈ sessions.map (fun s => s.ID) := List.mem_map.mpr ⟨s, hs, rfl⟩
    rw [hids] at hmem
    rcases List.mem_map.mp hmem with ⟨row, hrow, hrowid⟩
    rw [← hrowid]
    exact hid row (List.mem_filter.mp hrow).1
  obtain ⟨w1, hrun, _, hcount, hupd⟩ :=
    closeLoop_spec env senv (env.clock w) db sessions db
      (Event.getRunningSessions :: Event.now :: w) rfl hsid hbbs
  have hclosedID : ∀ t ∈ (sessions.filter fun s => decide (s.End < env.clock w)).map closed,
      t.ID ≠ 0 := by
    intro t ht
    rcases List.mem_map.mp ht with ⟨s, hs, rfl⟩
    exact hsid s (List.mem_filter.mp hs).1
  have hclosedIDs : (((sessions.filter fun s => decide (s.End < env.clock w)).map closed).map
      fun t => t.ID) = (sessions.filter fun s => decide (s.End < env.clock w)).map
        fun t => t.ID := by
    rw [List.map_map]
    rfl
  refine ⟨saveAll senv ((sessions.filter fun s => decide (s.End < env.clock w)).map closed) db,
    w1, ?_, ?_, ?_, ?_, ?_, ?_, ?_, ?_⟩
  · unfold closeSessions
    rw [hload]
    exact hrun
  · intro s hs hexp
    refine ⟨bitClear_and _ _, hupd s hs hexp, ?_⟩
    intro row hrow hrowid
    have hmem : closed s ∈ (sessions.filter fun s => decide (s.End < env.clock w)).map closed :=
      List.mem_map.mpr ⟨s, List.mem_filter.mpr ⟨hs, by simpa using hexp⟩, rfl⟩
    exact saveAll_rows_same senv _ db hclosedID
      (by rw [hclosedIDs]
          exact List.Nodup.sublist (List.Sublist.map _ (List.filter_sublist sessions)) hnodup)
      (closed s) hmem row hrow hrowid
  · intro s hs
    rw [hcount s.ID, length_filter_ID (fun t => t.End < env.clock w ∧ NeedsReport db t)
      sessions hnodup s hs,
      List.filter_cons_of_neg (by simp [isSendReport]),
      List.filter_cons_of_neg (by simp [isSendReport])]
  · intro s st bbsname others hs0 hexp hneeds hto
    exact ⟨_, _, _, closeSession_report env senv (env.clock w) s st hs0 hexp hneeds bbsname
      others hto⟩
  · intro id hother
    apply saveAll_rows_other senv id _ db hclosedID
    intro t ht
    rcases List.mem_map.mp ht with ⟨s, hs, rfl⟩
    exact hother s (List.mem_filter.mp hs).1 (by simpa using (List.mem_filter.mp hs).2)
  · obtain ⟨added, hadd, hrest⟩ :=
      closeLoop_connects env senv (env.clock w) db sessions db
        (Event.getRunningSessions :: Event.now :: w) _ rfl hsid hbbs hrun
    refine ⟨added, ?_, hrest⟩
    rw [hadd, List.filter_cons_of_neg (by simp [isConnect]),
      List.filter_cons_of_neg (by simp [isConnect])]
  · intro s st hs0 hexp hquiet
    exact ⟨_, _, closeSession_quiet env senv (env.clock w) s st hs0 hexp hquiet⟩
  · intro s st hexp
    exact closeSession_running env senv (env.clock w) s st hexp

/-- C17 at concrete inputs: a running session that ended at noon and has one
text recipient is closed by a pass half a second later, with one attempt to
connect and one call of `report.Send`; the same session without recipients or
stored messages is closed without an attempt to connect. -/
theorem c17_close_clears_flag_and_reports_when_needed_witness :
    (∃ db1 w1,
      closeSessions halfPastEnv pacific (noonStore ["ops@example.org"]) [] = some (db1, w1) ∧
      (w1.filter (isSendReport 1)).length = 1 ∧
      (w1.filter isConnect).length = 1) ∧
    (∃ db1 w1,
      closeSessions halfPastEnv pacific (noonStore []) [] = some (db1, w1) ∧
      flagsOf db1 = [0] ∧
      (w1.filter (isSendReport 1)).length = 0 ∧
      w1.filter isConnect = []) := by
  constructor
  · obtain ⟨db1, w1, hrun, _, hcount, _, _, ⟨added, hadd, _, heq, _⟩, _, _⟩ :=
      c17_close_clears_flag_and_reports_when_needed halfPastEnv pacific
        (noonStore ["ops@example.org"]) []
        [practiceSession 1 (noon - 7 * day) noon Running ["ops@example.org"]]
        (by decide) (by decide) (by decide) (by decide)
    refine ⟨db1, w1, hrun,
      (hcount (practiceSession 1 (noon - 7 * day) noon Running ["ops@example.org"])
        (List.mem_singleton_self _)).trans (by decide), ?_⟩
    rw [hadd, List.length_append, heq (fun _ _ _ _ _ _ _ => Or.inr rfl)]
    decide
  · obtain ⟨db1, w1, hrun, _, hcount, _, _, ⟨added, hadd, hle, _, _⟩, _, _⟩ :=
      c17_close_clears_flag_and_reports_when_needed halfPastEnv pacific
        (noonStore []) [] [practiceSession 1 (noon - 7 * day) noon Running []]
        (by decide) (by decide) (by decide) (by decide)
    have hnone : added = [] := List.length_eq_zero.mp (Nat.le_zero.mp (hle.trans (by decide)))
    have hflags : (closeSessions halfPastEnv pacific (noonStore []) []).map
        (fun r => flagsOf r.1) = some [0] := by decide
    rw [hrun] at hflags
    refine ⟨db1, w1, hrun, ?_,
      (hcount (practiceSession 1 (noon - 7 * day) noon Running [])
        (List.mem_singleton_self _)).trans (by decide), ?_⟩
    · exact Option.some.inj hflags
    · rw [hadd, hnone]; rfl


/-- C18, refuted by the code: a running session ends at noon and has a report
recipient.  `closeSessions`, run half a second after noon, clears its `Running`
flag and sends its report.  `openSessions`, run later within the same second,
binds the current time as text of second resolution, which equals the stored end
of the session, so `end>=?` selects the session and its `Running` flag is set
again, although its end has passed.  The next `closeSessions` closes it and sends
its report a second time. -/
theorem c18_closed_session_is_reopened_within_the_second :
    noon < halfPastEnv.clock [] ∧
    (closeSessions halfPastEnv pacific (noonStore ["ops@example.org"]) []).map
        (fun r => (flagsOf r.1, (r.2.filter (isSendReport 1)).length,
          decide (halfPastEnv.clock [] ≤ halfPastEnv.clock r.2),
          decide (halfPastEnv.clock r.2 < noon + second)))
      = some ([0], 1, true, true) ∧
    ((closeSessions halfPastEnv pacific (noonStore ["ops@example.org"]) []).bind
        fun r => openSessions halfPastEnv pacific r.1 r.2).map
        (fun r => (flagsOf r.1, (r.2.filter (isUpdateOf 1)).length))
      = some ([1], 2) ∧
    (((closeSessions halfPastEnv pacific (noonStore ["ops@example.org"]) []).bind
        fun r => openSessions halfPastEnv pacific r.1 r.2).bind
        fun r => closeSessions halfPastEnv pacific r.1 r.2).map
        (fun r => (flagsOf r.1, (r.2.filter (isSendReport 1)).length))
      = some ([0], 2) := by
  refine ⟨by decide, by decide, by decide, by decide⟩


theorem or_and_self_mask (flags mask : Nat) : (flags ||| mask) &&& mask = mask := by
  apply Nat.eq_of_testBit_eq
  intro i
  rw [Nat.testBit_and, Nat.testBit_or]
  cases flags.testBit i <;> cases mask.testBit i <;> rfl

theorem openSession_skip (senv : StoreEnv) (start : Int) (session : Session)
    (st : DB × List Event) (h : ¬ (session.Flags &&& Running = 0 ∧ session.Start ≤ start)) :
    openSession senv start session st = st := by
  unfold openSession
  rw [if_pos]
  by_cases hflag : session.Flags &&& Running = 0
  · right
    by_contra hstart
    exact h ⟨hflag, not_lt.mp hstart⟩
  · exact Or.inl hflag

theorem openSession_open (senv : StoreEnv) (start : Int) (session : Session)
    (st : DB × List Event) (hid : session.ID ≠ 0)
    (h : session.Flags &&& Running = 0 ∧ session.Start ≤ start) :
    openSession senv start session st
      = ((UpdateSession senv (opened session) st.1).2,
          Event.log ("Opened session for " ++ session.Name ++ " ending "
            ++ formatMinute (senv.zone session.End) session.End ++ ".")
          :: Event.updateSession (opened session) :: st.2) := by
  have hfst : (UpdateSession senv (opened session) st.1).1 = opened session :=
    UpdateSession_fst senv (opened session) st.1 hid
  have hcond : ¬ (session.Flags &&& Running ≠ 0 ∨ start < session.Start) := by
    intro hc
    rcases hc with hc | hc
    · exact hc h.1
    · exact absurd h.2 (not_le.mpr hc)
  unfold openSession
  rw [if_neg hcond]
  unfold opened at hfst ⊢
  simp only [hfst]

theorem openLoop_spec (senv : StoreEnv) (start : Int) (sessions : List Session) :
    ∀ (db : DB) (w : List Event), (∀ s ∈ sessions, s.ID ≠ 0) →
      ∃ w1, openLoop senv start sessions (db, w)
          = (saveAll senv
              ((sessions.filter fun s =>
                decide (s.Flags &&& Running = 0 ∧ s.Start ≤ start)).map opened) db, w1) ∧
        (∀ id, (w1.filter (isUpdateOf id)).length
            = (w.filter (isUpdateOf id)).length
              + (sessions.filter fun s =>
                  decide (s.ID = id ∧ (s.Flags &&& Running = 0 ∧ s.Start ≤ start))).length) ∧
        (∀ e ∈ w, e ∈ w1) ∧
        (∀ s ∈ sessions, s.Flags &&& Running = 0 → s.Start ≤ start →
          Event.updateSession (opened s) ∈ w1) := by
  induction sessions with
  | nil =>
    intro db w _
    refine ⟨w, rfl, ?_, fun e he => he, ?_⟩
    · intro id; simp
    · intro s hs; exact absurd hs (List.not_mem_nil _)
  | cons s rest ih =>
    intro db w hid
    have hidrest : ∀ t ∈ rest, t.ID ≠ 0 := fun t ht => hid t (List.mem_cons_of_mem _ ht)
    have hsid : s.ID ≠ 0 := hid s (List.mem_cons_self _ _)
    by_cases hopen : s.Flags &&& Running = 0 ∧ s.Start ≤ start
    · have hbody := openSession_open senv start s (db, w) hsid hopen
      obtain ⟨w1, hrun, hcount, hkeep, hupd⟩ :=
        ih (UpdateSession senv (opened s) db).2
          (Event.log ("Opened session for " ++ s.Name ++ " ending "
              ++ formatMinute (senv.zone s.End) s.End ++ ".")
            :: Event.updateSession (opened s) :: w) hidrest
      refine ⟨w1, ?_, ?_, ?_, ?_⟩
      · show openLoop senv start rest (openSession senv start s (db, w)) = _
        rw [hbody, hrun, List.filter_cons_of_pos (by simpa using hopen), List.map_cons]
        rfl
      · intro id
        rw [hcount id]
        by_cases hsame : s.ID = id
        · rw [List.filter_cons_of_neg (by simp [isUpdateOf]),
            List.filter_cons_of_pos (by simp [isUpdateOf, opened, hsame]),
            List.filter_cons_of_pos (by simp [hsame, hopen])]
          simp only [List.length_cons]
          omega
        · rw [List.filter_cons_of_neg (by simp [isUpdateOf]),
            List.filter_cons_of_neg (by simp [isUpdateOf, opened, hsame]),
            List.filter_cons_of_neg (by simp [hsame])]
      · intro e he
        exact hkeep e (List.mem_cons_of_mem _ (List.mem_cons_of_mem _ he))
      · intro t ht hflag hstart
        rcases List.mem_cons.mp ht with rfl | htrest
        · exact hkeep _ (List.mem_cons_of_mem _ (List.mem_cons_self _ _))
        · exact hupd t htrest hflag hstart
    · have hbody := openSession_skip senv start s (db, w) hopen
      obtain ⟨w1, hrun, hcount, hkeep, hupd⟩ := ih db w hidrest
      refine ⟨w1, ?_, ?_, hkeep, ?_⟩
      · show openLoop senv start rest (openSession senv start s (db, w)) = _
        rw [hbody, hrun, List.filter_cons_of_neg (by simpa using hopen)]
      · intro id
        rw [hcount id, List.filter_cons_of_neg (by simp [hopen])]
      · intro t ht hflag hstart
        rcases List.mem_cons.mp ht with rfl | htrest
        · exact absurd ⟨hflag, hstart⟩ hopen
        · exact hupd t htrest hflag hstart


/-- The method `AddDate` across a change of offset: a month after 12:00 of
20 October 2022, seven hours behind UTC, in a zone that falls back to eight hours
behind UTC on 6 November, is 12:00 of 20 November at the new offset. -/
theorem AddDate_across_offset_change :
    BindTime fallBack (AddDate fallBack.zone (dateTime 2022 10 20 12 0 0 (-25200)) 0 1 0)
        startEndFormat
      = "2022-11-20 12:00:00-08:00" := by
  decide

/-- The method `AddDate` in a zone of one offset: a month after `noon`, the third
of January, is noon of the third of February. -/
theorem AddDate_same_offset :
    AddDate pacific.zone noon 0 1 0 = dateTime 2022 2 3 12 0 0 (-28800) := by
  decide

/-- C16, refuted by the code: a session that began a week ago, is not running and
ends forty days from now has not ended and has started, so it encompasses the
current time, and the comment on `openSessions` says that such sessions are marked
as running.  Yet `openSessions` leaves it as it is and saves nothing, because it
looks only at the sessions that end within a month from now. -/
theorem c16_session_ending_after_a_month_is_not_opened :
    GetSession pacific
        (storeWith (practiceSession 0 (noon - 7 * day) (noon + 40 * day) 0 [])) 1
      = some (some (practiceSession 1 (noon - 7 * day) (noon + 40 * day) 0 [])) ∧
    halfPastEnv.clock [] ≤ (practiceSession 1 (noon - 7 * day) (noon + 40 * day) 0 []).End ∧
    (practiceSession 1 (noon - 7 * day) (noon + 40 * day) 0 []).Start ≤ halfPastEnv.clock [] ∧
    (practiceSession 1 (noon - 7 * day) (noon + 40 * day) 0 []).Flags &&& Running = 0 ∧
    openSessions halfPastEnv pacific
        (storeWith (practiceSession 0 (noon - 7 * day) (noon + 40 * day) 0 [])) []
      = some (storeWith (practiceSession 0 (noon - 7 * day) (noon + 40 * day) 0 []),
          [Event.now]) := by
  refine ⟨by decide, by decide, by decide, by decide, by decide⟩

/-- What a pass of `openSessions` does: when the session rows have distinct
non-zero IDs and the rows that `GetSessions` selects can be read, the pass
returns.  The sessions it considers are those read from the rows that
`GetSessions` selects for the range from now to `AddDate` of one month.  Each of
these that is not running and whose start is not after now is saved with the
`Running` flag set: the call is in the history and each row with its ID holds the
session as opened.  The rows of every other session are as before, and
`UpdateSession` is called at most once for any ID. -/
theorem openSessions_spec (env : Env) (senv : StoreEnv) (db : DB)
    (w : List Event) (sessions : List Session)
    (hload : GetSessions senv db (env.clock w)
      (AddDate senv.zone (env.clock w) 0 1 0) = some sessions)
    (hkey : (db.sessions.map fun row => row.id).Nodup)
    (hid : ∀ row ∈ db.sessions, row.id ≠ 0) :
    ∃ db1 w1, openSessions env senv db w = some (db1, w1) ∧
      (∃ rows : List SessionRow,
        rows.Perm (db.sessions.filter
          (endsWithin (BindTime senv (env.clock w) startEndFormat)
            (BindTime senv (AddDate senv.zone (env.clock w) 0 1 0)
              startEndFormat))) ∧
        loadSessions senv db rows = some sessions) ∧
      (∀ s ∈ sessions, s.Flags &&& Running = 0 → s.Start ≤ env.clock w →
        (opened s).Flags &&& Running = Running ∧
        Event.updateSession (opened s) ∈ w1 ∧
        ∀ row ∈ db1.sessions, row.id = s.ID → row = sessionRow senv s.ID (opened s)) ∧
      (∀ id : Int,
        (∀ s ∈ sessions, s.Flags &&& Running = 0 → s.Start ≤ env.clock w → s.ID ≠ id) →
        db1.sessions.filter (fun row => decide (row.id = id))
          = db.sessions.filter (fun row => decide (row.id = id))) ∧
      (∀ id : Int,
        (w1.filter (isUpdateOf id)).length ≤ (w.filter (isUpdateOf id)).length + 1) := by
  have hrows : loadSessions senv db
      ((db.sessions.filter
        (endsWithin (BindTime senv (env.clock w) startEndFormat)
          (BindTime senv (AddDate senv.zone (env.clock w) 0 1 0)
            startEndFormat))).insertionSort endCallsignLe) = some sessions := hload
  have hperm := List.perm_insertionSort endCallsignLe
    (db.sessions.filter
      (endsWithin (BindTime senv (env.clock w) startEndFormat)
        (BindTime senv (AddDate senv.zone (env.clock w) 0 1 0)
          startEndFormat)))
  have hids := loadSessions_ids senv db _ sessions hrows
  have hnodup : (sessions.map fun s => s.ID).Nodup := by
    rw [hids]
    exact (List.Perm.nodup_iff (List.Perm.map _ hperm)).mpr (nodup_ids_filter _ _ hkey)
  have hsid : ∀ s ∈ sessions, s.ID ≠ 0 := by
    intro s hs
    have hmem : s.ID ∈ sessions.map (fun s => s.ID) := List.mem_map.mpr ⟨s, hs, rfl⟩
    rw [hids] at hmem
    rcases List.mem_map.mp hmem with ⟨row, hrow, hrowid⟩
    rw [← hrowid]
    exact hid row (List.mem_filter.mp ((List.Perm.mem_iff hperm).mp hrow)).1
  obtain ⟨w1, hrun, hcount, _, hupd⟩ :=
    openLoop_spec senv (env.clock w) sessions db (Event.now :: w) hsid
  have hopenedID : ∀ t ∈ (sessions.filter fun s =>
      decide (s.Flags &&& Running = 0 ∧ s.Start ≤ env.clock w)).map opened, t.ID ≠ 0 := by
    intro t ht
    rcases List.mem_map.mp ht with ⟨s, hs, rfl⟩
    exact hsid s (List.mem_filter.mp hs).1
  have hopenedIDs : (((sessions.filter fun s =>
      decide (s.Flags &&& Running = 0 ∧ s.Start ≤ env.clock w)).map opened).map
      fun t => t.ID) = (sessions.filter fun s =>
        decide (s.Flags &&& Running = 0 ∧ s.Start ≤ env.clock w)).map fun t => t.ID := by
    rw [List.map_map]
    rfl
  refine ⟨saveAll senv ((sessions.filter fun s =>
      decide (s.Flags &&& Running = 0 ∧ s.Start ≤ env.clock w)).map opened) db, w1,
    ?_, ⟨_, hperm, hrows⟩, ?_, ?_, ?_⟩
  · unfold openSessions
    simp only [hload]
    rw [hrun]
  · intro s hs hflag hstart
    refine ⟨or_and_self_mask _ _, hupd s hs hflag hstart, ?_⟩
    intro row hrow hrowid
    have hmem : opened s ∈ (sessions.filter fun s =>
        decide (s.Flags &&& Running = 0 ∧ s.Start ≤ env.clock w)).map opened :=
      List.mem_map.mpr ⟨s, List.mem_filter.mpr ⟨hs, by simp [hflag, hstart]⟩, rfl⟩
    exact saveAll_rows_same senv _ db hopenedID
      (by rw [hopenedIDs]
          exact List.Nodup.sublist (List.Sublist.map _ (List.filter_sublist sessions)) hnodup)
      (opened s) hmem row hrow hrowid
  · intro id hother
    apply saveAll_rows_other senv id _ db hopenedID
    intro t ht
    rcases List.mem_map.mp ht with ⟨s, hs, rfl⟩
    have hcond : s.Flags &&& Running = 0 ∧ s.Start ≤ env.clock w := by
      simpa using (List.mem_filter.mp hs).2
    exact hother s (List.mem_filter.mp hs).1 hcond.1 hcond.2
  · intro id
    rw [hcount id, List.filter_cons_of_neg (by simp [isUpdateOf])]
    apply Nat.add_le_add_left
    by_cases hex : ∃ s ∈ sessions, s.ID = id
    · obtain ⟨s, hs, rfl⟩ := hex
      rw [length_filter_ID (fun t => t.Flags &&& Running = 0 ∧ t.Start ≤ env.clock w)
        sessions hnodup s hs]
      split <;> omega
    · have hnone : (sessions.filter fun s =>
          decide (s.ID = id ∧ (s.Flags &&& Running = 0 ∧ s.Start ≤ env.clock w))) = [] := by
        apply List.filter_eq_nil_iff.mpr
        intro s hs
        have : s.ID ≠ id := fun h => hex ⟨s, hs, h⟩
        simp [this]
      rw [hnone]
      exact Nat.zero_le _

/-- A session that began a week ago and ends in four days is opened by the pass. -/
theorem openSessions_spec_example :
    ∃ db1 w1,
      openSessions halfPastEnv pacific
        (storeWith (practiceSession 0 (noon - 7 * day) (noon + 4 * day) 0 [])) []
        = some (db1, w1) ∧
      Event.updateSession (practiceSession 1 (noon - 7 * day) (noon + 4 * day) Running [])
        ∈ w1 := by
  obtain ⟨db1, w1, hrun, _, hopen, _, _⟩ :=
    openSessions_spec halfPastEnv pacific
      (storeWith (practiceSession 0 (noon - 7 * day) (noon + 4 * day) 0 [])) []
      [practiceSession 1 (noon - 7 * day) (noon + 4 * day) 0 []]
      (by decide) (by decide) (by decide)
  exact ⟨db1, w1, hrun,
    (hopen (practiceSession 1 (noon - 7 * day) (noon + 4 * day) 0 [])
      (List.mem_singleton_self _) (by decide) (by decide)).2.1⟩


/-! ## Creating a session and reading it back (C13) -/

theorem largestID_ge (rest : List SessionRow) :
    ∀ first : SessionRow, first.id ≤ largestID first rest
      ∧ ∀ row ∈ rest, row.id ≤ largestID first rest := by
  induction rest with
  | nil =>
    intro first
    exact ⟨le_refl _, fun row hrow => absurd hrow (List.not_mem_nil _)⟩
  | cons r rest ih =>
    intro first
    have h := ih r
    refine ⟨le_max_left _ _, ?_⟩
    intro row hrow
    show row.id ≤ max first.id (largestID r rest)
    rcases List.mem_cons.mp hrow with rfl | hrest
    · exact le_trans h.1 (le_max_right _ _)
    · exact le_trans (h.2 row hrest) (le_max_right _ _)

theorem nextRowID_fresh (rows : List SessionRow) : ∀ row ∈ rows, row.id < nextRowID rows := by
  cases rows with
  | nil => intro row hrow; exact absurd hrow (List.not_mem_nil _)
  | cons first rest =>
    intro row hrow
    show row.id < largestID first rest + 1
    have h := largestID_ge rest first
    rcases List.mem_cons.mp hrow with rfl | hrest
    · omega
    · have := h.2 row hrest
      omega

theorem nextRowID_pos (rows : List SessionRow) (hpos : ∀ row ∈ rows, 0 < row.id) :
    0 < nextRowID rows := by
  cases rows with
  | nil => decide
  | cons first rest =>
    have h1 := nextRowID_fresh (first :: rest) first (List.mem_cons_self _ _)
    have h2 := hpos first (List.mem_cons_self _ _)
    omega

theorem loadSession_sessionRow (senv : StoreEnv) (db : DB) (id : Int) (session : Session)
    (hret : loadRetrievals (db.retrievals.filter fun r => decide (r.session = id))
      = some session.Retrieve)
    (h1 : Storable session.ReportToText) (h2 : Storable session.ReportToHTML)
    (h3 : Storable session.ToBBSes) (h4 : Storable session.DownBBSes)
    (h5 : Storable session.MessageTypes)
    (hstart : ColumnTime (BindTime senv session.Start startEndFormat) = some session.Start)
    (hend : ColumnTime (BindTime senv session.End startEndFormat) = some session.End)
    (hmodel : session.ModelMessage = "" ∨ senv.parseSaved session.ModelMessage = true)
    (hflags : session.Flags < 256) :
    loadSession senv db (sessionRow senv id session) = some { session with ID := id } := by
  have hcond : ¬ (session.ModelMessage ≠ "" ∧ senv.parseSaved session.ModelMessage = false) := by
    rintro ⟨hne, hfalse⟩
    rcases hmodel with h | h
    · exact hne h
    · rw [h] at hfalse
      exact absurd hfalse (by decide)
  have hfl : (((session.Flags : Nat) : Int) % 256).toNat = session.Flags := by
    omega
  unfold loadSession
  simp only [sessionRow, hstart, hend, hret, if_neg hcond,
    Store_split_stringsJoin _ h1.1 h1.2, Store_split_stringsJoin _ h2.1 h2.2,
    Store_split_stringsJoin _ h3.1 h3.2, Store_split_stringsJoin _ h4.1 h4.2,
    Store_split_stringsJoin _ h5.1 h5.2, hfl]

/-- C13, refuted as stated: a virtual session with a report recipient whose
address holds a semicolon is created with ID 1, and reading session 1 back gives
two recipients where one was written. -/
theorem c13_list_element_with_separator_counterexample :
    (UpdateSession pacific (practiceSession 0 (noon - 7 * day) noon Running ["a;b"])
        emptyDB).1
      = practiceSession 1 (noon - 7 * day) noon Running ["a;b"] ∧
    GetSession pacific
        (UpdateSession pacific (practiceSession 0 (noon - 7 * day) noon Running ["a;b"])
          emptyDB).2 1
      = some (some (practiceSession 1 (noon - 7 * day) noon Running ["a", "b"])) ∧
    practiceSession 1 (noon - 7 * day) noon Running ["a", "b"]
      ≠ practiceSession 1 (noon - 7 * day) noon Running ["a;b"] := by
  refine ⟨by decide, by decide, by decide⟩

/-- C13, amended: `UpdateSession` of a session whose ID is 0, on a table whose IDs
are positive, appends exactly one session row, and gives the session an ID that
is not zero and is the ID of no earlier row.  A following `GetSession` with that
ID returns the session as written, with that ID, provided that no retrieval row
was left behind under that ID, each list-valued field can be stored (no element
holds `;`, and the list is not the one holding only the empty string), the start,
the end and each `LastRun` survive being written as text (whole seconds for start
and end), the model message is empty or parses, and the flags fit in eight
bits. -/
theorem c13_virtual_session_is_created_and_reads_back (senv : StoreEnv)
    (session : Session) (db : DB)
    (hid : session.ID = 0)
    (hpos : ∀ row ∈ db.sessions, 0 < row.id)
    (hstale : ∀ r ∈ db.retrievals, r.session ≠ nextRowID db.sessions)
    (h1 : Storable session.ReportToText) (h2 : Storable session.ReportToHTML)
    (h3 : Storable session.ToBBSes) (h4 : Storable session.DownBBSes)
    (h5 : Storable session.MessageTypes)
    (hstart : ColumnTime (BindTime senv session.Start startEndFormat) = some session.Start)
    (hend : ColumnTime (BindTime senv session.End startEndFormat) = some session.End)
    (hlast : ∀ r ∈ session.Retrieve,
      ColumnTime (BindTime senv r.LastRun lastRunFormat) = some r.LastRun)
    (hmodel : session.ModelMessage = "" ∨ senv.parseSaved session.ModelMessage = true)
    (hflags : session.Flags < 256) :
    (UpdateSession senv session db).2.sessions
      = db.sessions ++ [sessionRow senv (UpdateSession senv session db).1.ID session] ∧
    (UpdateSession senv session db).1
      = { session with ID := (UpdateSession senv session db).1.ID } ∧
    (UpdateSession senv session db).1.ID ≠ 0 ∧
    (∀ row ∈ db.sessions, row.id ≠ (UpdateSession senv session db).1.ID) ∧
    GetSession senv (UpdateSession senv session db).2 (UpdateSession senv session db).1.ID
      = some (some (UpdateSession senv session db).1) := by
  have hupdate : UpdateSession senv session db = CreateSession senv session db := by
    unfold UpdateSession
    rw [if_pos hid]
  rw [hupdate]
  have hfresh := nextRowID_fresh db.sessions
  have hnone : db.sessions.filter (fun row => decide (row.id = nextRowID db.sessions)) = [] := by
    apply List.filter_eq_nil_iff.mpr
    intro row hrow
    have := hfresh row hrow
    simp
    omega
  have hstale2 : db.retrievals.filter (fun r => decide (r.session = nextRowID db.sessions))
      = [] := by
    apply List.filter_eq_nil_iff.mpr
    intro r hr
    simp [hstale r hr]
  refine ⟨rfl, rfl, ?_, ?_, ?_⟩
  · have := nextRowID_pos db.sessions hpos
    show nextRowID db.sessions ≠ 0
    omega
  · intro row hrow
    have := hfresh row hrow
    show row.id ≠ nextRowID db.sessions
    omega
  · show (loadSessions senv (CreateSession senv session db).2
        ((db.sessions ++ [sessionRow senv (nextRowID db.sessions) session]).filter
          fun row => decide (row.id = nextRowID db.sessions))).map List.head?
      = some (some { session with ID := nextRowID db.sessions })
    have hrow : [sessionRow senv (nextRowID db.sessions) session].filter
        (fun row => decide (row.id = nextRowID db.sessions))
        = [sessionRow senv (nextRowID db.sessions) session] := by
      simp [sessionRow]
    rw [List.filter_append, hnone, hrow, List.nil_append]
    have hret : loadRetrievals ((CreateSession senv session db).2.retrievals.filter
        fun r => decide (r.session = nextRowID db.sessions)) = some session.Retrieve := by
      show loadRetrievals ((db.retrievals ++ retrievalRows senv (nextRowID db.sessions)
        session.Retrieve).filter fun r => decide (r.session = nextRowID db.sessions)) = _
      rw [List.filter_append, hstale2, List.nil_append, filter_retrievalRows_same]
      exact loadRetrievals_retrievalRows senv _ _ hlast
    have hload := loadSession_sessionRow senv (CreateSession senv session db).2
      (nextRowID db.sessions) session hret h1 h2 h3 h4 h5 hstart hend hmodel hflags
    unfold loadSessions loadSessions
    rw [hload]
    rfl

/-- C13 (amended) at a concrete input: a virtual session with one recipient is
created in an empty database and reads back as written. -/
theorem c13_virtual_session_is_created_and_reads_back_witness :
    GetSession pacific
        (UpdateSession pacific
          (practiceSession 0 (noon - 7 * day) noon Running ["ops@example.org"]) emptyDB).2
        (UpdateSession pacific
          (practiceSession 0 (noon - 7 * day) noon Running ["ops@example.org"]) emptyDB).1.ID
      = some (some (UpdateSession pacific
          (practiceSession 0 (noon - 7 * day) noon Running ["ops@example.org"]) emptyDB).1) :=
  (c13_virtual_session_is_created_and_reads_back pacific
    (practiceSession 0 (noon - 7 * day) noon Running ["ops@example.org"]) emptyDB
    rfl (by decide) (by decide) (by decide) (by decide) (by decide) (by decide) (by decide)
    (by decide) (by decide) (by decide) (by decide) (by decide)).2.2.2.2

/-! ## What `handleMessage` sends, deletes and persists (C21, C25) -/

theorem saveResponses_eq (responses : List Response) :
    ∀ w : List Event,
      saveResponses responses w = (responses.map Event.saveResponse).reverse ++ w := by
  induction responses with
  | nil => intro w; rfl
  | cons r rest ih =>
    intro w
    show saveResponses rest (Event.saveResponse r :: w) = _
    rw [ih]
    simp

theorem filter_saved (responses : List Response) :
    ((responses.map Event.saveResponse).reverse).filter isMessageWrite
      = (responses.map Event.saveResponse).reverse := by
  apply List.filter_eq_self.mpr
  intro e he
  rcases List.mem_map.mp (List.mem_reverse.mp he) with ⟨r, _, rfl⟩
  rfl

theorem filter_saved_nil (p : Event → Bool) (hp : ∀ r, p (Event.saveResponse r) = false)
    (responses : List Response) :
    ((responses.map Event.saveResponse).reverse).filter p = [] := by
  apply List.filter_eq_nil_iff.mpr
  intro e he
  rcases List.mem_map.mp (List.mem_reverse.mp he) with ⟨r, _, rfl⟩
  simp [hp r]

/-- The send loop keeps the number of responses. -/
theorem sendResponses_length (env : Env) (conn : Conn) (session : Session)
    (retrieval : Retrieval) (responses : List Response) :
    ∀ (w : List Event) (stamped : List Response),
      (sendResponses env conn session retrieval responses w).1 = some stamped →
      stamped.length = responses.length := by
  induction responses with
  | nil =>
    intro w stamped h
    simp only [sendResponses, Option.some.injEq] at h
    subst h
    rfl
  | cons response rest ih =>
    intro w stamped h
    unfold sendResponses at h
    split at h
    · split at h
      · exact Option.noConfusion h
      · cases hrec : (sendResponses env conn session retrieval rest
            (Event.now :: Event.send response.Subject response.Body response.To :: w)).1 with
        | none => simp [hrec] at h
        | some stamped2 =>
          simp only [hrec, Option.map_some', Option.some.injEq] at h
          subst h
          simp [ih _ stamped2 hrec]
    · cases hrec : (sendResponses env conn session retrieval rest (Event.now :: w)).1 with
      | none => simp [hrec] at h
      | some stamped2 =>
        simp only [hrec, Option.map_some', Option.some.injEq] at h
        subst h
        simp [ih _ stamped2 hrec]

/-- When sending is not suppressed and every send succeeds, the send loop calls
`conn.Send` once for each response, in order. -/
theorem sendResponses_sends (env : Env) (conn : Conn) (session : Session)
    (retrieval : Retrieval) (hflag : session.Flags &&& DontSendResponses = 0)
    (responses : List Response) :
    ∀ (w : List Event) (stamped : List Response),
      (sendResponses env conn session retrieval responses w).1 = some stamped →
      (sendResponses env conn session retrieval responses w).2.filter isSend
        = (responses.map sendOf).reverse ++ w.filter isSend := by
  induction responses with
  | nil => intro w stamped _; rfl
  | cons response rest ih =>
    intro w stamped h
    cases hsend : conn.send w response.Subject response.Body response.To with
    | some err =>
      rw [sendResponses_cons_failed env conn session retrieval hflag response rest w err hsend] at h
      exact Option.noConfusion h
    | none =>
      rw [sendResponses_cons_sent env conn session retrieval hflag response rest w hsend] at h ⊢
      cases hrec : (sendResponses env conn session retrieval rest
          (Event.now :: Event.send response.Subject response.Body response.To :: w)).1 with
      | none => simp [hrec] at h
      | some stamped2 =>
        show (sendResponses env conn session retrieval rest
          (Event.now :: Event.send response.Subject response.Body response.To :: w)).2.filter
            isSend = _
        rw [ih _ stamped2 hrec]
        simp [List.filter_cons, isSend, sendOf]

/-- When the send loop stops, a `conn.Send` call that it made had returned an
error. -/
theorem sendResponses_none (env : Env) (conn : Conn) (session : Session)
    (retrieval : Retrieval) (responses : List Response) :
    ∀ w : List Event,
      (sendResponses env conn session retrieval responses w).1 = none →
      session.Flags &&& DontSendResponses = 0 ∧
      ∃ (wk : List Event) (r : Response) (err : String),
        r ∈ responses ∧ w <:+ wk ∧ conn.send wk r.Subject r.Body r.To = some err ∧
        sendOf r :: wk <:+ (sendResponses env conn session retrieval responses w).2 := by
  induction responses with
  | nil => intro w h; exact Option.noConfusion h
  | cons response rest ih =>
    intro w h
    by_cases hflag : session.Flags &&& DontSendResponses = 0
    · refine ⟨hflag, ?_⟩
      cases hsend : conn.send w response.Subject response.Body response.To with
      | some err =>
        refine ⟨w, response, err, List.mem_cons_self _ _, List.suffix_refl _, hsend, ?_⟩
        have h2 : (sendResponses env conn session retrieval (response :: rest) w).2
            = Event.log ("ERROR: sending message from " ++ session.CallSign ++ "@"
                ++ retrieval.BBS ++ ": " ++ err)
              :: Event.send response.Subject response.Body response.To :: w := by
          conv_lhs => unfold sendResponses
          rw [if_pos hflag, hsend]
        rw [h2]
        exact List.suffix_cons _ _
      | none =>
        rw [sendResponses_cons_sent env conn session retrieval hflag response rest w hsend] at h ⊢
        have hrec : (sendResponses env conn session retrieval rest
            (Event.now :: Event.send response.Subject response.Body response.To :: w)).1
            = none := by
          cases hr : (sendResponses env conn session retrieval rest
            (Event.now :: Event.send response.Subject response.Body response.To :: w)).1 with
          | none => rfl
          | some s => simp [hr] at h
        obtain ⟨_, wk, r, err, hr, hwk, herr, hsuf⟩ := ih _ hrec
        exact ⟨wk, r, err, List.mem_cons_of_mem _ hr,
          ((List.suffix_cons _ _).trans (List.suffix_cons _ _)).trans hwk, herr, hsuf⟩
    · obtain ⟨stamped, h1, _, _⟩ := sendResponses_unsent env conn session retrieval hflag
        (response :: rest) w
      rw [h1] at h
      exact Option.noConfusion h

theorem handleMessage_of_send_failed (env : Env) (conn : Conn) (session : Session)
    (ret : Retrieval) (message : String) (msgnum : Nat) (w : List Event)
    (hnone : (sendResponses env conn session ret
      (env.responses (Event.analyze ret.BBS message :: w) session ret.BBS message)
      (Event.analyze ret.BBS message :: w)).1 = none) :
    handleMessage env conn session ret message msgnum w
      = (sendResponses env conn session ret
          (env.responses (Event.analyze ret.BBS message :: w) session ret.BBS message)
          (Event.analyze ret.BBS message :: w)).2 := by
  unfold handleMessage
  simp only
  split
  · next heq => rw [heq]
  · next heq => rw [heq] at hnone; simp at hnone

theorem handleMessage_of_kill_failed (env : Env) (conn : Conn) (session : Session)
    (ret : Retrieval) (message : String) (msgnum : Nat) (w : List Event)
    (stamped : List Response) (w2 : List Event) (err : String)
    (hsend : sendResponses env conn session ret
      (env.responses (Event.analyze ret.BBS message :: w) session ret.BBS message)
      (Event.analyze ret.BBS message :: w) = (some stamped, w2))
    (hflag : session.Flags &&& DontKillMessages = 0) (hkill : conn.kill w2 msgnum = some err) :
    handleMessage env conn session ret message msgnum w
      = Event.log ("ERROR: killing message " ++ toString msgnum ++ " at "
          ++ session.CallSign ++ "@" ++ ret.BBS ++ ": " ++ err)
        :: Event.kill msgnum :: w2 := by
  unfold handleMessage
  simp only [hsend, hflag, hkill, if_true]

theorem handleMessage_of_killed (env : Env) (conn : Conn) (session : Session)
    (ret : Retrieval) (message : String) (msgnum : Nat) (w : List Event)
    (stamped : List Response) (w2 : List Event)
    (hsend : sendResponses env conn session ret
      (env.responses (Event.analyze ret.BBS message :: w) session ret.BBS message)
      (Event.analyze ret.BBS message :: w) = (some stamped, w2))
    (hflag : session.Flags &&& DontKillMessages = 0) (hkill : conn.kill w2 msgnum = none) :
    handleMessage env conn session ret message msgnum w
      = (stamped.map Event.saveResponse).reverse
          ++ Event.commit ret.BBS message :: Event.kill msgnum :: w2 := by
  unfold handleMessage
  simp only [hsend, hflag, hkill, if_true]
  exact saveResponses_eq _ _

theorem handleMessage_of_kept (env : Env) (conn : Conn) (session : Session)
    (ret : Retrieval) (message : String) (msgnum : Nat) (w : List Event)
    (stamped : List Response) (w2 : List Event)
    (hsend : sendResponses env conn session ret
      (env.responses (Event.analyze ret.BBS message :: w) session ret.BBS message)
      (Event.analyze ret.BBS message :: w) = (some stamped, w2))
    (hflag : session.Flags &&& DontKillMessages ≠ 0) :
    handleMessage env conn session ret message msgnum w
      = (stamped.map Event.saveResponse).reverse ++ Event.commit ret.BBS message :: w2 := by
  unfold handleMessage
  simp only [hsend, if_neg hflag]
  exact saveResponses_eq _ _

/-- The history left by the send loop of `handleMessage` holds no call other
than sends and clock readings beyond the history before the message. -/
theorem sendResponses_filter_analyze (p : Event → Bool)
    (hsend : ∀ a b c, p (Event.send a b c) = false) (hnow : p Event.now = false)
    (hlog : ∀ t, p (Event.log t) = false) (hanalyze : ∀ a b, p (Event.analyze a b) = false)
    (env : Env) (conn : Conn) (session : Session) (ret : Retrieval) (message : String)
    (w : List Event) :
    (sendResponses env conn session ret
      (env.responses (Event.analyze ret.BBS message :: w) session ret.BBS message)
      (Event.analyze ret.BBS message :: w)).2.filter p = w.filter p := by
  rw [sendResponses_filter p hsend hnow hlog, List.filter_cons_of_neg (by simp [hanalyze])]

/-- When the sends and the kill that are not suppressed succeed, `handleMessage`
commits the analysis and saves every stamped response, in order. -/
theorem handleMessage_persisted (env : Env) (conn : Conn) (session : Session)
    (ret : Retrieval) (message : String) (msgnum : Nat) (w : List Event)
    (stamped : List Response) (w2 : List Event)
    (hsend : sendResponses env conn session ret
      (env.responses (Event.analyze ret.BBS message :: w) session ret.BBS message)
      (Event.analyze ret.BBS message :: w) = (some stamped, w2))
    (hkill : session.Flags &&& DontKillMessages ≠ 0 ∨ conn.kill w2 msgnum = none) :
    (handleMessage env conn session ret message msgnum w).filter isMessageWrite
      = (stamped.map Event.saveResponse).reverse
          ++ Event.commit ret.BBS message :: w.filter isMessageWrite := by
  have hf := sendResponses_filter_analyze isMessageWrite (fun _ _ _ => rfl) rfl (fun _ => rfl)
    (fun _ _ => rfl) env conn session ret message w
  rw [hsend] at hf
  by_cases hflag : session.Flags &&& DontKillMessages = 0
  · rcases hkill with h | h
    · exact absurd hflag h
    · rw [handleMessage_of_killed env conn session ret message msgnum w stamped w2 hsend hflag h,
        List.filter_append, filter_saved, List.filter_cons_of_pos (by rfl),
        List.filter_cons_of_neg (by simp [isMessageWrite])]
      exact congrArg _ (congrArg _ hf)
  · rw [handleMessage_of_kept env conn session ret message msgnum w stamped w2 hsend hflag,
      List.filter_append, filter_saved, List.filter_cons_of_pos (by rfl)]
    exact congrArg _ (congrArg _ hf)

/-- When a send or the kill fails, `handleMessage` persists nothing. -/
theorem handleMessage_not_persisted (env : Env) (conn : Conn) (session : Session)
    (ret : Retrieval) (message : String) (msgnum : Nat) (w : List Event)
    (hfail : (sendResponses env conn session ret
        (env.responses (Event.analyze ret.BBS message :: w) session ret.BBS message)
        (Event.analyze ret.BBS message :: w)).1 = none ∨
      ∃ (stamped : List Response) (w2 : List Event) (err : String),
        sendResponses env conn session ret
          (env.responses (Event.analyze ret.BBS message :: w) session ret.BBS message)
          (Event.analyze ret.BBS message :: w) = (some stamped, w2) ∧
        session.Flags &&& DontKillMessages = 0 ∧ conn.kill w2 msgnum = some err) :
    (handleMessage env conn session ret message msgnum w).filter isMessageWrite
      = w.filter isMessageWrite := by
  have hf := sendResponses_filter_analyze isMessageWrite (fun _ _ _ => rfl) rfl (fun _ => rfl)
    (fun _ _ => rfl) env conn session ret message w
  rcases hfail with hnone | ⟨stamped, w2, err, hsend, hflag, hkill⟩
  · rw [handleMessage_of_send_failed env conn session ret message msgnum w hnone]
    exact hf
  · rw [handleMessage_of_kill_failed env conn session ret message msgnum w stamped w2 err hsend
      hflag hkill, List.filter_cons_of_neg (by simp [isMessageWrite]),
      List.filter_cons_of_neg (by simp [isMessageWrite])]
    rw [hsend] at hf
    exact hf

/-- The sends in the history of `handleMessage` are those of its send loop. -/
theorem handleMessage_filter_send (env : Env) (conn : Conn) (session : Session)
    (ret : Retrieval) (message : String) (msgnum : Nat) (w : List Event) :
    (handleMessage env conn session ret message msgnum w).filter isSend
      = (sendResponses env conn session ret
          (env.responses (Event.analyze ret.BBS message :: w) session ret.BBS message)
          (Event.analyze ret.BBS message :: w)).2.filter isSend := by
  cases hsend : sendResponses env conn session ret
      (env.responses (Event.analyze ret.BBS message :: w) session ret.BBS message)
      (Event.analyze ret.BBS message :: w) with
  | mk result w2 =>
    cases result with
    | none =>
      rw [handleMessage_of_send_failed env conn session ret message msgnum w (by rw [hsend]),
        hsend]
    | some stamped =>
      by_cases hflag : session.Flags &&& DontKillMessages = 0
      · cases hkill : conn.kill w2 msgnum with
        | some err =>
          rw [handleMessage_of_kill_failed env conn session ret message msgnum w stamped w2 err
            hsend hflag hkill]
          simp [List.filter_cons, isSend]
        | none =>
          rw [handleMessage_of_killed env conn session ret message msgnum w stamped w2 hsend
            hflag hkill, List.filter_append, filter_saved_nil isSend (fun _ => rfl)]
          simp [List.filter_cons, isSend]
      · rw [handleMessage_of_kept env conn session ret message msgnum w stamped w2 hsend hflag,
          List.filter_append, filter_saved_nil isSend (fun _ => rfl)]
        simp [List.filter_cons, isSend]

/-- C21, refuted as stated: with `DontSendResponses` set and a `conn.Kill` that
fails, no response is sent and neither the analysis nor the response is
persisted; and with both flags clear and a `conn.Send` that fails, `conn.Kill` is
not called. -/
theorem c21_suppressed_send_then_failed_kill_counterexample :
    (silentSession (clockTime 10 0 0)).Flags &&& DontSendResponses ≠ 0 ∧
    (handleMessage (replyEnv (clockTime 10 47 30) 1000000000 killFailsConn) killFailsConn
        (silentSession (clockTime 10 0 0)) { BBS := "W1XSC", LastRun := clockTime 10 0 0 }
        "first" 1 []).reverse
      = [Event.analyze "W1XSC" "first",
         Event.now,
         Event.kill 1,
         Event.log "ERROR: killing message 1 at PKTMON@W1XSC: no such message"] ∧
    (demoSession (clockTime 10 0 0)).Flags &&& DontKillMessages = 0 ∧
    (handleMessage (replyEnv (clockTime 10 47 30) 1000000000 sendFailsConn) sendFailsConn
        (demoSession (clockTime 10 0 0)) { BBS := "W1XSC", LastRun := clockTime 10 0 0 }
        "first" 1 []).reverse
      = [Event.analyze "W1XSC" "first",
         Event.send "re: first" "received" "sender@W1XSC",
         Event.log "ERROR: sending message from PKTMON@W1XSC: link down"] := by
  refine ⟨by decide, by decide, by decide, by decide⟩

/-- C21, amended: when `DontSendResponses` is set `handleMessage` makes no
`conn.Send` call, and when `DontKillMessages` is set it makes no `conn.Kill`
call.  When `DontSendResponses` is clear and every send succeeds, `conn.Send` is
called once for each response, in order; when `DontKillMessages` is clear and no
send failed, `conn.Kill` is called once, with the number of the message.  The
analysis and every response are persisted whenever the calls that are not
suppressed succeed, in particular always when both flags are set. -/
theorem c21_flags_suppress_send_and_kill (env : Env) (conn : Conn) (session : Session)
    (ret : Retrieval) (message : String) (msgnum : Nat) (w : List Event) :
    (session.Flags &&& DontSendResponses ≠ 0 →
      (handleMessage env conn session ret message msgnum w).filter isSend
        = w.filter isSend) ∧
    (session.Flags &&& DontKillMessages ≠ 0 →
      (handleMessage env conn session ret message msgnum w).filter isKill
        = w.filter isKill) ∧
    (session.Flags &&& DontSendResponses = 0 →
      ∀ (stamped : List Response) (w2 : List Event),
        sendResponses env conn session ret
          (env.responses (Event.analyze ret.BBS message :: w) session ret.BBS message)
          (Event.analyze ret.BBS message :: w) = (some stamped, w2) →
        (handleMessage env conn session ret message msgnum w).filter isSend
          = ((env.responses (Event.analyze ret.BBS message :: w) session ret.BBS message).map
              sendOf).reverse ++ w.filter isSend) ∧
    (session.Flags &&& DontKillMessages = 0 →
      ∀ (stamped : List Response) (w2 : List Event),
        sendResponses env conn session ret
          (env.responses (Event.analyze ret.BBS message :: w) session ret.BBS message)
          (Event.analyze ret.BBS message :: w) = (some stamped, w2) →
        (handleMessage env conn session ret message msgnum w).filter isKill
          = Event.kill msgnum :: w.filter isKill) ∧
    (∀ (stamped : List Response) (w2 : List Event),
      sendResponses env conn session ret
        (env.responses (Event.analyze ret.BBS message :: w) session ret.BBS message)
        (Event.analyze ret.BBS message :: w) = (some stamped, w2) →
      (session.Flags &&& DontKillMessages ≠ 0 ∨ conn.kill w2 msgnum = none) →
      stamped.length
        = (env.responses (Event.analyze ret.BBS message :: w) session ret.BBS message).length ∧
      (handleMessage env conn session ret message msgnum w).filter isMessageWrite
        = (stamped.map Event.saveResponse).reverse
            ++ Event.commit ret.BBS message :: w.filter isMessageWrite) ∧
    (session.Flags &&& DontSendResponses ≠ 0 → session.Flags &&& DontKillMessages ≠ 0 →
      ∃ stamped : List Response,
        stamped.length
          = (env.responses (Event.analyze ret.BBS message :: w) session ret.BBS message).length ∧
        (handleMessage env conn session ret message msgnum w).filter isMessageWrite
          = (stamped.map Event.saveResponse).reverse
              ++ Event.commit ret.BBS message :: w.filter isMessageWrite) := by
  have hlen : ∀ (stamped : List Response) (w2 : List Event),
      sendResponses env conn session ret
        (env.responses (Event.analyze ret.BBS message :: w) session ret.BBS message)
        (Event.analyze ret.BBS message :: w) = (some stamped, w2) →
      stamped.length
        = (env.responses (Event.analyze ret.BBS message :: w) session ret.BBS message).length := by
    intro stamped w2 hsend
    exact sendResponses_length env conn session ret _ _ stamped (by rw [hsend])
  have hfk := sendResponses_filter_analyze isKill (fun _ _ _ => rfl) rfl (fun _ => rfl)
    (fun _ _ => rfl) env conn session ret message w
  refine ⟨?_, ?_, ?_, ?_, ?_, ?_⟩
  · intro hflag
    obtain ⟨stamped, _, h2, _⟩ := sendResponses_unsent env conn session ret hflag
      (env.responses (Event.analyze ret.BBS message :: w) session ret.BBS message)
      (Event.analyze ret.BBS message :: w)
    rw [handleMessage_filter_send, h2, List.filter_cons_of_neg (by simp [isSend])]
  · intro hflag
    cases hsend : sendResponses env conn session ret
        (env.responses (Event.analyze ret.BBS message :: w) session ret.BBS message)
        (Event.analyze ret.BBS message :: w) with
    | mk result w2 =>
      rw [hsend] at hfk
      cases result with
      | none =>
        rw [handleMessage_of_send_failed env conn session ret message msgnum w (by rw [hsend]),
          hsend]
        exact hfk
      | some stamped =>
        rw [handleMessage_of_kept env conn session ret message msgnum w stamped w2 hsend hflag,
          List.filter_append, filter_saved_nil isKill (fun _ => rfl), List.nil_append,
          List.filter_cons_of_neg (by simp [isKill])]
        exact hfk
  · intro hflag stamped w2 hsend
    rw [handleMessage_filter_send,
      sendResponses_sends env conn session ret hflag _ _ stamped (by rw [hsend]),
      List.filter_cons_of_neg (by simp [isSend])]
  · intro hflag stamped w2 hsend
    rw [hsend] at hfk
    cases hkill : conn.kill w2 msgnum with
    | some err =>
      rw [handleMessage_of_kill_failed env conn session ret message msgnum w stamped w2 err
        hsend hflag hkill, List.filter_cons_of_neg (by simp [isKill]),
        List.filter_cons_of_pos (by rfl)]
      exact congrArg _ hfk
    | none =>
      rw [handleMessage_of_killed env conn session ret message msgnum w stamped w2 hsend
        hflag hkill, List.filter_append, filter_saved_nil isKill (fun _ => rfl),
        List.nil_append, List.filter_cons_of_neg (by simp [isKill]),
        List.filter_cons_of_pos (by rfl)]
      exact congrArg _ hfk
  · intro stamped w2 hsend hkill
    exact ⟨hlen stamped w2 hsend,
      handleMessage_persisted env conn session ret message msgnum w stamped w2 hsend hkill⟩
  · intro hflagS hflagK
    obtain ⟨stamped, h1, _, _⟩ := sendResponses_unsent env conn session ret hflagS
      (env.responses (Event.analyze ret.BBS message :: w) session ret.BBS message)
      (Event.analyze ret.BBS message :: w)
    have hsend : sendResponses env conn session ret
        (env.responses (Event.analyze ret.BBS message :: w) session ret.BBS message)
        (Event.analyze ret.BBS message :: w)
        = (some stamped, (sendResponses env conn session ret
          (env.responses (Event.analyze ret.BBS message :: w) session ret.BBS message)
          (Event.analyze ret.BBS message :: w)).2) := Prod.ext h1 rfl
    exact ⟨stamped, hlen stamped _ hsend,
      handleMessage_persisted env conn session ret message msgnum w stamped _ hsend
        (Or.inl hflagK)⟩

/-- C21 (amended) at a concrete input: with both flags set, the message `first`
is handled without a send or a kill, and its analysis and one response are
persisted. -/
theorem c21_flags_suppress_send_and_kill_witness :
    (handleMessage (replyEnv (clockTime 10 47 30) 1000000000 killFailsConn) killFailsConn
        (passiveSession (clockTime 10 0 0)) { BBS := "W1XSC", LastRun := clockTime 10 0 0 }
        "first" 1 []).filter isSend = [] ∧
    (handleMessage (replyEnv (clockTime 10 47 30) 1000000000 killFailsConn) killFailsConn
        (passiveSession (clockTime 10 0 0)) { BBS := "W1XSC", LastRun := clockTime 10 0 0 }
        "first" 1 []).filter isKill = [] ∧
    ∃ stamped : List Response,
      stamped.length = 1 ∧
      (handleMessage (replyEnv (clockTime 10 47 30) 1000000000 killFailsConn) killFailsConn
          (passiveSession (clockTime 10 0 0)) { BBS := "W1XSC", LastRun := clockTime 10 0 0 }
          "first" 1 []).filter isMessageWrite
        = (stamped.map Event.saveResponse).reverse ++ [Event.commit "W1XSC" "first"] :=
  ⟨(c21_flags_suppress_send_and_kill
      (replyEnv (clockTime 10 47 30) 1000000000 killFailsConn) killFailsConn
      (passiveSession (clockTime 10 0 0)) { BBS := "W1XSC", LastRun := clockTime 10 0 0 }
      "first" 1 []).1 (by decide),
   (c21_flags_suppress_send_and_kill
      (replyEnv (clockTime 10 47 30) 1000000000 killFailsConn) killFailsConn
      (passiveSession (clockTime 10 0 0)) { BBS := "W1XSC", LastRun := clockTime 10 0 0 }
      "first" 1 []).2.1 (by decide),
   (c21_flags_suppress_send_and_kill
      (replyEnv (clockTime 10 47 30) 1000000000 killFailsConn) killFailsConn
      (passiveSession (clockTime 10 0 0)) { BBS := "W1XSC", LastRun := clockTime 10 0 0 }
      "first" 1 []).2.2.2.2.2 (by decide) (by decide)⟩

/-- C25: `handleMessage` persists a message all or nothing.  When every send that
is not suppressed succeeded and the kill, if not suppressed, succeeded, the
analysis is committed and each response is saved, stamped, in order.  When the
send loop stopped, a `conn.Send` call had returned an error, and nothing is
persisted, the responses already sent included; when the kill failed, nothing is
persisted either. -/
theorem c25_message_is_persisted_all_or_nothing (env : Env) (conn : Conn)
    (session : Session) (ret : Retrieval) (message : String) (msgnum : Nat)
    (w : List Event) :
    (∀ (stamped : List Response) (w2 : List Event),
      sendResponses env conn session ret
        (env.responses (Event.analyze ret.BBS message :: w) session ret.BBS message)
        (Event.analyze ret.BBS message :: w) = (some stamped, w2) →
      (session.Flags &&& DontSendResponses = 0 →
        List.Forall₂ (StampedAfterSend env conn (Event.analyze ret.BBS message :: w) w2)
          (env.responses (Event.analyze ret.BBS message :: w) session ret.BBS message)
          stamped) ∧
      (session.Flags &&& DontKillMessages ≠ 0 ∨ conn.kill w2 msgnum = none →
        stamped.length
          = (env.responses (Event.analyze ret.BBS message :: w) session ret.BBS
              message).length ∧
        (handleMessage env conn session ret message msgnum w).filter isMessageWrite
          = (stamped.map Event.saveResponse).reverse
              ++ Event.commit ret.BBS message :: w.filter isMessageWrite) ∧
      (∀ err : String, session.Flags &&& DontKillMessages = 0 →
        conn.kill w2 msgnum = some err →
        (handleMessage env conn session ret message msgnum w).filter isMessageWrite
          = w.filter isMessageWrite)) ∧
    ((sendResponses env conn session ret
        (env.responses (Event.analyze ret.BBS message :: w) session ret.BBS message)
        (Event.analyze ret.BBS message :: w)).1 = none →
      session.Flags &&& DontSendResponses = 0 ∧
      (∃ (wk : List Event) (r : Response) (err : String),
        r ∈ env.responses (Event.analyze ret.BBS message :: w) session ret.BBS message ∧
        conn.send wk r.Subject r.Body r.To = some err ∧
        sendOf r :: wk <:+ handleMessage env conn session ret message msgnum w) ∧
      (handleMessage env conn session ret message msgnum w).filter isMessageWrite
        = w.filter isMessageWrite) := by
  refine ⟨?_, ?_⟩
  · intro stamped w2 hsend
    refine ⟨?_, ?_, ?_⟩
    · intro hflag
      have h := sendResponses_sent env conn session ret hflag _ _ stamped (by rw [hsend])
      rw [hsend] at h
      exact h
    · intro hkill
      exact ⟨sendResponses_length env conn session ret _ _ stamped (by rw [hsend]),
        handleMessage_persisted env conn session ret message msgnum w stamped w2 hsend hkill⟩
    · intro err hflag hkill
      exact handleMessage_not_persisted env conn session ret message msgnum w
        (Or.inr ⟨stamped, w2, err, hsend, hflag, hkill⟩)
  · intro hnone
    obtain ⟨hflag, wk, r, err, hr, _, herr, hsuf⟩ :=
      sendResponses_none env conn session ret _ _ hnone
    refine ⟨hflag, ⟨wk, r, err, hr, herr, ?_⟩, ?_⟩
    · rw [handleMessage_of_send_failed env conn session ret message msgnum w hnone]
      exact hsuf
    · exact handleMessage_not_persisted env conn session ret message msgnum w (Or.inl hnone)

/-- C25 at a concrete input: the response to the message `first` is sent, the
kill of the message fails, and nothing is persisted. -/
theorem c25_message_is_persisted_all_or_nothing_witness :
    (handleMessage (replyEnv (clockTime 10 47 30) 1000000000 killFailsConn) killFailsConn
        (demoSession (clockTime 10 0 0)) { BBS := "W1XSC", LastRun := clockTime 10 0 0 }
        "first" 1 []).filter isMessageWrite = [] :=
  ((c25_message_is_persisted_all_or_nothing
    (replyEnv (clockTime 10 47 30) 1000000000 killFailsConn) killFailsConn
    (demoSession (clockTime 10 0 0)) { BBS := "W1XSC", LastRun := clockTime 10 0 0 }
    "first" 1 []).1
    [{ replyTo (demoSession (clockTime 10 0 0)) "W1XSC" "first" with
        SendTime := clockTime 10 47 32 }]
    [Event.now, Event.send "re: first" "received" "sender@W1XSC",
      Event.analyze "W1XSC" "first"]
    (by decide)).2.2 "no such message" (by decide) (by decide)

/-! ## `LastRun` only moves forward (C26) -/

theorem retrievalDue_lt (Match : Int → Bool) (now lastRun : Int)
    (h : retrievalDue Match now lastRun = true) : lastRun < now := by
  obtain ⟨m, _, hl, hp, _⟩ := (retrievalDue_iff Match now lastRun).mp h
  have := initialPoint_lt now
  omega

/-- Whatever the mailbox does, `checkBBS` either leaves the retrievals of the
session as they are or records the time read at its start as the `LastRun` of
the retrieval. -/
theorem checkBBS_Retrieve_cases (env : Env) (session : Session) (i : Nat)
    (retrieval : Retrieval) (w : List Event) :
    (checkBBS env session i retrieval w).1.Retrieve = session.Retrieve ∨
    (checkBBS env session i retrieval w).1.Retrieve
      = session.Retrieve.set i { retrieval with LastRun := env.clock w } := by
  unfold checkBBS
  simp only
  split
  · exact Or.inl rfl
  · split
    · exact Or.inl rfl
    · right
      simp only [updatedSession_Retrieve]

theorem forRetrieval_Retrieve_cases (env : Env) (now : Int) (session : Session) (i : Nat)
    (ret : Retrieval) (w : List Event) :
    (forRetrieval env now session i ret w).1.Retrieve = session.Retrieve ∨
    (retrievalDue (env.Match session.RetrieveAt) now ret.LastRun = true ∧
      (forRetrieval env now session i ret w).1.Retrieve
        = session.Retrieve.set i { ret with LastRun := env.clock w }) := by
  unfold forRetrieval
  split
  · next hdue =>
    rcases checkBBS_Retrieve_cases env session i ret w with h | h
    · exact Or.inl h
    · exact Or.inr ⟨hdue, h⟩
  · exact Or.inl rfl

/-- What the loop over the retrievals does to the session, whatever the mailboxes
do, when no clock reading made from the history `w` on is before `now`. -/
theorem retrieveLoop_forward (env : Env) (now : Int) (todo : List Retrieval) :
    ∀ (session : Session) (i : Nat) (w : List Event) (pre : List Retrieval),
      (∀ wk : List Event, w <:+ wk → now ≤ env.clock wk) →
      session.Retrieve = pre ++ todo → pre.length = i →
      (retrieveLoop env now session i todo w).1.RetrieveAt = session.RetrieveAt ∧
      ∃ todo2 : List Retrieval,
        (retrieveLoop env now session i todo w).1.Retrieve = pre ++ todo2 ∧
        List.Forall₂ (MovedForward (env.Match session.RetrieveAt) now) todo todo2 := by
  induction todo with
  | nil =>
    intro session i w pre _ hpre _
    exact ⟨rfl, [], hpre, List.Forall₂.nil⟩
  | cons ret todo ih =>
    intro session i w pre hnow hpre hlen
    unfold retrieveLoop
    have hat := forRetrieval_RetrieveAt env now session i ret w
    have hsuf := forRetrieval_suffix env now session i ret w
    have hnow2 : ∀ wk : List Event, (forRetrieval env now session i ret w).2 <:+ wk →
        now ≤ env.clock wk := fun wk hwk => hnow wk (hsuf.trans hwk)
    rcases forRetrieval_Retrieve_cases env now session i ret w with hret | ⟨hdue, hret⟩
    · have hret2 : (forRetrieval env now session i ret w).1.Retrieve
          = (pre ++ [ret]) ++ todo := by
        rw [hret, hpre]; simp
      obtain ⟨h1, todo2, h2, h3⟩ := ih _ (i + 1) (forRetrieval env now session i ret w).2
        (pre ++ [ret]) hnow2 hret2 (by simp [hlen])
      refine ⟨h1.trans hat, ret :: todo2, ?_, ?_⟩
      · rw [h2]; simp
      · rw [hat] at h3
        exact List.Forall₂.cons (Or.inl rfl) h3
    · rw [hpre, List.set_append_right _ _ (by omega)] at hret
      have hidx : i - pre.length = 0 := by omega
      rw [hidx, List.set_cons_zero] at hret
      have hret2 : (forRetrieval env now session i ret w).1.Retrieve
          = (pre ++ [{ ret with LastRun := env.clock w }]) ++ todo := by
        rw [hret]; simp
      obtain ⟨h1, todo2, h2, h3⟩ := ih _ (i + 1) (forRetrieval env now session i ret w).2
        (pre ++ [{ ret with LastRun := env.clock w }]) hnow2 hret2 (by simp [hlen])
      refine ⟨h1.trans hat, { ret with LastRun := env.clock w } :: todo2, ?_, ?_⟩
      · rw [h2]; simp
      · rw [hat] at h3
        refine List.Forall₂.cons (Or.inr ⟨hdue, rfl, ?_, ?_⟩) h3
        · exact retrievalDue_lt _ _ _ hdue
        · exact hnow w (List.suffix_refl _)

theorem sessionsLoop_forward (env : Env) (now : Int) (sessions : List Session) :
    ∀ w : List Event, (∀ wk : List Event, w <:+ wk → now ≤ env.clock wk) →
      List.Forall₂
        (fun s s2 : Session =>
          List.Forall₂ (MovedForward (env.Match s.RetrieveAt) now) s.Retrieve s2.Retrieve)
        sessions (sessionsLoop env now sessions w).1 := by
  induction sessions with
  | nil => intro w _; exact List.Forall₂.nil
  | cons s rest ih =>
    intro w hnow
    unfold sessionsLoop
    obtain ⟨_, todo2, h2, h3⟩ := retrieveLoop_forward env now s.Retrieve s 0 w [] hnow rfl rfl
    refine List.Forall₂.cons ?_ ?_
    · rw [h2]
      exact h3
    · exact ih _ (fun wk hwk => hnow wk ((retrieveLoop_suffix env now s.Retrieve s 0 w).trans hwk))

theorem MovedForward_le (Match : Int → Bool) (now : Int) (r r2 : Retrieval)
    (h : MovedForward Match now r r2) : r.LastRun ≤ r2.LastRun := by
  rcases h with rfl | ⟨_, _, h1, h2⟩
  · exact le_refl _
  · omega

/-- C26: when the clock does not go backwards, an invocation of `ForSession` or
of `ForRunningSessions` at time now leaves each retrieval as it is or, the
retrieval being due, sets its `LastRun` to a time that is later than the old
`LastRun` and not before now, so no `LastRun` ever decreases; and a poll that
`checkBBS` completes for a due retrieval records the poll's start time, which is
later than the old `LastRun`. -/
theorem c26_last_run_only_moves_forward (env : Env) (hc : ClockMonotone env)
    (session : Session) (w : List Event) :
    List.Forall₂ (MovedForward (env.Match session.RetrieveAt) (env.clock w))
      session.Retrieve (ForSession env session w).1.Retrieve ∧
    (∀ i : Nat, lastRunOf session i ≤ lastRunOf (ForSession env session w).1 i) ∧
    List.Forall₂
      (fun s s2 : Session =>
        List.Forall₂ (MovedForward (env.Match s.RetrieveAt) (env.clock w))
          s.Retrieve s2.Retrieve)
      (env.running (Event.now :: w)) (ForRunningSessions env w).1 ∧
    (∀ (i : Nat) (ret : Retrieval) (w1 w2 : List Event) (conn : Conn),
      retrievalDue (env.Match session.RetrieveAt) (env.clock w) ret.LastRun = true →
      w <:+ w1 →
      ConnectToBBS env ret.BBS session.CallSign (Event.now :: w1) = (some conn, w2) →
      (∀ x ∈ conn.mail, ∃ message : String, x = Except.ok message) →
      (forRetrieval env (env.clock w) session i ret w1).1.Retrieve
        = session.Retrieve.set i { ret with LastRun := env.clock w1 } ∧
      ret.LastRun < env.clock w1) := by
  have hfor : List.Forall₂ (MovedForward (env.Match session.RetrieveAt) (env.clock w))
      session.Retrieve (ForSession env session w).1.Retrieve := by
    unfold ForSession
    obtain ⟨_, todo2, h2, h3⟩ := retrieveLoop_forward env (env.clock w) session.Retrieve
      session 0 (Event.now :: w) []
      (fun wk hwk => hc w wk ((List.suffix_cons _ _).trans hwk)) rfl rfl
    rw [h2]
    exact h3
  refine ⟨hfor, ?_, ?_, ?_⟩
  · intro i
    by_cases hi : i < session.Retrieve.length
    · obtain ⟨a, b, ha, hb, hrel⟩ := forall₂_getElem? hfor i hi
      unfold lastRunOf
      rw [ha, hb]
      exact MovedForward_le _ _ a b hrel
    · have h1 : session.Retrieve[i]? = none := by
        apply List.getElem?_eq_none
        omega
      have h2 : (ForSession env session w).1.Retrieve[i]? = none := by
        apply List.getElem?_eq_none
        rw [← hfor.length_eq]
        omega
      unfold lastRunOf
      rw [h1, h2]
  · unfold ForRunningSessions
    exact sessionsLoop_forward env (env.clock w) _ _
      (fun wk hwk => hc w wk (((List.suffix_cons _ _).trans (List.suffix_cons _ _)).trans hwk))
  · intro i ret w1 w2 conn hdue hw1 hconn hmail
    refine ⟨?_, ?_⟩
    · unfold forRetrieval
      rw [if_pos hdue, checkBBS_of_reads_ok env session i ret w1 w2 conn hconn hmail]
      simp only [updatedSession_Retrieve]
    · have h1 := retrievalDue_lt _ _ _ hdue
      have h2 := hc w w1 hw1
      omega

/-- C26 at a concrete input: a poll at 10:47:30 of a retrieval last run at 10:00
moves its `LastRun` to the time at which the poll started. -/
theorem c26_last_run_only_moves_forward_witness :
    lastRunOf (demoSession (clockTime 10 0 0)) 0
      ≤ lastRunOf (ForSession (tickingEnv (clockTime 10 47 30) 1000000000)
          (demoSession (clockTime 10 0 0)) []).1 0 ∧
    lastRunOf (ForSession (tickingEnv (clockTime 10 47 30) 1000000000)
      (demoSession (clockTime 10 0 0)) []).1 0 = clockTime 10 47 31 :=
  ⟨(c26_last_run_only_moves_forward (tickingEnv (clockTime 10 47 30) 1000000000)
      (tickingEnv_clockMonotone _ _ (by decide)) (demoSession (clockTime 10 0 0)) []).2.1 0,
    by decide⟩

/-! ## The two entry points of the coordinator (C27) -/

theorem SameCalls_cons (e : Event) (h h2 : List Event) (hs : SameCalls h h2) :
    SameCalls (e :: h) (e :: h2) := by
  unfold SameCalls at *
  rw [List.filter_cons, List.filter_cons, hs]

theorem SameCalls_query (h : List Event) : SameCalls (Event.getRunningSessions :: h) h := by
  unfold SameCalls
  rfl

theorem ConnectToBBS_congr (env : Env) (hun : Unaware env) (bbsname mailbox : String)
    (h h2 : List Event) (hs : SameCalls h h2) :
    (ConnectToBBS env bbsname mailbox h).1 = (ConnectToBBS env bbsname mailbox h2).1 ∧
    SameCalls (ConnectToBBS env bbsname mailbox h).2 (ConnectToBBS env bbsname mailbox h2).2 := by
  obtain ⟨_, _, hk, ht, _, _, _⟩ := hun h h2 hs
  unfold ConnectToBBS
  simp only [hk, ht]
  split
  · exact ⟨rfl, SameCalls_cons _ _ _ hs⟩
  · split
    · split
      · exact ⟨rfl, SameCalls_cons _ _ _ hs⟩
      · exact ⟨rfl, SameCalls_cons _ _ _ (SameCalls_cons _ _ _ hs)⟩
    · split
      · split
        · exact ⟨rfl, SameCalls_cons _ _ _ hs⟩
        · exact ⟨rfl, SameCalls_cons _ _ _ (SameCalls_cons _ _ _ hs)⟩
      · exact ⟨rfl, hs⟩

theorem ConnectToBBS_unaware (env : Env) (hun : Unaware env) (bbsname mailbox : String)
    (h : List Event) (conn : Conn)
    (hconn : (ConnectToBBS env bbsname mailbox h).1 = some conn) : ConnUnaware conn := by
  obtain ⟨_, _, _, _, _, hkc, htc⟩ := hun h h rfl
  unfold ConnectToBBS at hconn
  simp only at hconn
  split at hconn
  · exact Option.noConfusion hconn
  · split at hconn
    · split at hconn
      · next c heq =>
        simp only [Option.some.injEq] at hconn
        subst hconn
        exact hkc _ _ _ heq
      · exact Option.noConfusion hconn
    · split at hconn
      · split at hconn
        · next c heq =>
          simp only [Option.some.injEq] at hconn
          subst hconn
          exact htc _ _ _ _ heq
        · exact Option.noConfusion hconn
      · exact Option.noConfusion hconn

theorem sendResponses_congr (env : Env) (hun : Unaware env) (conn : Conn)
    (hconn : ConnUnaware conn) (session : Session) (retrieval : Retrieval)
    (responses : List Response) :
    ∀ h h2 : List Event, SameCalls h h2 →
      (sendResponses env conn session retrieval responses h).1
        = (sendResponses env conn session retrieval responses h2).1 ∧
      SameCalls (sendResponses env conn session retrieval responses h).2
        (sendResponses env conn session retrieval responses h2).2 := by
  induction responses with
  | nil => intro h h2 hs; exact ⟨rfl, hs⟩
  | cons response rest ih =>
    intro h h2 hs
    obtain ⟨hsend, _, _⟩ := hconn h h2 hs
    obtain ⟨hclock, _⟩ := hun h h2 hs
    obtain ⟨hclock2, _⟩ := hun _ _
      (SameCalls_cons (Event.send response.Subject response.Body response.To) h h2 hs)
    unfold sendResponses
    rw [hsend]
    split
    · split
      · exact ⟨rfl, SameCalls_cons _ _ _ (SameCalls_cons _ _ _ hs)⟩
      · have hrec := ih _ _ (SameCalls_cons Event.now _ _
          (SameCalls_cons (Event.send response.Subject response.Body response.To) h h2 hs))
        simp only
        rw [hrec.1, hclock2]
        exact ⟨rfl, hrec.2⟩
    · have hrec := ih _ _ (SameCalls_cons Event.now _ _ hs)
      simp only
      rw [hrec.1, hclock]
      exact ⟨rfl, hrec.2⟩

theorem saveResponses_congr (responses : List Response) (h h2 : List Event)
    (hs : SameCalls h h2) :
    SameCalls (saveResponses responses h) (saveResponses responses h2) := by
  rw [saveResponses_eq, saveResponses_eq]
  unfold SameCalls at *
  rw [List.filter_append, List.filter_append, hs]

theorem handleMessage_congr (env : Env) (hun : Unaware env) (conn : Conn)
    (hconn : ConnUnaware conn) (session : Session) (retrieval : Retrieval)
    (message : String) (msgnum : Nat) (h h2 : List Event) (hs : SameCalls h h2) :
    SameCalls (handleMessage env conn session retrieval message msgnum h)
      (handleMessage env conn session retrieval message msgnum h2) := by
  have hs1 := SameCalls_cons (Event.analyze retrieval.BBS message) h h2 hs
  obtain ⟨_, _, _, _, hresp, _, _⟩ := hun _ _ hs1
  have hsend := sendResponses_congr env hun conn hconn session retrieval
    (env.responses (Event.analyze retrieval.BBS message :: h) session retrieval.BBS message)
    _ _ hs1
  unfold handleMessage
  simp only
  rw [← hresp]
  cases hr : sendResponses env conn session retrieval
      (env.responses (Event.analyze retrieval.BBS message :: h) session retrieval.BBS message)
      (Event.analyze retrieval.BBS message :: h) with
  | mk result w2 =>
    cases hr2 : sendResponses env conn session retrieval
        (env.responses (Event.analyze retrieval.BBS message :: h) session retrieval.BBS message)
        (Event.analyze retrieval.BBS message :: h2) with
    | mk result2 w3 =>
      rw [hr, hr2] at hsend
      obtain ⟨hres, hw⟩ := hsend
      simp only at hres hw
      subst hres
      obtain ⟨_, hkill, _⟩ := hconn w2 w3 hw
      cases result with
      | none => exact hw
      | some stamped =>
        simp only
        rw [hkill]
        split
        · split
          · exact SameCalls_cons _ _ _ (SameCalls_cons _ _ _ hw)
          · exact saveResponses_congr _ _ _ (SameCalls_cons _ _ _ (SameCalls_cons _ _ _ hw))
        · exact saveResponses_congr _ _ _ (SameCalls_cons _ _ _ hw)

theorem readLoop_congr (env : Env) (hun : Unaware env) (conn : Conn)
    (hconn : ConnUnaware conn) (session : Session) (retrieval : Retrieval)
    (mail : List (Except String String)) :
    ∀ (msgnum : Nat) (h h2 : List Event), SameCalls h h2 →
      (readLoop env conn session retrieval mail msgnum h).1
        = (readLoop env conn session retrieval mail msgnum h2).1 ∧
      SameCalls (readLoop env conn session retrieval mail msgnum h).2
        (readLoop env conn session retrieval mail msgnum h2).2 := by
  induction mail with
  | nil => intro msgnum h h2 hs; exact ⟨rfl, SameCalls_cons _ _ _ hs⟩
  | cons x rest ih =>
    intro msgnum h h2 hs
    cases x with
    | error err => exact ⟨rfl, SameCalls_cons _ _ _ (SameCalls_cons _ _ _ hs)⟩
    | ok message =>
      unfold readLoop
      split
      · exact ⟨rfl, SameCalls_cons _ _ _ hs⟩
      · exact ih _ _ _ (handleMessage_congr env hun conn hconn session retrieval message msgnum
          _ _ (SameCalls_cons _ _ _ hs))

theorem closeConn_congr (conn : Conn) (hconn : ConnUnaware conn) (session : Session)
    (retrieval : Retrieval) (h h2 : List Event) (hs : SameCalls h h2) :
    SameCalls (closeConn conn session retrieval h) (closeConn conn session retrieval h2) := by
  obtain ⟨_, _, hclose⟩ := hconn h h2 hs
  unfold closeConn
  rw [hclose]
  split
  · exact SameCalls_cons _ _ _ (SameCalls_cons _ _ _ hs)
  · exact SameCalls_cons _ _ _ hs

theorem updatedSession_congr (env : Env) (hun : Unaware env) (session : Session)
    (h h2 : List Event) (hs : SameCalls h h2) :
    updatedSession env session h = updatedSession env session h2 := by
  obtain ⟨_, hrow, _⟩ := hun h h2 hs
  unfold updatedSession
  rw [hrow]

theorem checkBBS_congr (env : Env) (hun : Unaware env) (session : Session) (i : Nat)
    (retrieval : Retrieval) (h h2 : List Event) (hs : SameCalls h h2) :
    (checkBBS env session i retrieval h).1 = (checkBBS env session i retrieval h2).1 ∧
    SameCalls (checkBBS env session i retrieval h).2 (checkBBS env session i retrieval h2).2 := by
  obtain ⟨hclock, _⟩ := hun h h2 hs
  have hc := ConnectToBBS_congr env hun retrieval.BBS session.CallSign _ _
    (SameCalls_cons Event.now h h2 hs)
  unfold checkBBS
  simp only
  rw [hclock]
  cases hr : ConnectToBBS env retrieval.BBS session.CallSign (Event.now :: h) with
  | mk result w1 =>
    cases hr2 : ConnectToBBS env retrieval.BBS session.CallSign (Event.now :: h2) with
    | mk result2 w2 =>
      rw [hr, hr2] at hc
      obtain ⟨hres, hw⟩ := hc
      simp only at hres hw
      subst hres
      cases result with
      | none => exact ⟨rfl, hw⟩
      | some conn =>
        have hconn : ConnUnaware conn :=
          ConnectToBBS_unaware env hun retrieval.BBS session.CallSign (Event.now :: h) conn
            (by rw [hr])
        have hl := readLoop_congr env hun conn hconn session retrieval conn.mail 1 w1 w2 hw
        simp only
        cases hl1 : readLoop env conn session retrieval conn.mail 1 w1 with
        | mk ok w3 =>
          cases hl2 : readLoop env conn session retrieval conn.mail 1 w2 with
          | mk ok2 w4 =>
            rw [hl1, hl2] at hl
            obtain ⟨hok, hw34⟩ := hl
            simp only at hok hw34
            subst hok
            cases ok with
            | false => exact ⟨rfl, closeConn_congr conn hconn _ _ _ _ hw34⟩
            | true =>
              exact ⟨updatedSession_congr env hun _ _ _ hw34,
                closeConn_congr conn hconn _ _ _ _ (SameCalls_cons _ _ _ hw34)⟩

theorem forRetrieval_congr (env : Env) (hun : Unaware env) (now : Int) (session : Session)
    (i : Nat) (ret : Retrieval) (h h2 : List Event) (hs : SameCalls h h2) :
    (forRetrieval env now session i ret h).1 = (forRetrieval env now session i ret h2).1 ∧
    SameCalls (forRetrieval env now session i ret h).2 (forRetrieval env now session i ret h2).2 := by
  unfold forRetrieval
  split
  · exact checkBBS_congr env hun session i ret h h2 hs
  · exact ⟨rfl, hs⟩

theorem retrieveLoop_congr (env : Env) (hun : Unaware env) (now : Int)
    (todo : List Retrieval) :
    ∀ (session : Session) (i : Nat) (h h2 : List Event), SameCalls h h2 →
      (retrieveLoop env now session i todo h).1 = (retrieveLoop env now session i todo h2).1 ∧
      SameCalls (retrieveLoop env now session i todo h).2
        (retrieveLoop env now session i todo h2).2 := by
  induction todo with
  | nil => intro session i h h2 hs; exact ⟨rfl, hs⟩
  | cons ret todo ih =>
    intro session i h h2 hs
    have hf := forRetrieval_congr env hun now session i ret h h2 hs
    unfold retrieveLoop
    rw [hf.1]
    exact ih _ _ _ _ hf.2

theorem steadyEnv_unaware (base step : Int) (session : Session) :
    Unaware (steadyEnv base step (quietConn []) session) := by
  intro h h2 hs
  refine ⟨?_, rfl, rfl, rfl, rfl, ?_, ?_⟩
  · show base + step * (h.filter notQuery).length = base + step * (h2.filter notQuery).length
    rw [hs]
  · intro a b conn hconn
    exact Except.noConfusion hconn
  · intro a b c conn hconn
    have : conn = quietConn [] := by
      have h3 : (Except.ok (quietConn []) : Except String Conn) = Except.ok conn := hconn
      exact (Except.ok.inj h3).symm
    subst this
    intro _ _ _
    exact ⟨rfl, rfl, rfl⟩

/-- C27: when the session is the only running one and the collaborators do not
notice the query for the running sessions, `ForRunningSessions` and `ForSession`
leave the same session in memory (the same retrievals found due, the same
`LastRun` values recorded) and make the same calls in the same order, the query
apart; both read the time once, at their start, and run the same loop over the
retrievals of the session with that time. -/
theorem c27_entry_points_agree (env : Env) (hun : Unaware env) (session : Session)
    (w : List Event) (hrun : env.running (Event.now :: w) = [session]) :
    (ForRunningSessions env w).1 = [(ForSession env session w).1] ∧
    (ForRunningSessions env w).2.filter notQuery
      = (ForSession env session w).2.filter notQuery ∧
    ForSession env session w
      = retrieveLoop env (env.clock w) session 0 session.Retrieve (Event.now :: w) ∧
    ForRunningSessions env w
      = ([(retrieveLoop env (env.clock w) session 0 session.Retrieve
            (Event.getRunningSessions :: Event.now :: w)).1],
         (retrieveLoop env (env.clock w) session 0 session.Retrieve
            (Event.getRunningSessions :: Event.now :: w)).2) := by
  have hfr : ForRunningSessions env w
      = ([(retrieveLoop env (env.clock w) session 0 session.Retrieve
            (Event.getRunningSessions :: Event.now :: w)).1],
         (retrieveLoop env (env.clock w) session 0 session.Retrieve
            (Event.getRunningSessions :: Event.now :: w)).2) := by
    unfold ForRunningSessions
    rw [hrun]
    rfl
  have hc := retrieveLoop_congr env hun (env.clock w) session.Retrieve session 0
    (Event.getRunningSessions :: Event.now :: w) (Event.now :: w) (SameCalls_query _)
  refine ⟨?_, ?_, rfl, hfr⟩
  · rw [hfr]
    show [_] = [(retrieveLoop env (env.clock w) session 0 session.Retrieve (Event.now :: w)).1]
    rw [hc.1]
  · rw [hfr]
    exact hc.2

/-- C27 at a concrete input: one running session whose retrieval is due. -/
theorem c27_entry_points_agree_witness :
    (ForRunningSessions (steadyEnv (clockTime 10 47 30) 1000000000 (quietConn [])
        (demoSession (clockTime 10 0 0))) []).1
      = [(ForSession (steadyEnv (clockTime 10 47 30) 1000000000 (quietConn [])
          (demoSession (clockTime 10 0 0))) (demoSession (clockTime 10 0 0)) []).1] ∧
    (ForSession (steadyEnv (clockTime 10 47 30) 1000000000 (quietConn [])
        (demoSession (clockTime 10 0 0))) (demoSession (clockTime 10 0 0)) []).1
      = demoSession (clockTime 10 47 31) :=
  ⟨(c27_entry_points_agree
      (steadyEnv (clockTime 10 47 30) 1000000000 (quietConn [])
        (demoSession (clockTime 10 0 0)))
      (steadyEnv_unaware _ _ _) (demoSession (clockTime 10 0 0)) [] rfl).1,
    by decide⟩

/-! ## Messages with the same hash (C24) -/

theorem loadMessage_messageRow (senv : StoreEnv) (m : Message) :
    loadMessage (messageRow senv m)
      = (ColumnTime (BindTime senv m.DeliveryTime deliveryTimeFormat)).map
          fun t => { m with DeliveryTime := t } := by
  unfold loadMessage messageRow
  simp only
  cases ColumnTime (BindTime senv m.DeliveryTime deliveryTimeFormat) <;> rfl

/-- C24: over a message table with primary key `id` and a unique index on `hash`,
after `SaveMessage` of a message and then of a second one with the same hash and
another local ID, the rows with that hash are the row of the second message
alone, there is no row with the local ID of the first, `GetMessage` with that ID
returns nil, and `GetMessageByHash` returns the second message, its delivery time
being the one read back from the stored text (the second message as written when
its delivery time survives the text format). -/
theorem c24_later_message_replaces_same_hash (senv : StoreEnv) (db : DB) (m1 m2 : Message)
    (hhash : m1.Hash = m2.Hash) (hid : m1.LocalID ≠ m2.LocalID) :
    (SaveMessage senv true m2 (SaveMessage senv true m1 db)).messages.filter
        (fun row => decide (row.hash = m2.Hash)) = [messageRow senv m2] ∧
    (SaveMessage senv true m2 (SaveMessage senv true m1 db)).messages.filter
        (fun row => decide (row.id = m1.LocalID)) = [] ∧
    GetMessage (SaveMessage senv true m2 (SaveMessage senv true m1 db)) m1.LocalID
      = some none ∧
    GetMessageByHash (SaveMessage senv true m2 (SaveMessage senv true m1 db)) m2.Hash
      = (ColumnTime (BindTime senv m2.DeliveryTime deliveryTimeFormat)).map
          (fun t => some { m2 with DeliveryTime := t }) ∧
    (ColumnTime (BindTime senv m2.DeliveryTime deliveryTimeFormat) = some m2.DeliveryTime →
      GetMessageByHash (SaveMessage senv true m2 (SaveMessage senv true m1 db)) m2.Hash
        = some (some m2)) := by
  have hrows : (SaveMessage senv true m2 (SaveMessage senv true m1 db)).messages
      = ((db.messages.filter
            (fun row => !(decide (row.id = m1.LocalID) || (true && decide (row.hash = m1.Hash))))
          ++ [messageRow senv m1]).filter
            (fun row => !(decide (row.id = m2.LocalID) || (true && decide (row.hash = m2.Hash)))))
        ++ [messageRow senv m2] := rfl
  have hbyhash : (SaveMessage senv true m2 (SaveMessage senv true m1 db)).messages.filter
      (fun row => decide (row.hash = m2.Hash)) = [messageRow senv m2] := by
    rw [hrows, List.filter_append, List.filter_filter]
    have h1 : List.filter
        (fun a => decide (a.hash = m2.Hash)
          && !(decide (a.id = m2.LocalID) || (true && decide (a.hash = m2.Hash))))
        (db.messages.filter
            (fun row => !(decide (row.id = m1.LocalID) || (true && decide (row.hash = m1.Hash))))
          ++ [messageRow senv m1]) = [] := by
      apply List.filter_eq_nil_iff.mpr
      intro row _
      by_cases h : row.hash = m2.Hash <;> simp [h]
    rw [h1, List.nil_append]
    simp [messageRow]
  have hbyid : (SaveMessage senv true m2 (SaveMessage senv true m1 db)).messages.filter
      (fun row => decide (row.id = m1.LocalID)) = [] := by
    rw [hrows]
    apply List.filter_eq_nil_iff.mpr
    intro row hrow
    rcases List.mem_append.mp hrow with h | h
    · have h2 := (List.mem_filter.mp h).1
      rcases List.mem_append.mp h2 with h3 | h3
      · have h4 := (List.mem_filter.mp h3).2
        by_cases hrid : row.id = m1.LocalID
        · simp [hrid] at h4
        · simp [hrid]
      · have h4 := (List.mem_filter.mp h).2
        have hrow1 : row = messageRow senv m1 := List.mem_singleton.mp h3
        subst hrow1
        simp [messageRow, hhash] at h4
    · have hrow2 : row = messageRow senv m2 := List.mem_singleton.mp h
      subst hrow2
      simp [messageRow, Ne.symm hid]
  have hget : GetMessageByHash (SaveMessage senv true m2 (SaveMessage senv true m1 db)) m2.Hash
      = (ColumnTime (BindTime senv m2.DeliveryTime deliveryTimeFormat)).map
          (fun t => some { m2 with DeliveryTime := t }) := by
    unfold GetMessageByHash
    rw [hbyhash]
    show (loadMessage (messageRow senv m2)).map some = _
    rw [loadMessage_messageRow, Option.map_map]
    rfl
  refine ⟨hbyhash, hbyid, ?_, hget, ?_⟩
  · unfold GetMessage
    rw [hbyid]
    rfl
  · intro htime
    rw [hget, htime]
    rfl

/-- C24 at a concrete input: two messages with the hash `h1`, saved as `MON-001P`
and then as `MON-002P`. -/
theorem c24_later_message_replaces_same_hash_witness :
    GetMessageByHash
        (SaveMessage pacific true (noonMessage "MON-002P" "h1")
          (SaveMessage pacific true (noonMessage "MON-001P" "h1") emptyDB)) "h1"
      = some (some (noonMessage "MON-002P" "h1")) ∧
    GetMessage
        (SaveMessage pacific true (noonMessage "MON-002P" "h1")
          (SaveMessage pacific true (noonMessage "MON-001P" "h1") emptyDB)) "MON-001P"
      = some none :=
  ⟨(c24_later_message_replaces_same_hash pacific emptyDB (noonMessage "MON-001P" "h1")
      (noonMessage "MON-002P" "h1") rfl (by decide)).2.2.2.2 (by decide),
   (c24_later_message_replaces_same_hash pacific emptyDB (noonMessage "MON-001P" "h1")
      (noonMessage "MON-002P" "h1") rfl (by decide)).2.2.1⟩

/-! ## Sessions defined by the configuration (C22) -/

/-- C22, refuted by the code: `GetSessions` reads the session table and nothing
else.  On an empty table it returns no session, whatever the time range and
whatever sessions the configuration defines; and every session it returns has
the ID of a row of the table, so none is returned for a session that has no row
yet. -/
theorem c22_get_sessions_reads_only_the_table :
    (∀ (senv : StoreEnv) (start finish : Int),
      GetSessions senv emptyDB start finish = some []) ∧
    (∀ (senv : StoreEnv) (db : DB) (start finish : Int),
      (GetSessions senv db start finish).all
        (fun sessions => sessions.all
          fun s => db.sessions.any fun row => decide (row.id = s.ID)) = true) := by
  refine ⟨fun _ _ _ => rfl, ?_⟩
  intro senv db start finish
  cases hget : GetSessions senv db start finish with
  | none => rfl
  | some sessions =>
    have hids := loadSessions_ids senv db _ sessions hget
    show (sessions.all fun s => db.sessions.any fun row => decide (row.id = s.ID)) = true
    rw [List.all_eq_true]
    intro s hs
    have hmem : s.ID ∈ sessions.map (fun s => s.ID) := List.mem_map.mpr ⟨s, hs, rfl⟩
    rw [hids] at hmem
    rcases List.mem_map.mp hmem with ⟨row, hrow, hrowid⟩
    rw [List.any_eq_true]
    refine ⟨row, ?_, by simp [hrowid]⟩
    have hperm := List.perm_insertionSort endCallsignLe
      (db.sessions.filter
        (endsWithin (BindTime senv start startEndFormat)
          (BindTime senv finish startEndFormat)))
    exact (List.mem_filter.mp ((List.Perm.mem_iff hperm).mp hrow)).1

/-! ## Stored timestamps as text (C23)

### The calendar -/

theorem civilFromDays_eq (days : Int) :
    civilFromDays days
      = (yearOfEra ((days + 306) % 146097) + (days + 306) / 146097 * 400
          + (if (if monthFromMarch (dayOfYear ((days + 306) % 146097)) < 10
                then monthFromMarch (dayOfYear ((days + 306) % 146097)) + 3
                else monthFromMarch (dayOfYear ((days + 306) % 146097)) - 9) ≤ 2
              then 1 else 0),
         if monthFromMarch (dayOfYear ((days + 306) % 146097)) < 10
           then monthFromMarch (dayOfYear ((days + 306) % 146097)) + 3
           else monthFromMarch (dayOfYear ((days + 306) % 146097)) - 9,
         dayOfMonth (dayOfYear ((days + 306) % 146097))) := rfl

theorem leapless_mono (a b : Int) (ha : 0 ≤ a) (hab : a ≤ b) (hb : b ≤ 146096) :
    leapless a ≤ leapless b := by
  have h1 : a - a / 1460 ≤ b - b / 1460 := by omega
  have h2 : a / 36524 ≤ b / 36524 := by omega
  unfold leapless
  by_cases h : b = 146096
  · subst h
    by_cases h5 : a = 146096
    · subst h5
      exact le_refl _
    · have h3 : a / 146096 = 0 := by omega
      have h4 : a - a / 1460 ≤ 145995 := by omega
      have h6 : a / 36524 ≤ 3 := by omega
      have h7 : (146096 : Int) - 146096 / 1460 + 146096 / 36524 - 146096 / 146096 = 145999 := by
        decide
      rw [h7]
      linarith
  · have h3 : a / 146096 = 0 := by omega
    have h4 : b / 146096 = 0 := by omega
    linarith

theorem yearOfEra_bounds (doe : Int) (h0 : 0 ≤ doe) (h1 : doe ≤ 146096) :
    0 ≤ yearOfEra doe ∧ yearOfEra doe ≤ 399 := by
  unfold yearOfEra leapless
  omega

set_option maxRecDepth 100000 in
/-- For each year of an era, the leap-less count at its first and at its last day
(the last day of the era apart). -/
theorem leapless_year_ends :
    ∀ Y : Nat, Y < 400 →
      365 * (Y : Int) ≤ leapless (yearStart Y) ∧
      leapless (yearStart ((Y : Int) + 1) - 1) < 365 * ((Y : Int) + 1) := by
  decide

theorem exists_year (n : Nat) :
    ∀ doe : Int, 0 ≤ doe → doe < yearStart n →
      ∃ Y : Nat, Y < n ∧ yearStart Y ≤ doe ∧ doe < yearStart ((Y : Int) + 1) := by
  induction n with
  | zero =>
    intro doe h0 h1
    unfold yearStart at h1
    simp at h1
    omega
  | succ n ih =>
    intro doe h0 h1
    by_cases h : doe < yearStart n
    · obtain ⟨Y, hY, h2, h3⟩ := ih doe h0 h
      exact ⟨Y, by omega, h2, h3⟩
    · refine ⟨n, by omega, by omega, ?_⟩
      push_cast at h1
      exact h1

/-- The year and the day of the year found by `civilFromDays` for a day of the
era: the day lies in the year, which has at most 366 days. -/
theorem dayOfYear_bounds (doe : Int) (h0 : 0 ≤ doe) (h1 : doe ≤ 146096) :
    0 ≤ dayOfYear doe ∧ dayOfYear doe ≤ 365 := by
  by_cases hlast : doe = 146096
  · subst hlast
    decide
  · obtain ⟨Y, hY, h2, h3⟩ := exists_year 400 doe h0 (by unfold yearStart; omega)
    obtain ⟨e1, e2⟩ := leapless_year_ends Y hY
    have hs0 : 0 ≤ yearStart Y := by unfold yearStart; omega
    have hs1 : yearStart ((Y : Int) + 1) ≤ 146096 := by unfold yearStart; omega
    have m1 := leapless_mono (yearStart Y) doe hs0 h2 h1
    have m2 := leapless_mono doe (yearStart ((Y : Int) + 1) - 1) h0 (by omega) (by omega)
    have hyoe : yearOfEra doe = Y := by
      unfold yearOfEra
      omega
    unfold dayOfYear
    rw [hyoe]
    unfold yearStart at h2 h3 ⊢
    omega

theorem yearOfEra_mono (a b : Int) (ha : 0 ≤ a) (hab : a ≤ b) (hb : b ≤ 146096) :
    yearOfEra a ≤ yearOfEra b := by
  have := leapless_mono a b ha hab hb
  unfold yearOfEra
  omega

theorem monthFromMarch_bounds (doy : Int) (h0 : 0 ≤ doy) (h1 : doy ≤ 365) :
    0 ≤ monthFromMarch doy ∧ monthFromMarch doy ≤ 11 ∧
    1 ≤ dayOfMonth doy ∧ dayOfMonth doy ≤ 31 := by
  unfold dayOfMonth monthFromMarch
  omega

theorem monthFromMarch_mono (a b : Int) (hab : a < b) :
    monthFromMarch a < monthFromMarch b ∨
    (monthFromMarch a = monthFromMarch b ∧ dayOfMonth a < dayOfMonth b) := by
  unfold dayOfMonth monthFromMarch
  omega

theorem march_lt (a b : Int) (hab : a < b) :
    yearOfEra ((a + 306) % 146097) + (a + 306) / 146097 * 400
        < yearOfEra ((b + 306) % 146097) + (b + 306) / 146097 * 400 ∨
    (yearOfEra ((a + 306) % 146097) + (a + 306) / 146097 * 400
        = yearOfEra ((b + 306) % 146097) + (b + 306) / 146097 * 400 ∧
      (monthFromMarch (dayOfYear ((a + 306) % 146097))
          < monthFromMarch (dayOfYear ((b + 306) % 146097)) ∨
        (monthFromMarch (dayOfYear ((a + 306) % 146097))
            = monthFromMarch (dayOfYear ((b + 306) % 146097)) ∧
          dayOfMonth (dayOfYear ((a + 306) % 146097))
            < dayOfMonth (dayOfYear ((b + 306) % 146097))))) := by
  have ha0 : 0 ≤ (a + 306) % 146097 := by omega
  have ha1 : (a + 306) % 146097 ≤ 146096 := by omega
  have hb0 : 0 ≤ (b + 306) % 146097 := by omega
  have hb1 : (b + 306) % 146097 ≤ 146096 := by omega
  have hya := yearOfEra_bounds _ ha0 ha1
  have hyb := yearOfEra_bounds _ hb0 hb1
  have horder : (a + 306) / 146097 < (b + 306) / 146097 ∨
      ((a + 306) / 146097 = (b + 306) / 146097 ∧
        (a + 306) % 146097 < (b + 306) % 146097) := by omega
  rcases horder with hera | ⟨hera, hdoe⟩
  · left
    generalize yearOfEra ((a + 306) % 146097) = ya at hya ⊢
    generalize yearOfEra ((b + 306) % 146097) = yb at hyb ⊢
    omega
  · have hmono := yearOfEra_mono _ _ ha0 (le_of_lt hdoe) hb1
    rcases lt_or_eq_of_le hmono with hlt | heq
    · left
      rw [hera]
      omega
    · right
      refine ⟨by rw [hera, heq], ?_⟩
      apply monthFromMarch_mono
      unfold dayOfYear
      rw [heq]
      omega

theorem civilFromDays_bounds (days : Int) :
    1 ≤ (civilFromDays days).2.1 ∧ (civilFromDays days).2.1 ≤ 12 ∧
    1 ≤ (civilFromDays days).2.2 ∧ (civilFromDays days).2.2 ≤ 31 := by
  have h0 : 0 ≤ (days + 306) % 146097 := by omega
  have h1 : (days + 306) % 146097 ≤ 146096 := by omega
  obtain ⟨hd0, hd1⟩ := dayOfYear_bounds _ h0 h1
  obtain ⟨hm0, hm1, hx0, hx1⟩ := monthFromMarch_bounds _ hd0 hd1
  rw [civilFromDays_eq]
  simp only
  refine ⟨?_, ?_, hx0, hx1⟩
  · split <;> omega
  · split <;> omega

/-- The calendar date found by `civilFromDays` grows with the day: of two days,
the later one has the later date, comparing years, then months, then days of the
month. -/
theorem civilFromDays_lt (a b : Int) (hab : a < b) :
    (civilFromDays a).1 < (civilFromDays b).1 ∨
    ((civilFromDays a).1 = (civilFromDays b).1 ∧
      ((civilFromDays a).2.1 < (civilFromDays b).2.1 ∨
        ((civilFromDays a).2.1 = (civilFromDays b).2.1 ∧
          (civilFromDays a).2.2 < (civilFromDays b).2.2))) := by
  have ha0 : 0 ≤ (a + 306) % 146097 := by omega
  have ha1 : (a + 306) % 146097 ≤ 146096 := by omega
  have hb0 : 0 ≤ (b + 306) % 146097 := by omega
  have hb1 : (b + 306) % 146097 ≤ 146096 := by omega
  obtain ⟨hda0, hda1⟩ := dayOfYear_bounds _ ha0 ha1
  obtain ⟨hdb0, hdb1⟩ := dayOfYear_bounds _ hb0 hb1
  obtain ⟨hma0, hma1, _, _⟩ := monthFromMarch_bounds _ hda0 hda1
  obtain ⟨hmb0, hmb1, _, _⟩ := monthFromMarch_bounds _ hdb0 hdb1
  have hm := march_lt a b hab
  rw [civilFromDays_eq a, civilFromDays_eq b]
  simp only
  generalize yearOfEra ((a + 306) % 146097) + (a + 306) / 146097 * 400 = Ya at hm ⊢
  generalize yearOfEra ((b + 306) % 146097) + (b + 306) / 146097 * 400 = Yb at hm ⊢
  generalize monthFromMarch (dayOfYear ((a + 306) % 146097)) = Ma at hm hma0 hma1 ⊢
  generalize monthFromMarch (dayOfYear ((b + 306) % 146097)) = Mb at hm hmb0 hmb1 ⊢
  generalize dayOfMonth (dayOfYear ((a + 306) % 146097)) = Da at hm ⊢
  generalize dayOfMonth (dayOfYear ((b + 306) % 146097)) = Db at hm ⊢
  split_ifs <;> omega

theorem civilFromDays_le (a b : Int) (hab : a ≤ b) :
    (civilFromDays a).1 ≤ (civilFromDays b).1 := by
  rcases lt_or_eq_of_le hab with h | h
  · rcases civilFromDays_lt a b h with h1 | ⟨h1, _⟩
    · exact le_of_lt h1
    · exact le_of_eq h1
  · rw [h]

/-- The days from 0000-01-01 to 9999-12-31 lie in the years 0 to 9999. -/
theorem civilFromDays_year (days : Int) (h0 : -366 ≤ days) (h1 : days ≤ 3652058) :
    0 ≤ (civilFromDays days).1 ∧ (civilFromDays days).1 ≤ 9999 := by
  have hlo := civilFromDays_le (-366) days h0
  have hhi := civilFromDays_le days 3652058 h1
  have e1 : (civilFromDays (-366)).1 = 0 := by decide
  have e2 : (civilFromDays 3652058).1 = 9999 := by decide
  rw [e1] at hlo
  rw [e2] at hhi
  exact ⟨hlo, hhi⟩

/-! ### Digits -/

theorem digitChar_toNat : ∀ k : Nat, k < 10 → (Nat.digitChar k).toNat = 48 + k := by
  decide

theorem digits2_cases : ∀ k : Nat, k < 100 →
    (digits2 (k : Int)).data = [Nat.digitChar (k / 10), Nat.digitChar (k % 10)] := by
  decide

theorem toDigitsCore_step (fuel n : Nat) (ds : List Char) :
    Nat.toDigitsCore 10 (fuel + 1) n ds
      = if n / 10 = 0 then Nat.digitChar (n % 10) :: ds
        else Nat.toDigitsCore 10 fuel (n / 10) (Nat.digitChar (n % 10) :: ds) := rfl

theorem toString_data (k : Nat) : (toString k).data = Nat.toDigitsCore 10 (k + 1) k [] := rfl

theorem digits4_cases (k : Nat) (hk : k < 10000) :
    (digits4 (k : Int)).data
      = [Nat.digitChar (k / 1000), Nat.digitChar (k / 100 % 10), Nat.digitChar (k / 10 % 10),
          Nat.digitChar (k % 10)] := by
  have htoNat : ((k : Int)).toNat = k := Int.toNat_natCast k
  unfold digits4
  rw [htoNat, String.data_append, toString_data]
  by_cases h1 : k < 10
  · rw [if_pos h1, toDigitsCore_step, if_pos (by omega)]
    have e1 : k / 1000 = 0 := by omega
    have e2 : k / 100 % 10 = 0 := by omega
    have e3 : k / 10 % 10 = 0 := by omega
    rw [e1, e2, e3]
    rfl
  · rw [if_neg h1]
    by_cases h2 : k < 100
    · obtain ⟨f, rfl⟩ : ∃ f, k = f + 1 := ⟨k - 1, by omega⟩
      rw [if_pos h2, toDigitsCore_step, if_neg (by omega), toDigitsCore_step, if_pos (by omega)]
      have e1 : (f + 1) / 1000 = 0 := by omega
      have e2 : (f + 1) / 100 % 10 = 0 := by omega
      rw [e1, e2]
      rfl
    · rw [if_neg h2]
      by_cases h3 : k < 1000
      · obtain ⟨f, rfl⟩ : ∃ f, k = f + 2 := ⟨k - 2, by omega⟩
        rw [if_pos h3, toDigitsCore_step, if_neg (by omega), toDigitsCore_step,
          if_neg (by omega), toDigitsCore_step, if_pos (by omega)]
        have e1 : (f + 2) / 1000 = 0 := by omega
        have e2 : (f + 2) / 10 / 10 % 10 = (f + 2) / 100 % 10 := by omega
        rw [e1, e2]
        rfl
      · obtain ⟨f, rfl⟩ : ∃ f, k = f + 3 := ⟨k - 3, by omega⟩
        rw [if_neg h3, toDigitsCore_step, if_neg (by omega), toDigitsCore_step,
          if_neg (by omega), toDigitsCore_step, if_neg (by omega), toDigitsCore_step,
          if_pos (by omega)]
        have e1 : (f + 3) / 10 / 10 / 10 % 10 = (f + 3) / 1000 := by omega
        have e2 : (f + 3) / 10 / 10 % 10 = (f + 3) / 100 % 10 := by omega
        rw [e1, e2]
        rfl

/-! ### Comparing texts -/

theorem charsLt_cons (a b : Char) (as bs : List Char) :
    charsLt (a :: as) (b :: bs)
      = if a.toNat < b.toNat then true
        else if b.toNat < a.toNat then false
        else charsLt as bs := rfl

theorem charsLt_irrefl (a : List Char) : charsLt a a = false := by
  induction a with
  | nil => rfl
  | cons c cs ih =>
    rw [charsLt_cons, if_neg (lt_irrefl _), if_neg (lt_irrefl _)]
    exact ih

theorem charsLt_asymm (a : List Char) :
    ∀ b : List Char, charsLt a b = true → charsLt b a = false := by
  induction a with
  | nil =>
    intro b _
    cases b <;> rfl
  | cons c cs ih =>
    intro b h
    cases b with
    | nil => exact absurd h (by simp [charsLt])
    | cons e es =>
      rw [charsLt_cons] at h ⊢
      by_cases h1 : c.toNat < e.toNat
      · rw [if_neg (by omega), if_pos h1]
      · rw [if_neg h1] at h
        by_cases h2 : e.toNat < c.toNat
        · rw [if_pos h2] at h
          exact absurd h (by decide)
        · rw [if_neg h2] at h
          rw [if_neg h2, if_neg h1]
          exact ih es h

theorem charsLt_sep (c : Char) (x y : List Char) : charsLt (c :: x) (c :: y) = charsLt x y := by
  rw [charsLt_cons, if_neg (lt_irrefl _), if_neg (lt_irrefl _)]

/-- Texts that begin with fields of one length are compared field by field. -/
theorem charsLt_field (a : List Char) :
    ∀ (b x y : List Char), a.length = b.length →
      charsLt (a ++ x) (b ++ y) = (charsLt a b || (!charsLt b a && charsLt x y)) := by
  induction a with
  | nil =>
    intro b x y hlen
    have hb : b = [] := List.length_eq_zero.mp hlen.symm
    subst hb
    simp [charsLt]
  | cons c cs ih =>
    intro b x y hlen
    cases b with
    | nil => simp at hlen
    | cons e es =>
      have hlen2 : cs.length = es.length := by simpa using hlen
      rw [List.cons_append, List.cons_append, charsLt_cons, charsLt_cons, charsLt_cons]
      by_cases h1 : c.toNat < e.toNat
      · rw [if_pos h1, if_pos h1]
        rfl
      · rw [if_neg h1, if_neg h1]
        by_cases h2 : e.toNat < c.toNat
        · rw [if_pos h2, if_pos h2, if_pos h2]
          rfl
        · rw [if_neg h2, if_neg h2, if_neg h2, if_neg h1]
          exact ih es x y hlen2

theorem digits2_data (n : Int) (h0 : 0 ≤ n) (h1 : n < 100) :
    (digits2 n).data = [Nat.digitChar (n.toNat / 10), Nat.digitChar (n.toNat % 10)] := by
  have h := digits2_cases n.toNat (by omega)
  rw [Int.toNat_of_nonneg h0] at h
  exact h

theorem digits4_data (n : Int) (h0 : 0 ≤ n) (h1 : n < 10000) :
    (digits4 n).data
      = [Nat.digitChar (n.toNat / 1000), Nat.digitChar (n.toNat / 100 % 10),
          Nat.digitChar (n.toNat / 10 % 10), Nat.digitChar (n.toNat % 10)] := by
  have h := digits4_cases n.toNat (by omega)
  rw [Int.toNat_of_nonneg h0] at h
  exact h

/-- Two numbers below 100, written with two digits, compare as texts the way they
compare as numbers. -/
theorem charsLt_digits2 (a b : Int) (ha0 : 0 ≤ a) (ha1 : a < 100) (hb0 : 0 ≤ b)
    (hb1 : b < 100) :
    charsLt (digits2 a).data (digits2 b).data = decide (a < b) := by
  rw [digits2_data a ha0 ha1, digits2_data b hb0 hb1]
  simp only [charsLt_cons, charsLt]
  rw [digitChar_toNat (a.toNat / 10) (by omega), digitChar_toNat (a.toNat % 10) (by omega),
    digitChar_toNat (b.toNat / 10) (by omega), digitChar_toNat (b.toNat % 10) (by omega)]
  by_cases h : a < b
  · rw [decide_eq_true h]
    split_ifs <;> first | rfl | omega
  · rw [decide_eq_false h]
    split_ifs <;> first | rfl | omega

/-- Two numbers below 10000, written with four digits, compare as texts the way
they compare as numbers. -/
theorem charsLt_digits4 (a b : Int) (ha0 : 0 ≤ a) (ha1 : a < 10000) (hb0 : 0 ≤ b)
    (hb1 : b < 10000) :
    charsLt (digits4 a).data (digits4 b).data = decide (a < b) := by
  rw [digits4_data a ha0 ha1, digits4_data b hb0 hb1]
  simp only [charsLt_cons, charsLt]
  rw [digitChar_toNat (a.toNat / 1000) (by omega),
    digitChar_toNat (a.toNat / 100 % 10) (by omega),
    digitChar_toNat (a.toNat / 10 % 10) (by omega), digitChar_toNat (a.toNat % 10) (by omega),
    digitChar_toNat (b.toNat / 1000) (by omega),
    digitChar_toNat (b.toNat / 100 % 10) (by omega),
    digitChar_toNat (b.toNat / 10 % 10) (by omega), digitChar_toNat (b.toNat % 10) (by omega)]
  by_cases h : a < b
  · rw [decide_eq_true h]
    split_ifs <;> first | rfl | omega
  · rw [decide_eq_false h]
    split_ifs <;> first | rfl | omega

theorem digits2_length (n : Int) (h0 : 0 ≤ n) (h1 : n < 100) : (digits2 n).data.length = 2 := by
  rw [digits2_data n h0 h1]
  rfl

theorem digits4_length (n : Int) (h0 : 0 ≤ n) (h1 : n < 10000) :
    (digits4 n).data.length = 4 := by
  rw [digits4_data n h0 h1]
  rfl

/-! ### The text of a time -/

theorem startEndFormat_ne_lastRunFormat : startEndFormat ≠ lastRunFormat := by decide

theorem formatTime_data (offset t : Int) :
    (formatTime startEndFormat offset t).data
      = dateTimeChars (t / second + offset) ++ offsetChars offset := by
  unfold formatTime dateTimeChars offsetChars
  simp only [if_neg startEndFormat_ne_lastRunFormat, String.data_append]
  simp [List.append_assoc]

/-- The date and time of day of a later second is the greater text. -/
theorem dateTimeChars_lt (a b : Int) (hab : a < b) (ha : -366 * 86400 ≤ a)
    (hb : b < 3652059 * 86400) :
    charsLt (dateTimeChars a) (dateTimeChars b) = true := by
  obtain ⟨hya0, hya1⟩ := civilFromDays_year (a / 86400) (by omega) (by omega)
  obtain ⟨hyb0, hyb1⟩ := civilFromDays_year (b / 86400) (by omega) (by omega)
  obtain ⟨hma0, hma1, hda0, hda1⟩ := civilFromDays_bounds (a / 86400)
  obtain ⟨hmb0, hmb1, hdb0, hdb1⟩ := civilFromDays_bounds (b / 86400)
  have hdate : a / 86400 < b / 86400 ∨ (a / 86400 = b / 86400 ∧ a % 86400 < b % 86400) := by
    omega
  have hfields :
      (civilFromDays (a / 86400)).1 < (civilFromDays (b / 86400)).1 ∨
      ((civilFromDays (a / 86400)).1 = (civilFromDays (b / 86400)).1 ∧
        ((civilFromDays (a / 86400)).2.1 < (civilFromDays (b / 86400)).2.1 ∨
          ((civilFromDays (a / 86400)).2.1 = (civilFromDays (b / 86400)).2.1 ∧
            ((civilFromDays (a / 86400)).2.2 < (civilFromDays (b / 86400)).2.2 ∨
              ((civilFromDays (a / 86400)).2.2 = (civilFromDays (b / 86400)).2.2 ∧
                (a % 86400 / 3600 < b % 86400 / 3600 ∨
                  (a % 86400 / 3600 = b % 86400 / 3600 ∧
                    (a % 86400 % 3600 / 60 < b % 86400 % 3600 / 60 ∨
                      (a % 86400 % 3600 / 60 = b % 86400 % 3600 / 60 ∧
                        a % 86400 % 60 < b % 86400 % 60))))))))) := by
    rcases hdate with hlt | ⟨heq, hsod⟩
    · rcases civilFromDays_lt _ _ hlt with h | ⟨h1, h | ⟨h2, h3⟩⟩
      · exact Or.inl h
      · exact Or.inr ⟨h1, Or.inl h⟩
      · exact Or.inr ⟨h1, Or.inr ⟨h2, Or.inl h3⟩⟩
    · rw [heq]
      refine Or.inr ⟨rfl, Or.inr ⟨rfl, Or.inr ⟨rfl, ?_⟩⟩⟩
      omega
  have hh : ∀ s : Int, 0 ≤ s % 86400 / 3600 ∧ s % 86400 / 3600 < 100 ∧
      0 ≤ s % 86400 % 3600 / 60 ∧ s % 86400 % 3600 / 60 < 100 ∧
      0 ≤ s % 86400 % 60 ∧ s % 86400 % 60 < 100 := by
    intro s
    omega
  obtain ⟨a1, a2, a3, a4, a5, a6⟩ := hh a
  obtain ⟨b1, b2, b3, b4, b5, b6⟩ := hh b
  unfold dateTimeChars
  generalize (civilFromDays (a / 86400)).1 = ya at *
  generalize (civilFromDays (b / 86400)).1 = yb at *
  generalize (civilFromDays (a / 86400)).2.1 = ma at *
  generalize (civilFromDays (b / 86400)).2.1 = mb at *
  generalize (civilFromDays (a / 86400)).2.2 = da at *
  generalize (civilFromDays (b / 86400)).2.2 = db at *
  generalize a % 86400 / 3600 = ha at *
  generalize b % 86400 / 3600 = hb2 at *
  generalize a % 86400 % 3600 / 60 = na at *
  generalize b % 86400 % 3600 / 60 = nb at *
  generalize a % 86400 % 60 = sa at *
  generalize b % 86400 % 60 = sb at *
  simp only [List.append_assoc, List.cons_append]
  rw [charsLt_field _ _ _ _ (by rw [digits4_length ya hya0 (by omega),
      digits4_length yb hyb0 (by omega)]),
    charsLt_digits4 ya yb hya0 (by omega) hyb0 (by omega),
    charsLt_digits4 yb ya hyb0 (by omega) hya0 (by omega),
    charsLt_sep,
    charsLt_field _ _ _ _ (by rw [digits2_length ma (by omega) (by omega),
      digits2_length mb (by omega) (by omega)]),
    charsLt_digits2 ma mb (by omega) (by omega) (by omega) (by omega),
    charsLt_digits2 mb ma (by omega) (by omega) (by omega) (by omega),
    charsLt_sep,
    charsLt_field _ _ _ _ (by rw [digits2_length da (by omega) (by omega),
      digits2_length db (by omega) (by omega)]),
    charsLt_digits2 da db (by omega) (by omega) (by omega) (by omega),
    charsLt_digits2 db da (by omega) (by omega) (by omega) (by omega),
    charsLt_sep,
    charsLt_field _ _ _ _ (by rw [digits2_length ha a1 a2, digits2_length hb2 b1 b2]),
    charsLt_digits2 ha hb2 a1 a2 b1 b2, charsLt_digits2 hb2 ha b1 b2 a1 a2,
    charsLt_sep,
    charsLt_field _ _ _ _ (by rw [digits2_length na a3 a4, digits2_length nb b3 b4]),
    charsLt_digits2 na nb a3 a4 b3 b4, charsLt_digits2 nb na b3 b4 a3 a4,
    charsLt_sep,
    charsLt_digits2 sa sb a5 a6 b5 b6]
  simp only [Bool.or_eq_true, Bool.and_eq_true, Bool.not_eq_true', decide_eq_true_eq,
    decide_eq_false_iff_not]
  omega

theorem dateTimeChars_length (a : Int) (ha : -366 * 86400 ≤ a) (hb : a < 3652059 * 86400) :
    (dateTimeChars a).length = 19 := by
  obtain ⟨hy0, hy1⟩ := civilFromDays_year (a / 86400) (by omega) (by omega)
  obtain ⟨hm0, hm1, hd0, hd1⟩ := civilFromDays_bounds (a / 86400)
  unfold dateTimeChars
  simp only [List.length_append, List.length_cons]
  rw [digits4_length _ hy0 (by omega), digits2_length _ (by omega) (by omega),
    digits2_length _ (by omega) (by omega), digits2_length _ (by omega) (by omega),
    digits2_length _ (by omega) (by omega), digits2_length _ (by omega) (by omega)]

theorem formatTime_same_second (offset t1 t2 : Int) (h : t1 / second = t2 / second) :
    formatTime startEndFormat offset t1 = formatTime startEndFormat offset t2 := by
  unfold formatTime
  simp only [if_neg startEndFormat_ne_lastRunFormat, h]

/-- The texts of two times written with the same offset from UTC, in the years 0
to 9999 of local time: that of the later second is the greater. -/
theorem formatTime_lt (offset t1 t2 : Int) (hlt : t1 / second < t2 / second)
    (hlo : -366 * 86400 ≤ t1 / second + offset)
    (hhi : t2 / second + offset < 3652059 * 86400) :
    textLt (formatTime startEndFormat offset t1) (formatTime startEndFormat offset t2)
      = true := by
  unfold textLt
  rw [formatTime_data, formatTime_data,
    charsLt_field _ _ _ _ (by
      rw [dateTimeChars_length _ hlo (by omega), dateTimeChars_length _ (by omega) hhi]),
    dateTimeChars_lt _ _ (by omega) hlo hhi]
  rfl

theorem year10000_eq : year10000 = 3652059 * 86400 * 1000000000 := by decide

/-- C23, refuted by the code: in a zone that falls back from seven to eight hours
behind UTC, 01:30 before the change is earlier than 01:10 after it, yet its text
is the greater.  A stored session that ends at 01:10 after the change ends forty
minutes inside the range from 01:30 before the change to 01:30 of the next day,
and the comment on `GetSessions` says that the sessions ending during the range
are returned; yet `GetSessions` returns none for this range. -/
theorem c23_get_sessions_misses_session_across_offset_change :
    dateTime 2022 11 6 1 30 0 (-25200) < dateTime 2022 11 6 1 10 0 (-28800) ∧
    BindTime fallBack (dateTime 2022 11 6 1 30 0 (-25200)) startEndFormat
      = "2022-11-06 01:30:00-07:00" ∧
    BindTime fallBack (dateTime 2022 11 6 1 10 0 (-28800)) startEndFormat
      = "2022-11-06 01:10:00-08:00" ∧
    textLt (BindTime fallBack (dateTime 2022 11 6 1 10 0 (-28800)) startEndFormat)
      (BindTime fallBack (dateTime 2022 11 6 1 30 0 (-25200)) startEndFormat) = true ∧
    endsWithin (BindTime fallBack (dateTime 2022 11 6 1 30 0 (-25200)) startEndFormat)
      (BindTime fallBack (dateTime 2022 11 7 1 30 0 (-28800)) startEndFormat)
      (sessionRow fallBack 1
        (practiceSession 1 (dateTime 2022 10 31 0 0 0 (-25200))
          (dateTime 2022 11 6 1 10 0 (-28800)) 0 [])) = false ∧
    dateTime 2022 11 6 1 10 0 (-28800) < dateTime 2022 11 7 1 30 0 (-28800) ∧
    GetSession fallBack
        (CreateSession fallBack
          (practiceSession 0 (dateTime 2022 10 31 0 0 0 (-25200))
            (dateTime 2022 11 6 1 10 0 (-28800)) 0 []) emptyDB).2 1
      = some (some (practiceSession 1 (dateTime 2022 10 31 0 0 0 (-25200))
          (dateTime 2022 11 6 1 10 0 (-28800)) 0 [])) ∧
    GetSessions fallBack
        (CreateSession fallBack
          (practiceSession 0 (dateTime 2022 10 31 0 0 0 (-25200))
            (dateTime 2022 11 6 1 10 0 (-28800)) 0 []) emptyDB).2
        (dateTime 2022 11 6 1 30 0 (-25200)) (dateTime 2022 11 7 1 30 0 (-28800))
      = some [] := by
  refine ⟨by decide, by decide, by decide, by decide, by decide, by decide, by decide,
    by decide⟩

/-- Texts of one offset are in order: for two instants whose local times lie in
the years 1 to 9999 and which `BindTime` writes in `startEndFormat` with the same
offset from UTC, the text of the earlier is not greater than the text of the
later; when the instants lie in different seconds the text of the earlier is
less, and when they lie in the same second the texts are equal. -/
theorem BindTime_same_offset_sorted (senv : StoreEnv) (t1 t2 : Int)
    (h0 : 0 ≤ t1) (hle : t1 ≤ t2) (hzone : senv.zone t1 = senv.zone t2)
    (hlo : 0 ≤ t1 + senv.zone t1 * second)
    (hhi : t2 + senv.zone t2 * second < year10000) :
    textLt (BindTime senv t2 startEndFormat) (BindTime senv t1 startEndFormat) = false ∧
    (t1 / second < t2 / second →
      textLt (BindTime senv t1 startEndFormat) (BindTime senv t2 startEndFormat) = true) ∧
    (t1 ≠ 0 → t1 / second = t2 / second →
      BindTime senv t1 startEndFormat = BindTime senv t2 startEndFormat) := by
  rw [year10000_eq] at hhi
  have hlo1 : -366 * 86400 ≤ t1 / second + senv.zone t1 := by
    unfold second at hlo ⊢
    omega
  have hhi2 : t2 / second + senv.zone t2 < 3652059 * 86400 := by
    unfold second at hhi ⊢
    omega
  have hsec : t1 / second ≤ t2 / second := by
    unfold second
    omega
  by_cases ht1 : t1 = 0
  · subst ht1
    have hb1 : BindTime senv 0 startEndFormat = "" := by
      unfold BindTime
      rw [if_pos rfl]
    refine ⟨?_, ?_, fun h => absurd rfl h⟩
    · rw [hb1]
      unfold textLt
      cases (BindTime senv t2 startEndFormat).data <;> rfl
    · intro hlt
      have ht2 : t2 ≠ 0 := by
        intro h
        rw [h] at hlt
        exact absurd hlt (lt_irrefl _)
      have hlen := dateTimeChars_length (t2 / second + senv.zone t2) (by
        have : (0 : Int) / second = 0 := by decide
        unfold second at hlo hhi hlt this ⊢
        omega) hhi2
      rw [hb1]
      unfold BindTime textLt
      rw [if_neg ht2, formatTime_data]
      cases hd : dateTimeChars (t2 / second + senv.zone t2) with
      | nil => rw [hd] at hlen; simp at hlen
      | cons c cs => rfl
  · have ht2 : t2 ≠ 0 := by omega
    have hb1 : BindTime senv t1 startEndFormat
        = formatTime startEndFormat (senv.zone t2) t1 := by
      unfold BindTime
      rw [if_neg ht1, hzone]
    have hb2 : BindTime senv t2 startEndFormat
        = formatTime startEndFormat (senv.zone t2) t2 := by
      unfold BindTime
      rw [if_neg ht2]
    rw [hb1, hb2]
    rw [hzone] at hlo1
    have hstrict : t1 / second < t2 / second →
        textLt (formatTime startEndFormat (senv.zone t2) t1)
          (formatTime startEndFormat (senv.zone t2) t2) = true :=
      fun hlt => formatTime_lt (senv.zone t2) t1 t2 hlt hlo1 hhi2
    refine ⟨?_, hstrict, fun _ heq => formatTime_same_second _ _ _ heq⟩
    rcases lt_or_eq_of_le hsec with hlt | heq
    · exact charsLt_asymm _ _ (hstrict hlt)
    · rw [formatTime_same_second _ _ _ heq]
      exact charsLt_irrefl _

/-- Noon and half a second past noon, eight hours behind UTC, have the same text;
noon and a day later are in order. -/
theorem BindTime_same_offset_sorted_example :
    textLt (BindTime pacific (noon + day) startEndFormat) (BindTime pacific noon startEndFormat)
      = false ∧
    textLt (BindTime pacific noon startEndFormat) (BindTime pacific (noon + day) startEndFormat)
      = true ∧
    BindTime pacific noon startEndFormat
      = BindTime pacific (noon + 500 * millisecond) startEndFormat :=
  ⟨(BindTime_same_offset_sorted pacific noon (noon + day)
      (by decide) (by decide) rfl (by decide) (by decide)).1,
   (BindTime_same_offset_sorted pacific noon (noon + day)
      (by decide) (by decide) rfl (by decide) (by decide)).2.1 (by decide),
   (BindTime_same_offset_sorted pacific noon (noon + 500 * millisecond)
      (by decide) (by decide) rfl (by decide) (by decide)).2.2 (by decide) (by decide)⟩

end Wppsvr
